import Mathlib

/-! Lazy flag thunk evaluator of the ARM guest (guest_arm_helpers.c).

A shallow embedding of `lshift`, `armg_calculate_flags_nzcv`,
`armg_calculate_flag_c`, `armg_calculate_flag_v` and
`armg_calculate_condition`.  A C `UInt` is a natural number below `2^32`;
every arithmetic step that can wrap is reduced modulo `2^32` explicitly.
A call to `vpanic` is the result `none`.
-/

namespace Valvex

/-! ## Machine words -/

/-- C addition on `UInt`. -/
def add32 (a b : Nat) : Nat := (a + b) % 4294967296

/-- C subtraction on `UInt` (operands below `2^32`). -/
def sub32 (a b : Nat) : Nat := (a + (4294967296 - b % 4294967296)) % 4294967296

/-- C bitwise complement on `UInt`. -/
def not32 (a : Nat) : Nat := 4294967295 - a % 4294967296

/-- The value of a C comparison, `0` or `1`, as a `UInt`. -/
def b2u (p : Bool) : Nat := if p then 1 else 0

/-- Signed reading of a 32-bit word (twos complement). -/
def sint (x : Nat) : Int := if x < 2147483648 then (x : Int) else (x : Int) - 4294967296

/-- Bit `i` of a word, as `0` or `1`. -/
def bitOf (x i : Nat) : Nat := (x >>> i) &&& 1

/-! ## Constants of guest_arm_defs.h -/

/-- Modelled from the spec: guest_arm_defs.h is not among the sources; the
thunk ops are numbered in the order of the table of section 3. -/
def ARMG_CC_OP_COPY : Nat := 0
/-- Modelled from the spec: thunk op `ADD` of guest_arm_defs.h. -/
def ARMG_CC_OP_ADD : Nat := 1
/-- Modelled from the spec: thunk op `SUB` of guest_arm_defs.h. -/
def ARMG_CC_OP_SUB : Nat := 2
/-- Modelled from the spec: thunk op `ADC` of guest_arm_defs.h. -/
def ARMG_CC_OP_ADC : Nat := 3
/-- Modelled from the spec: thunk op `SBB` of guest_arm_defs.h. -/
def ARMG_CC_OP_SBB : Nat := 4
/-- Modelled from the spec: thunk op `LOGIC` of guest_arm_defs.h. -/
def ARMG_CC_OP_LOGIC : Nat := 5
/-- Modelled from the spec: thunk op `MUL` of guest_arm_defs.h. -/
def ARMG_CC_OP_MUL : Nat := 6
/-- Modelled from the spec: thunk op `MULL` of guest_arm_defs.h. -/
def ARMG_CC_OP_MULL : Nat := 7

/-- Modelled from the spec: guest_arm_defs.h is not among the sources; N is
bit 31 of the packed flags word. -/
def ARMG_CC_SHIFT_N : Nat := 31
/-- Modelled from the spec: Z is bit 30 of the packed flags word. -/
def ARMG_CC_SHIFT_Z : Nat := 30
/-- Modelled from the spec: C is bit 29 of the packed flags word. -/
def ARMG_CC_SHIFT_C : Nat := 29
/-- Modelled from the spec: V is bit 28 of the packed flags word. -/
def ARMG_CC_SHIFT_V : Nat := 28

/-- Modelled from the spec: the mask of the V flag, `1 << ARMG_CC_SHIFT_V`. -/
def ARMG_CC_MASK_V : Nat := 1 <<< ARMG_CC_SHIFT_V

/-- Modelled from the spec: guest_arm_defs.h is not among the sources; the
condition codes are numbered so that each even code is followed by its
inverse: EQ=0, NE=1, HS=2, LO=3, MI=4, PL=5, VS=6, VC=7, HI=8, LS=9, GE=10,
LT=11, GT=12, LE=13, AL=14, NV=15. -/
def ARMCondEQ : Nat := 0
/-- Modelled from the spec: condition code `NE`. -/
def ARMCondNE : Nat := 1
/-- Modelled from the spec: condition code `HS`. -/
def ARMCondHS : Nat := 2
/-- Modelled from the spec: condition code `LO`. -/
def ARMCondLO : Nat := 3
/-- Modelled from the spec: condition code `MI`. -/
def ARMCondMI : Nat := 4
/-- Modelled from the spec: condition code `PL`. -/
def ARMCondPL : Nat := 5
/-- Modelled from the spec: condition code `VS`. -/
def ARMCondVS : Nat := 6
/-- Modelled from the spec: condition code `VC`. -/
def ARMCondVC : Nat := 7
/-- Modelled from the spec: condition code `HI`. -/
def ARMCondHI : Nat := 8
/-- Modelled from the spec: condition code `LS`. -/
def ARMCondLS : Nat := 9
/-- Modelled from the spec: condition code `GE`. -/
def ARMCondGE : Nat := 10
/-- Modelled from the spec: condition code `LT`. -/
def ARMCondLT : Nat := 11
/-- Modelled from the spec: condition code `GT`. -/
def ARMCondGT : Nat := 12
/-- Modelled from the spec: condition code `LE`. -/
def ARMCondLE : Nat := 13
/-- Modelled from the spec: condition code `AL`. -/
def ARMCondAL : Nat := 14
/-- Modelled from the spec: condition code `NV`. -/
def ARMCondNV : Nat := 15

/-! ## The flag helpers -/

/-- The generalised left-shifter `lshift`: a left shift on `UInt` for
`n >= 0`, a right shift by `-n` otherwise. -/
def lshift (x : Nat) (n : Int) : Nat :=
  if n ≥ 0 then (x <<< n.toNat) % 4294967296 else x >>> (-n).toNat

/-- The helper `armg_calculate_flags_nzcv`: NZCV from the thunk components;
`none` is the `vpanic` of the default case. -/
def armg_calculate_flags_nzcv (cc_op cc_dep1 cc_dep2 cc_dep3 : Nat) : Option Nat :=
  if cc_op = ARMG_CC_OP_COPY then
    some cc_dep1
  else if cc_op = ARMG_CC_OP_ADD then
    let argL := cc_dep1
    let argR := cc_dep2
    let res := add32 argL argR
    let nf := lshift (res &&& (1 <<< 31)) ((ARMG_CC_SHIFT_N : Int) - 31)
    let zf := lshift (b2u (res == 0)) ARMG_CC_SHIFT_Z
    let cf := lshift (b2u (decide (res < argL))) ARMG_CC_SHIFT_C
    let vf := lshift ((res ^^^ argL) &&& (res ^^^ argR)) ((ARMG_CC_SHIFT_V : Int) + 1 - 32)
              &&& ARMG_CC_MASK_V
    some (nf ||| zf ||| cf ||| vf)
  else if cc_op = ARMG_CC_OP_SUB then
    let argL := cc_dep1
    let argR := cc_dep2
    let res := sub32 argL argR
    let nf := lshift (res &&& (1 <<< 31)) ((ARMG_CC_SHIFT_N : Int) - 31)
    let zf := lshift (b2u (res == 0)) ARMG_CC_SHIFT_Z
    let cf := lshift (b2u (decide (argL ≥ argR))) ARMG_CC_SHIFT_C
    let vf := lshift ((argL ^^^ argR) &&& (argL ^^^ res)) ((ARMG_CC_SHIFT_V : Int) + 1 - 32)
              &&& ARMG_CC_MASK_V
    some (nf ||| zf ||| cf ||| vf)
  else if cc_op = ARMG_CC_OP_ADC then
    let argL := cc_dep1
    let argR := cc_dep2
    let oldC := cc_dep3
    let res := add32 (add32 argL argR) oldC
    let nf := lshift (res &&& (1 <<< 31)) ((ARMG_CC_SHIFT_N : Int) - 31)
    let zf := lshift (b2u (res == 0)) ARMG_CC_SHIFT_Z
    let cf := if oldC ≠ 0 then lshift (b2u (decide (res ≤ argL))) ARMG_CC_SHIFT_C
              else lshift (b2u (decide (res < argL))) ARMG_CC_SHIFT_C
    let vf := lshift ((res ^^^ argL) &&& (res ^^^ argR)) ((ARMG_CC_SHIFT_V : Int) + 1 - 32)
              &&& ARMG_CC_MASK_V
    some (nf ||| zf ||| cf ||| vf)
  else if cc_op = ARMG_CC_OP_SBB then
    let argL := cc_dep1
    let argR := cc_dep2
    let oldC := cc_dep3
    let res := sub32 (sub32 argL argR) (oldC ^^^ 1)
    let nf := lshift (res &&& (1 <<< 31)) ((ARMG_CC_SHIFT_N : Int) - 31)
    let zf := lshift (b2u (res == 0)) ARMG_CC_SHIFT_Z
    let cf := if oldC ≠ 0 then lshift (b2u (decide (argL ≥ argR))) ARMG_CC_SHIFT_C
              else lshift (b2u (decide (argL > argR))) ARMG_CC_SHIFT_C
    let vf := lshift ((argL ^^^ argR) &&& (argL ^^^ res)) ((ARMG_CC_SHIFT_V : Int) + 1 - 32)
              &&& ARMG_CC_MASK_V
    some (nf ||| zf ||| cf ||| vf)
  else if cc_op = ARMG_CC_OP_LOGIC then
    let res := cc_dep1
    let shco := cc_dep2
    let oldV := cc_dep3
    let nf := lshift (res &&& (1 <<< 31)) ((ARMG_CC_SHIFT_N : Int) - 31)
    let zf := lshift (b2u (res == 0)) ARMG_CC_SHIFT_Z
    let cf := lshift (shco &&& 1) ARMG_CC_SHIFT_C
    let vf := lshift (oldV &&& 1) ARMG_CC_SHIFT_V
    some (nf ||| zf ||| cf ||| vf)
  else if cc_op = ARMG_CC_OP_MUL then
    let res := cc_dep1
    let oldC := (cc_dep3 >>> 1) &&& 1
    let oldV := (cc_dep3 >>> 0) &&& 1
    let nf := lshift (res &&& (1 <<< 31)) ((ARMG_CC_SHIFT_N : Int) - 31)
    let zf := lshift (b2u (res == 0)) ARMG_CC_SHIFT_Z
    let cf := lshift (oldC &&& 1) ARMG_CC_SHIFT_C
    let vf := lshift (oldV &&& 1) ARMG_CC_SHIFT_V
    some (nf ||| zf ||| cf ||| vf)
  else if cc_op = ARMG_CC_OP_MULL then
    let resLo32 := cc_dep1
    let resHi32 := cc_dep2
    let oldC := (cc_dep3 >>> 1) &&& 1
    let oldV := (cc_dep3 >>> 0) &&& 1
    let nf := lshift (resHi32 &&& (1 <<< 31)) ((ARMG_CC_SHIFT_N : Int) - 31)
    let zf := lshift (b2u ((resHi32 ||| resLo32) == 0)) ARMG_CC_SHIFT_Z
    let cf := lshift (oldC &&& 1) ARMG_CC_SHIFT_C
    let vf := lshift (oldV &&& 1) ARMG_CC_SHIFT_V
    some (nf ||| zf ||| cf ||| vf)
  else
    none

/-- The helper `armg_calculate_flag_c`: the C flag in bit 0. -/
def armg_calculate_flag_c (cc_op cc_dep1 cc_dep2 cc_dep3 : Nat) : Option Nat :=
  match armg_calculate_flags_nzcv cc_op cc_dep1 cc_dep2 cc_dep3 with
  | none => none
  | some r => some ((r >>> ARMG_CC_SHIFT_C) &&& 1)

/-- The helper `armg_calculate_flag_v`: the V flag in bit 0. -/
def armg_calculate_flag_v (cc_op cc_dep1 cc_dep2 cc_dep3 : Nat) : Option Nat :=
  match armg_calculate_flags_nzcv cc_op cc_dep1 cc_dep2 cc_dep3 with
  | none => none
  | some r => some ((r >>> ARMG_CC_SHIFT_V) &&& 1)

/-- The helper `armg_calculate_condition`: the condition `cond_n_op >> 4`
evaluated on the thunk whose op is `cond_n_op & 0xF`; `none` is a `vpanic`,
of the flags helper or of the default case. -/
def armg_calculate_condition (cond_n_op cc_dep1 cc_dep2 cc_dep3 : Nat) : Option Nat :=
  let cond := cond_n_op >>> 4
  let cc_op := cond_n_op &&& 15
  let inv := cond &&& 1
  match armg_calculate_flags_nzcv cc_op cc_dep1 cc_dep2 cc_dep3 with
  | none => none
  | some nzcv =>
    if cond = ARMCondEQ ∨ cond = ARMCondNE then
      let zf := nzcv >>> ARMG_CC_SHIFT_Z
      some (1 &&& (inv ^^^ zf))
    else if cond = ARMCondHS ∨ cond = ARMCondLO then
      let cf := nzcv >>> ARMG_CC_SHIFT_C
      some (1 &&& (inv ^^^ cf))
    else if cond = ARMCondMI ∨ cond = ARMCondPL then
      let nf := nzcv >>> ARMG_CC_SHIFT_N
      some (1 &&& (inv ^^^ nf))
    else if cond = ARMCondVS ∨ cond = ARMCondVC then
      let vf := nzcv >>> ARMG_CC_SHIFT_V
      some (1 &&& (inv ^^^ vf))
    else if cond = ARMCondHI ∨ cond = ARMCondLS then
      let cf := nzcv >>> ARMG_CC_SHIFT_C
      let zf := nzcv >>> ARMG_CC_SHIFT_Z
      some (1 &&& (inv ^^^ (cf &&& not32 zf)))
    else if cond = ARMCondGE ∨ cond = ARMCondLT then
      let nf := nzcv >>> ARMG_CC_SHIFT_N
      let vf := nzcv >>> ARMG_CC_SHIFT_V
      some (1 &&& (inv ^^^ not32 (nf ^^^ vf)))
    else if cond = ARMCondGT ∨ cond = ARMCondLE then
      let nf := nzcv >>> ARMG_CC_SHIFT_N
      let vf := nzcv >>> ARMG_CC_SHIFT_V
      let zf := nzcv >>> ARMG_CC_SHIFT_Z
      some (1 &&& (inv ^^^ not32 (zf ||| (nf ^^^ vf))))
    else
      none

/-- The packed flags word of four flag values: N, Z, C, V at bits 31, 30,
29, 28 and nothing else. -/
def pack (n z c v : Bool) : Nat :=
  (if n then 2147483648 else 0) ||| (if z then 1073741824 else 0)
    ||| (if c then 536870912 else 0) ||| (if v then 268435456 else 0)

/-! ## Flag masks -/

/-- Modelled from the spec: the mask of the N flag, `1 << ARMG_CC_SHIFT_N`
(guest_arm_defs.h is not among the sources). -/
def ARMG_CC_MASK_N : Nat := 1 <<< ARMG_CC_SHIFT_N
/-- Modelled from the spec: the mask of the Z flag, `1 << ARMG_CC_SHIFT_Z`. -/
def ARMG_CC_MASK_Z : Nat := 1 <<< ARMG_CC_SHIFT_Z
/-- Modelled from the spec: the mask of the C flag, `1 << ARMG_CC_SHIFT_C`. -/
def ARMG_CC_MASK_C : Nat := 1 <<< ARMG_CC_SHIFT_C

/-! ## IR expressions -/

/-- Modelled from the spec: libvex_ir.h is not among the sources; an IR
constant carries its width tag and its value. -/
inductive IRConst where
  | U1 (b : Bool)
  | U8 (n : Nat)
  | U16 (n : Nat)
  | U32 (n : Nat)
  | U64 (n : Nat)
deriving DecidableEq, Repr

/-- Modelled from the spec: the IR operations the specialiser emits
(libvex_ir.h is not among the sources). -/
inductive IROp where
  | Iop_1Uto32
  | Iop_CmpEQ32
  | Iop_CmpNE32
  | Iop_CmpLE32S
  | Iop_CmpLT32S
  | Iop_CmpLE32U
deriving DecidableEq, Repr

/-- Modelled from the spec: IR types (libvex_ir.h is not among the
sources). -/
inductive IRType where
  | Ity_I1
  | Ity_I8
  | Ity_I16
  | Ity_I32
  | Ity_I64
  | Ity_F32
  | Ity_F64
deriving DecidableEq, Repr

/-- Modelled from the spec: IR expressions (libvex_ir.h is not among the
sources): constants, temporaries, guest state reads, unary and binary
operations, and calls of a named clean helper. -/
inductive IRExpr where
  | Const (con : IRConst)
  | RdTmp (tmp : Nat)
  | Get (offset : Nat)
  | Unop (op : IROp) (arg : IRExpr)
  | Binop (op : IROp) (arg1 arg2 : IRExpr)
  | CCall (retty : IRType) (regparms : Nat) (name : String) (args : List IRExpr)
deriving Repr

/-- Modelled from the spec: the value of a unary IR operation; `1Uto32`
zero-extends a 1-bit value to 32 bits. -/
def evalUnop : IROp → Nat → Option Nat
  | .Iop_1Uto32, v => some (v % 2)
  | _, _ => none

/-- Modelled from the spec: the value of a binary IR operation on 32-bit
words; each comparison yields the 1-bit value 0 or 1: equality, inequality,
signed `<=`, signed `<`, unsigned `<=`. -/
def evalBinop : IROp → Nat → Nat → Option Nat
  | .Iop_CmpEQ32, x, y => some (b2u (decide (x = y)))
  | .Iop_CmpNE32, x, y => some (b2u (decide (x ≠ y)))
  | .Iop_CmpLE32S, x, y => some (b2u (decide (sint x ≤ sint y)))
  | .Iop_CmpLT32S, x, y => some (b2u (decide (sint x < sint y)))
  | .Iop_CmpLE32U, x, y => some (b2u (decide (x ≤ y)))
  | _, _, _ => none

/-- Modelled from the spec: the value of an IR expression in a model that
gives every temporary and every guest state slot a value. -/
def evalIRExpr (tmps : Nat → Nat) (gst : Nat → Nat) : IRExpr → Option Nat
  | .Const (.U1 b) => some (b2u b)
  | .Const (.U8 n) => some n
  | .Const (.U16 n) => some n
  | .Const (.U32 n) => some n
  | .Const (.U64 n) => some n
  | .RdTmp t => some (tmps t)
  | .Get off => some (gst off)
  | .Unop op a =>
    match evalIRExpr tmps gst a with
    | none => none
    | some v => evalUnop op v
  | .Binop op a b =>
    match evalIRExpr tmps gst a, evalIRExpr tmps gst b with
    | some x, some y => evalBinop op x y
    | _, _ => none
  | .CCall _ _ _ _ => none

/-! ## The specialiser -/

/-- The test `isU32`: `e` is the 32-bit constant `n`. -/
def isU32 (e : IRExpr) (n : Nat) : Bool :=
  match e with
  | .Const (.U32 m) => m == n
  | _ => false

/-- The constructor `mkU32` of the specialiser. -/
def mkU32 (n : Nat) : IRExpr := .Const (.U32 n)

/-- The specialiser `guest_arm_spechelper` on a helper name and the list of
argument expressions. The outer `none` is the failed `vassert(arity == 4)`;
`some none` is the result `NULL` (no specialisation). -/
def guest_arm_spechelper (function_name : String) (args : List IRExpr) :
    Option (Option IRExpr) :=
  if function_name = "armg_calculate_condition" then
    match args with
    | [cond_n_op, cc_dep1, cc_dep2, _cc_dep3] =>
      if isU32 cond_n_op ((ARMCondEQ <<< 4) ||| ARMG_CC_OP_SUB) then
        some (some (.Unop .Iop_1Uto32 (.Binop .Iop_CmpEQ32 cc_dep1 cc_dep2)))
      else if isU32 cond_n_op ((ARMCondNE <<< 4) ||| ARMG_CC_OP_SUB) then
        some (some (.Unop .Iop_1Uto32 (.Binop .Iop_CmpNE32 cc_dep1 cc_dep2)))
      else if isU32 cond_n_op ((ARMCondLE <<< 4) ||| ARMG_CC_OP_SUB) then
        some (some (.Unop .Iop_1Uto32 (.Binop .Iop_CmpLE32S cc_dep1 cc_dep2)))
      else if isU32 cond_n_op ((ARMCondLT <<< 4) ||| ARMG_CC_OP_SUB) then
        some (some (.Unop .Iop_1Uto32 (.Binop .Iop_CmpLT32S cc_dep1 cc_dep2)))
      else if isU32 cond_n_op ((ARMCondGE <<< 4) ||| ARMG_CC_OP_SUB) then
        some (some (.Unop .Iop_1Uto32 (.Binop .Iop_CmpLE32S cc_dep2 cc_dep1)))
      else if isU32 cond_n_op ((ARMCondHS <<< 4) ||| ARMG_CC_OP_SUB) then
        some (some (.Unop .Iop_1Uto32 (.Binop .Iop_CmpLE32U cc_dep2 cc_dep1)))
      else if isU32 cond_n_op ((ARMCondLS <<< 4) ||| ARMG_CC_OP_SUB) then
        some (some (.Unop .Iop_1Uto32 (.Binop .Iop_CmpLE32U cc_dep1 cc_dep2)))
      else if isU32 cond_n_op ((ARMCondEQ <<< 4) ||| ARMG_CC_OP_LOGIC) then
        some (some (.Unop .Iop_1Uto32 (.Binop .Iop_CmpEQ32 cc_dep1 (mkU32 0))))
      else if isU32 cond_n_op ((ARMCondNE <<< 4) ||| ARMG_CC_OP_LOGIC) then
        some (some (.Unop .Iop_1Uto32 (.Binop .Iop_CmpNE32 cc_dep1 (mkU32 0))))
      else
        some none
    | _ => none
  else
    some none

/-! ## Guest state -/

/-- Modelled from the spec: the record `VexGuestARMState` of
libvex_guest_arm.h is not among the sources; its slots are the ones
`LibVEX_GuestARM_initialise` writes (the padding is left out). -/
structure VexGuestARMState where
  guest_R0 : Nat
  guest_R1 : Nat
  guest_R2 : Nat
  guest_R3 : Nat
  guest_R4 : Nat
  guest_R5 : Nat
  guest_R6 : Nat
  guest_R7 : Nat
  guest_R8 : Nat
  guest_R9 : Nat
  guest_R10 : Nat
  guest_R11 : Nat
  guest_R12 : Nat
  guest_R13 : Nat
  guest_R14 : Nat
  guest_R15 : Nat
  guest_CC_OP : Nat
  guest_CC_DEP1 : Nat
  guest_CC_DEP2 : Nat
  guest_CC_DEP3 : Nat
  guest_EMWARN : Nat
  guest_TISTART : Nat
  guest_TILEN : Nat
  guest_NRADDR : Nat
  guest_IP_AT_SYSCALL : Nat
  guest_D0 : Nat
  guest_D1 : Nat
  guest_D2 : Nat
  guest_D3 : Nat
  guest_D4 : Nat
  guest_D5 : Nat
  guest_D6 : Nat
  guest_D7 : Nat
  guest_D8 : Nat
  guest_D9 : Nat
  guest_D10 : Nat
  guest_D11 : Nat
  guest_D12 : Nat
  guest_D13 : Nat
  guest_D14 : Nat
  guest_D15 : Nat
  guest_FPSCR : Nat
deriving DecidableEq, Repr, Inhabited

/-- The assertion `vassert`: `none` is the fatal failure. -/
def vassert (b : Bool) : Option Unit := if b then some () else none

/-- The statements of `LibVEX_GuestARM_put_flags` that follow its leading
`vassert(0)`: mask the flags word and store it as a `COPY` thunk. -/
def put_flags_statements (flags_native : Nat) (vex_state : VexGuestARMState) :
    VexGuestARMState :=
  let flags_native := flags_native &&&
    (ARMG_CC_MASK_N ||| ARMG_CC_MASK_Z ||| ARMG_CC_MASK_V ||| ARMG_CC_MASK_C)
  { vex_state with
    guest_CC_OP := ARMG_CC_OP_COPY
    guest_CC_DEP1 := flags_native
    guest_CC_DEP2 := 0
    guest_CC_DEP3 := 0 }

/-- The function `LibVEX_GuestARM_put_flags` as written (the source keeps it
inside `#if 0`): its first statement is `vassert(0)`, so `none`, the failed
assertion, is the result of every call. -/
def LibVEX_GuestARM_put_flags (flags_native : Nat) (vex_state : VexGuestARMState) :
    Option VexGuestARMState :=
  match vassert false with
  | none => none
  | some _ => some (put_flags_statements flags_native vex_state)

/-- The function `LibVEX_GuestARM_get_cpsr`. -/
def LibVEX_GuestARM_get_cpsr (vex_state : VexGuestARMState) : Option Nat :=
  armg_calculate_flags_nzcv vex_state.guest_CC_OP vex_state.guest_CC_DEP1
    vex_state.guest_CC_DEP2 vex_state.guest_CC_DEP3

/-- The function `LibVEX_GuestARM_initialise`. -/
def LibVEX_GuestARM_initialise (vex_state : VexGuestARMState) : VexGuestARMState :=
  { vex_state with
    guest_R0 := 0
    guest_R1 := 0
    guest_R2 := 0
    guest_R3 := 0
    guest_R4 := 0
    guest_R5 := 0
    guest_R6 := 0
    guest_R7 := 0
    guest_R8 := 0
    guest_R9 := 0
    guest_R10 := 0
    guest_R11 := 0
    guest_R12 := 0
    guest_R13 := 0
    guest_R14 := 0
    guest_R15 := 0
    guest_CC_OP := ARMG_CC_OP_COPY
    guest_CC_DEP1 := 0
    guest_CC_DEP2 := 0
    guest_CC_DEP3 := 0
    guest_EMWARN := 0
    guest_TISTART := 0
    guest_TILEN := 0
    guest_NRADDR := 0
    guest_IP_AT_SYSCALL := 0
    guest_D0 := 0
    guest_D1 := 0
    guest_D2 := 0
    guest_D3 := 0
    guest_D4 := 0
    guest_D5 := 0
    guest_D6 := 0
    guest_D7 := 0
    guest_D8 := 0
    guest_D9 := 0
    guest_D10 := 0
    guest_D11 := 0
    guest_D12 := 0
    guest_D13 := 0
    guest_D14 := 0
    guest_D15 := 0
    guest_FPSCR := 0 }

/-! ## Precise memory exceptions -/

/-- The function `guest_arm_state_requires_precise_mem_exns`. The byte
offsets of `guest_R13`, `guest_R15` and `guest_R11` in `VexGuestARMState`
(`offsetof` on the record of the absent libvex_guest_arm.h) are parameters. -/
def guest_arm_state_requires_precise_mem_exns (off_R13 off_R15 off_R11 : Int)
    (minoff maxoff : Int) : Bool :=
  let sp_min := off_R13
  let sp_max := sp_min + 4 - 1
  let pc_min := off_R15
  let pc_max := pc_min + 4 - 1
  if maxoff < sp_min ∨ minoff > sp_max then
    if maxoff < pc_min ∨ minoff > pc_max then
      let r11_min := off_R11
      let r11_max := r11_min + 4 - 1
      if maxoff < r11_min ∨ minoff > r11_max then
        false
      else
        true
    else
      true
  else
    true

/-! ## The checksum of guest-generic/bb_to_IR.c -/

/-- The first loop of `genericg_compute_adler32`, `while (len >= 4)`: four
bytes per round; returns the sums and the bytes left. -/
def adler32_loop4 : List Nat → Nat → Nat → Nat × Nat × List Nat
  | b0 :: b1 :: b2 :: b3 :: rest, s1, s2 =>
    let s1 := add32 s1 b0
    let s2 := add32 s2 s1
    let s1 := add32 s1 b1
    let s2 := add32 s2 s1
    let s1 := add32 s1 b2
    let s2 := add32 s2 s1
    let s1 := add32 s1 b3
    let s2 := add32 s2 s1
    adler32_loop4 rest s1 s2
  | buf, s1, s2 => (s1, s2, buf)

/-- The second loop of `genericg_compute_adler32`, `while (len > 0)`: one
byte per round. -/
def adler32_loop1 : List Nat → Nat → Nat → Nat × Nat
  | b0 :: rest, s1, s2 =>
    let s1 := add32 s1 b0
    let s2 := add32 s2 s1
    adler32_loop1 rest s1 s2
  | [], s1, s2 => (s1, s2)

/-- The function `genericg_compute_adler32` on the bytes of the region
`[addr .. addr+len-1]`. -/
def genericg_compute_adler32 (buf : List Nat) : Nat :=
  let r4 := adler32_loop4 buf 1 0
  let r1 := adler32_loop1 r4.2.2 r4.1 r4.2.1
  let s1 := r1.1
  let s2 := r1.2
  add32 ((s2 <<< 16) % 4294967296) s1

/-- Reference definition after the words of the spec: the two 32-bit running
sums, `s1 := 1`, `s2 := 0`, and for each byte in order `s1 := s1 + b`,
`s2 := s2 + s1`, both modulo `2^32`. -/
def adler32_spec_sums (bs : List Nat) : Nat × Nat :=
  bs.foldl (fun s b => ((s.1 + b) % 4294967296, (s.2 + (s.1 + b) % 4294967296) % 4294967296))
    (1, 0)

/-! ## The block decoder of guest-generic/bb_to_IR.c -/

/-- Modelled from the spec: IR jump kinds (libvex_ir.h is not among the
sources). -/
inductive IRJumpKind where
  | Ijk_Boring
  | Ijk_Call
  | Ijk_Ret
  | Ijk_ClientReq
  | Ijk_Syscall
  | Ijk_Yield
  | Ijk_NoDecode
  | Ijk_TInval
deriving DecidableEq, Repr

/-- Modelled from the spec: IR statements (libvex_ir.h is not among the
sources): no-op, instruction mark (guest address and length), put, temporary
assignment, side exit, and `Other` for every statement kind the decoder
itself never builds. -/
inductive IRStmt where
  | NoOp
  | IMark (addr : Nat) (len : Nat)
  | Put (offset : Int) (data : IRExpr)
  | Tmp (tmp : Nat) (data : IRExpr)
  | Exit (guard : IRExpr) (jk : IRJumpKind) (dst : IRConst)
  | Other (tag : Nat)
deriving Repr

/-- Modelled from the spec: the IR block `IRBB`: type environment, statement
array (`stmts_used` is its length), `next` (`none` is `NULL`) and jump
kind. -/
structure IRBB where
  tyenv : List IRType
  stmts : List IRStmt
  next : Option IRExpr
  jumpkind : IRJumpKind

/-- Modelled from the spec: `emptyIRBB` (ir/irdefs.c, not among the
sources): no temporaries, no statements, `next` unset. The spec does not say
which jump kind a new block has; the model takes `Ijk_Boring`, and the
theorems refer to it as `emptyIRBB.jumpkind` only. -/
def emptyIRBB : IRBB :=
  { tyenv := [], stmts := [], next := none, jumpkind := .Ijk_Boring }

/-- Modelled from the spec: `addStmtToIRBB` appends a statement. -/
def addStmtToIRBB (bb : IRBB) (st : IRStmt) : IRBB :=
  { bb with stmts := bb.stmts ++ [st] }

/-- Modelled from the spec: `newIRTemp` adds a temporary of type `ty` to the
type environment and returns the environment and the new temporary. -/
def newIRTemp (tyenv : List IRType) (ty : IRType) : List IRType × Nat :=
  (tyenv ++ [ty], tyenv.length)

/-- The values of `DisResult.whatNext`. -/
inductive DisWhatNext where
  | Dis_StopHere
  | Dis_Continue
  | Dis_Resteer
deriving DecidableEq, Repr

/-- The record `DisResult` returned by the instruction decoder. -/
structure DisResult where
  len : Int
  whatNext : DisWhatNext
  continueAt : Nat

/-- The record `VexGuestExtents`: three `(base, len)` slots and the number in
use. -/
structure VexGuestExtents where
  base : Nat → Nat
  len : Nat → Nat
  n_used : Nat

/-- The fields of `vex_control` that `bb_to_IR` reads. -/
structure VexControl where
  guest_max_insns : Int
  guest_chase_thresh : Int

/-- The type `DisOneInstrFn` of the decoder callback: block, `need_to_put_IP`,
`resteerOKfn`, guest code, `delta`, guest IP, `archinfo_guest`,
`host_bigendian`; it returns the block it leaves and its `DisResult`. -/
abbrev DisOneInstrFn : Type :=
  IRBB → Bool → (Nat → Bool) → (Nat → Nat) → Int → Nat → Nat → Bool → IRBB × DisResult

/-- The arguments of `bb_to_IR`, with what it reads from its environment:
`vex_control`, the contents of `vge` on entry, the guest code bytes by offset
and their host address, and the absent helper `mkIRExpr_HWord`. -/
structure BBArgs where
  vex_control : VexControl
  vge : VexGuestExtents
  dis_instr_fn : DisOneInstrFn
  guest_code : Nat → Nat
  guest_code_HWord : Nat
  guest_IP_bbstart : Nat
  guest_IP_bbstart_noredir : Nat
  chase_into_ok : Nat → Bool
  host_bigendian : Bool
  archinfo_guest : Nat
  guest_word_type : IRType
  do_self_check : Bool
  do_set_NRADDR : Bool
  offB_TISTART : Int
  offB_TILEN : Int
  offB_NRADDR : Int
  mkIRExpr_HWord : Nat → IRExpr

/-- The locals of `bb_to_IR` that live across the main loop. -/
structure BBState where
  irbb : IRBB
  vge : VexGuestExtents
  delta : Int
  n_instrs : Int

/-- How a run ends: `done` with a value, `fatal` for a failed `vassert` or a
`vpanic`, `timeout` when the fuel of the model is used up. -/
inductive Run (α : Type) where
  | done (a : α)
  | fatal
  | timeout

/-- How one round of the main loop ends: `again` at the loop head, `leave`
through `goto done`, or `fatal`. -/
inductive Iter where
  | again (s : BBState)
  | leave (s : BBState)
  | fatal

/-- The helper `const_False`. -/
def const_False (_a : Nat) : Bool := false

/-- The conversion `toUInt`: the low 32 bits. -/
def toUInt (x : Int) : Nat := (x % 4294967296).toNat

/-- The conversion `toUShort`: the low 16 bits. -/
def toUShort (x : Nat) : Nat := x % 65536

/-- A value stored in a `Long`: wrapped to signed 64 bits. -/
def toLong (x : Int) : Int :=
  (x + 9223372036854775808) % 18446744073709551616 - 9223372036854775808

/-- A value stored in an `Addr64`: wrapped to unsigned 64 bits. -/
def toAddr64 (x : Int) : Nat := (x % 18446744073709551616).toNat

/-- An array store `arr[i] = v`. -/
def store (arr : Nat → Nat) (i v : Nat) : Nat → Nat :=
  fun j => if j = i then v else arr j

/-- The guest address `addr` as a constant of the guest word type:
`IRConst_U32(toUInt(addr))` for `Ity_I32`, else `IRConst_U64(addr)`. -/
def guest_IRConst (guest_word_type : IRType) (addr : Nat) : IRConst :=
  if guest_word_type = .Ity_I32 then .U32 (toUInt addr) else .U64 addr

/-- The flag `resteerOK` of one round of the main loop: is chasing permissible
at all right now. -/
def resteerOK (a : BBArgs) (s : BBState) : Bool :=
  decide (s.n_instrs < a.vex_control.guest_chase_thresh)
    && !a.do_self_check && decide (s.vge.n_used < 3)

/-- The predicate `resteerOKfn` of one round of the main loop:
`chase_into_ok` when `resteerOK`, else `const_False`. -/
def resteerOKfn (a : BBArgs) (s : BBState) : Nat → Bool :=
  if resteerOK a s then a.chase_into_ok else const_False

/-- The guest address `guest_IP_curr_instr` of one round of the main loop:
`guest_IP_bbstart + delta` as an `Addr64`. -/
def guest_IP_curr_instr (a : BBArgs) (s : BBState) : Nat :=
  toAddr64 ((a.guest_IP_bbstart : Int) + s.delta)

/-- The call of `dis_instr_fn` in one round of the main loop, made after the
instruction mark of length 0 has been appended to the block. -/
def bb_call (a : BBArgs) (s : BBState) : IRBB × DisResult :=
  let irbb := addStmtToIRBB s.irbb (.IMark (guest_IP_curr_instr a s) 0)
  let need_to_put_IP : Bool := decide (s.n_instrs > 0)
  a.dis_instr_fn irbb need_to_put_IP (resteerOKfn a s) a.guest_code s.delta
    (guest_IP_curr_instr a s) a.archinfo_guest a.host_bigendian

/-- The second half of one round of the main loop of `bb_to_IR`, from the
check after the instruction mark has been given its length to the end of the
`switch`; `irbb` is the block with the patched mark, `dres` the result of the
decoder. -/
def bb_iter_rest (a : BBArgs) (s : BBState) (irbb : IRBB) (dres : DisResult) : Iter :=
  if dres.whatNext = .Dis_StopHere ∧ irbb.next.isNone then .fatal else
  if ¬ (s.vge.len (s.vge.n_used - 1) < 5000) then .fatal else
  let newlen := toUShort (toUInt ((s.vge.len (s.vge.n_used - 1) : Int) + dres.len))
  let vge : VexGuestExtents :=
    { s.vge with len := store s.vge.len (s.vge.n_used - 1) newlen }
  let n_instrs := s.n_instrs + 1
  let delta := toLong (s.delta + dres.len)
  match dres.whatNext with
  | .Dis_Continue =>
    if irbb.next.isSome then .fatal else
    if n_instrs < a.vex_control.guest_max_insns then
      .again { irbb := irbb, vge := vge, delta := delta, n_instrs := n_instrs }
    else
      let irbb : IRBB :=
        { irbb with next := some (.Const (guest_IRConst a.guest_word_type
            (toAddr64 ((a.guest_IP_bbstart : Int) + delta)))) }
      .leave { irbb := irbb, vge := vge, delta := delta, n_instrs := n_instrs }
  | .Dis_StopHere =>
    if irbb.next.isNone then .fatal else
    .leave { irbb := irbb, vge := vge, delta := delta, n_instrs := n_instrs }
  | .Dis_Resteer =>
    if ¬ resteerOK a s then .fatal else
    if irbb.next.isSome then .fatal else
    if ¬ resteerOKfn a s dres.continueAt then .fatal else
    let delta := toLong ((dres.continueAt : Int) - (a.guest_IP_bbstart : Int))
    let n_used := vge.n_used + 1
    if ¬ (n_used ≤ 3) then .fatal else
    let vge : VexGuestExtents :=
      { n_used := n_used
        base := store vge.base (n_used - 1) dres.continueAt
        len := store vge.len (n_used - 1) 0 }
    .again { irbb := irbb, vge := vge, delta := delta, n_instrs := n_instrs }

/-- One round of the main loop of `bb_to_IR`: the `vassert` at the loop head,
the call of the decoder, the checks on its result and the patch of the
instruction mark, then `bb_iter_rest`. -/
def bb_iter (a : BBArgs) (s : BBState) : Iter :=
  if ¬ (s.n_instrs < a.vex_control.guest_max_insns) then .fatal else
  let first_stmt_idx := s.irbb.stmts.length
  let r := bb_call a s
  let irbb := r.1
  let dres := r.2
  if ¬ (dres.len ≥ 0 ∧ dres.len ≤ 20) then .fatal else
  if dres.whatNext ≠ .Dis_Resteer ∧ dres.continueAt ≠ 0 then .fatal else
  if ¬ (first_stmt_idx < irbb.stmts.length) then .fatal else
  match irbb.stmts[first_stmt_idx]? with
  | some (.IMark addr len) =>
    if len ≠ 0 then .fatal else
    let irbb : IRBB :=
      { irbb with stmts := irbb.stmts.set first_stmt_idx (.IMark addr (toUInt dres.len)) }
    bb_iter_rest a s irbb dres
  | _ => .fatal

/-- The main loop `while (True)` of `bb_to_IR`, run for at most `fuel`
rounds. -/
def bb_loop (a : BBArgs) : Nat → BBState → Run BBState
  | 0, _ => .timeout
  | fuel + 1, s =>
    match bb_iter a s with
    | .again s1 => bb_loop a fuel s1
    | .leave s1 => .done s1
    | .fatal => .fatal

/-- The part of `bb_to_IR` after the label `done`: when a self-checking
translation is asked for, the five reserved statements are overwritten with
the preamble. -/
def bb_done (a : BBArgs) (selfcheck_idx : Nat) (s : BBState) : Run BBState :=
  if a.do_self_check then
    if s.vge.n_used ≠ 1 then .fatal else
    let len2check := s.vge.len 0 % 4294967296
    let len2check := if len2check = 0 then 1 else len2check
    let adler32 := genericg_compute_adler32 ((List.range len2check).map a.guest_code)
    let t1 := newIRTemp s.irbb.tyenv a.guest_word_type
    let tistart_tmp := t1.2
    let t2 := newIRTemp t1.1 a.guest_word_type
    let tilen_tmp := t2.2
    let guest_IP_bbstart_IRConst := guest_IRConst a.guest_word_type a.guest_IP_bbstart
    let stmts := s.irbb.stmts.set (selfcheck_idx + 0)
      (.Tmp tistart_tmp (.Const guest_IP_bbstart_IRConst))
    let stmts := stmts.set (selfcheck_idx + 1)
      (.Tmp tilen_tmp
        (if a.guest_word_type = .Ity_I32 then .Const (.U32 len2check)
         else .Const (.U64 len2check)))
    let stmts := stmts.set (selfcheck_idx + 2) (.Put a.offB_TISTART (.RdTmp tistart_tmp))
    let stmts := stmts.set (selfcheck_idx + 3) (.Put a.offB_TILEN (.RdTmp tilen_tmp))
    let stmts := stmts.set (selfcheck_idx + 4)
      (.Exit
        (.Binop .Iop_CmpNE32
          (.CCall .Ity_I32 2 ("genericg_compute_adler32")
            [a.mkIRExpr_HWord a.guest_code_HWord, a.mkIRExpr_HWord len2check])
          (.Const (.U32 adler32)))
        .Ijk_TInval
        guest_IP_bbstart_IRConst)
    .done { s with irbb := { s.irbb with tyenv := t2.1, stmts := stmts } }
  else
    .done s

/-- The state of `bb_to_IR` when the main loop is entered: one empty extent
at `guest_IP_bbstart`, a new block holding the five reserved no-ops of a
self-checking translation and the put of `guest_NRADDR` when asked for,
`delta` and `n_instrs` zero. -/
def bb_entry (a : BBArgs) : BBState :=
  let vge : VexGuestExtents :=
    { n_used := 1
      base := store a.vge.base 0 a.guest_IP_bbstart
      len := store a.vge.len 0 0 }
  let irbb := emptyIRBB
  let irbb :=
    if a.do_self_check then
      addStmtToIRBB (addStmtToIRBB (addStmtToIRBB (addStmtToIRBB
        (addStmtToIRBB irbb .NoOp) .NoOp) .NoOp) .NoOp) .NoOp
    else irbb
  let irbb :=
    if a.do_set_NRADDR then
      addStmtToIRBB irbb
        (.Put a.offB_NRADDR
          (.Const (guest_IRConst a.guest_word_type a.guest_IP_bbstart_noredir)))
    else irbb
  { irbb := irbb, vge := vge, delta := 0, n_instrs := 0 }

/-- The function `bb_to_IR`: the sanity checks, the state at loop entry, the
main loop and the part after `done`; the returned block and the extents
written to `vge` are the fields `irbb` and `vge` of the final state. The
index `selfcheck_idx` is `stmts_used` of the empty block. -/
def bb_to_IR (a : BBArgs) : Run BBState :=
  if ¬ (a.vex_control.guest_max_insns ≥ 1) then .fatal else
  if ¬ (a.vex_control.guest_max_insns < 100) then .fatal else
  if ¬ (a.vex_control.guest_chase_thresh ≥ 0) then .fatal else
  if ¬ (a.vex_control.guest_chase_thresh < a.vex_control.guest_max_insns) then .fatal else
  if ¬ (a.guest_word_type = .Ity_I32 ∨ a.guest_word_type = .Ity_I64) then .fatal else
  let selfcheck_idx := if a.do_self_check then emptyIRBB.stmts.length else 0
  match bb_loop a (a.vex_control.guest_max_insns.toNat + 1) (bb_entry a) with
  | .done s => bb_done a selfcheck_idx s
  | .fatal => .fatal
  | .timeout => .timeout

/-- The IMark statements of a statement list, as `(addr, len)` pairs. -/
def imarks : List IRStmt → List (Nat × Nat)
  | [] => []
  | .IMark addr len :: rest => (addr, len) :: imarks rest
  | _ :: rest => imarks rest

/-- The sum of the length fields of the IMark statements of a list. -/
def imarkLenSum (stmts : List IRStmt) : Nat := ((imarks stmts).map Prod.snd).sum

/-- The sum of `len[i]` over the first `n` extent slots. -/
def extentLenSum (len : Nat → Nat) : Nat → Nat
  | 0 => 0
  | n + 1 => extentLenSum len n + len n

/-- A decoder callback that only appends statements to the block, none of
them an IMark. -/
def AppendsNoIMark (dis : DisOneInstrFn) : Prop :=
  ∀ irbb p f c d ip ai hb, ∃ extra,
    (dis irbb p f c d ip ai hb).1.stmts = irbb.stmts ++ extra ∧ imarks extra = []

/-- The state a run returned, or `dflt` when it did not return. -/
def Run.value {α : Type} (x : Run α) (dflt : α) : α :=
  match x with
  | .done v => v
  | _ => dflt

/-- A decoder callback that leaves the jump kind of the block as it found
it. -/
def KeepsJumpKind (dis : DisOneInstrFn) : Prop :=
  ∀ irbb p f c d ip ai hb, (dis irbb p f c d ip ai hb).1.jumpkind = irbb.jumpkind

/-- Arguments of `bb_to_IR` for the scenarios: a 32-bit guest, the block
starting at guest address `0x100`, `chase_into_ok` always true. -/
def scenario_args (dis : DisOneInstrFn) (guest_max_insns guest_chase_thresh : Int)
    (do_self_check do_set_NRADDR : Bool) : BBArgs :=
  { vex_control :=
      { guest_max_insns := guest_max_insns, guest_chase_thresh := guest_chase_thresh }
    vge := { base := fun _ => 0, len := fun _ => 0, n_used := 0 }
    dis_instr_fn := dis
    guest_code := fun i => i % 256
    guest_code_HWord := 4096
    guest_IP_bbstart := 256
    guest_IP_bbstart_noredir := 256
    chase_into_ok := fun _ => true
    host_bigendian := false
    archinfo_guest := 0
    guest_word_type := .Ity_I32
    do_self_check := do_self_check
    do_set_NRADDR := do_set_NRADDR
    offB_TISTART := 68
    offB_TILEN := 72
    offB_NRADDR := 76
    mkIRExpr_HWord := fun hw => .Const (.U32 hw) }

/-- The stub decoder of scenario S1: always `Dis_Continue` with length 4. -/
def stub_continue : DisOneInstrFn :=
  fun irbb _ _ _ _ _ _ _ => (irbb, { len := 4, whatNext := .Dis_Continue, continueAt := 0 })

/-- The stub decoder of scenario S2: `Dis_StopHere` with length 2, after
setting `next` to the constant `0xDEAD`. -/
def stub_stop : DisOneInstrFn :=
  fun irbb _ _ _ _ _ _ _ =>
    ({ irbb with next := some (.Const (.U32 57005)), jumpkind := .Ijk_Ret },
      { len := 2, whatNext := .Dis_StopHere, continueAt := 0 })

/-- The stub decoder of scenario S3: at the block start `Dis_Resteer` to
`0x1000` with length 4, at `0x1000` `Dis_Continue` with length 4, elsewhere
`Dis_StopHere` with length 4 after setting `next`. -/
def stub_resteer : DisOneInstrFn :=
  fun irbb _ _ _ _ ip _ _ =>
    if ip = 256 then
      (irbb, { len := 4, whatNext := .Dis_Resteer, continueAt := 4096 })
    else if ip = 4096 then
      (irbb, { len := 4, whatNext := .Dis_Continue, continueAt := 0 })
    else
      ({ irbb with next := some (.Const (.U32 57005)) },
        { len := 4, whatNext := .Dis_StopHere, continueAt := 0 })

/-- A stub decoder that answers `Dis_Continue` with length 4 after writing
the jump kind `Ijk_Call` to the block. -/
def stub_call_kind : DisOneInstrFn :=
  fun irbb _ _ _ _ _ _ _ =>
    ({ irbb with jumpkind := .Ijk_Call },
      { len := 4, whatNext := .Dis_Continue, continueAt := 0 })

/-- The final state of `bb_to_IR` on `a`, or the state at loop entry when the
run does not return. -/
def bb_result (a : BBArgs) : BBState := Run.value (bb_to_IR a) (bb_entry a)

/-- Scenario S1: at most 3 instructions, the stub always continues. -/
def scenario_S1 : BBArgs := scenario_args stub_continue 3 0 false false

/-- Scenario S2: the stub stops at its first call. -/
def scenario_S2 : BBArgs := scenario_args stub_stop 3 0 false false

/-- Scenario S3: chasing allowed for the first two instructions, the stub
resteers once. -/
def scenario_S3 : BBArgs := scenario_args stub_resteer 10 2 false false

/-- Scenario S4: a self-checking translation that also sets `guest_NRADDR`,
at most 3 instructions, the stub always continues. -/
def scenario_S4 : BBArgs := scenario_args stub_continue 3 0 true true

/-- Scenario with a cap of one instruction and the stub that writes the jump
kind `Ijk_Call` before it answers `Dis_Continue`. -/
def scenario_call_kind : BBArgs := scenario_args stub_call_kind 1 0 false false

/-- The state at the head of the main loop after `k` rounds that went back to
the loop head, starting from `s`; `none` when one of these rounds left the
loop or failed. The decoder is invoked for the `(k + 1)`-th time in the round
that starts from this state. -/
def bb_rounds (a : BBArgs) : Nat → BBState → Option BBState
  | 0, s => some s
  | k + 1, s =>
    match bb_iter a s with
    | .again s1 => bb_rounds a k s1
    | _ => none

/-- Reference definition after the words of the spec: the checksum computed one
byte at a time, `(s2 << 16) + s1` modulo `2^32` of the two 32-bit running
sums. -/
def adler32_reference (bs : List Nat) : Nat :=
  (((adler32_spec_sums bs).2 <<< 16) + (adler32_spec_sums bs).1) % 4294967296

/-- Reference definition after the words of the spec: the exact running sums,
without any wrap: `s1 := 1`, `s2 := 0`, and for each byte in order
`s1 := s1 + b`, `s2 := s2 + s1` over the natural numbers. -/
def adler32_exact_sums (bs : List Nat) : Nat × Nat :=
  bs.foldl (fun s b => (s.1 + b, s.2 + (s.1 + b))) (1, 0)

/-- Scenario in which chasing is never allowed (`guest_chase_thresh = 0`) and
the stub answers `Dis_Resteer` at the block start. -/
def scenario_resteer_refused : BBArgs := scenario_args stub_resteer 3 0 false false

/-- The length the decoder returns at its invocation number `i + 1` in the
run of `bb_to_IR` on `a`, which is the length of instruction number `i` of the
block; 0 when the main loop makes no such invocation. -/
def bb_len_at (a : BBArgs) (i : Nat) : Nat :=
  match bb_rounds a i (bb_entry a) with
  | some s => ((bb_call a s).2.len).toNat
  | none => 0

/-- The decoder continues at every invocation the run of `bb_to_IR` on `a`
makes: in every round the main loop reaches it answers `Dis_Continue` with a
length in `[0, 20]` and `continueAt = 0`, leaves `next` unset, and appends
only statements other than instruction marks after the mark of the round.
Nothing is asked of the decoder on arguments the run does not hand it. -/
def ContinuesAlongRun (a : BBArgs) : Prop :=
  ∀ k s, bb_rounds a k (bb_entry a) = some s →
    (bb_call a s).2.whatNext = .Dis_Continue
      ∧ 0 ≤ (bb_call a s).2.len ∧ (bb_call a s).2.len ≤ 20
      ∧ (bb_call a s).2.continueAt = 0
      ∧ (bb_call a s).1.next = none
      ∧ ∃ extra, (bb_call a s).1.stmts
            = s.irbb.stmts ++ .IMark (guest_IP_curr_instr a s) 0 :: extra
          ∧ imarks extra = []

/-- A decoder callback that answers `Dis_Continue` on every argument tuple,
with a length in `[0, 20]` that it may take from any of its arguments, with
`continueAt = 0`, leaving an unset `next` unset and appending only statements
other than instruction marks. -/
def AlwaysContinues (dis : DisOneInstrFn) : Prop :=
  ∀ irbb p f c d ip ai hb,
    (dis irbb p f c d ip ai hb).2.whatNext = .Dis_Continue
      ∧ 0 ≤ (dis irbb p f c d ip ai hb).2.len ∧ (dis irbb p f c d ip ai hb).2.len ≤ 20
      ∧ (dis irbb p f c d ip ai hb).2.continueAt = 0
      ∧ (irbb.next = none → (dis irbb p f c d ip ai hb).1.next = none)
      ∧ ∃ extra, (dis irbb p f c d ip ai hb).1.stmts = irbb.stmts ++ extra
          ∧ imarks extra = []

/-- A stub decoder that always continues and takes the length of the
instruction from the guest byte at `delta`: `guest_code[delta] mod 8`. -/
def stub_bytes : DisOneInstrFn :=
  fun irbb _ _ guest_code delta _ _ _ =>
    (irbb, { len := ((guest_code delta.toNat % 8 : Nat) : Int), whatNext := .Dis_Continue,
             continueAt := 0 })

/-- Scenario with the stub whose lengths come from the guest bytes, which are
`3, 5, 4, 4, ..` here; at most 3 instructions. -/
def scenario_bytes : BBArgs :=
  { scenario_args stub_bytes 3 0 false false with
    guest_code := fun i => if i = 0 then 3 else if i = 3 then 5 else 4 }

/-! ## Lemmas on words -/

theorem and_two_pow_eq (x k : Nat) :
    x &&& 2 ^ k = if x.testBit k then 2 ^ k else 0 := by
  apply Nat.eq_of_testBit_eq
  intro i
  rw [Nat.testBit_and, Nat.testBit_two_pow]
  by_cases hi : k = i
  · subst hi
    cases hb : x.testBit k <;> simp [Nat.testBit_two_pow]
  · cases hb : x.testBit k <;> simp [Nat.testBit_two_pow, hi]

theorem testBit31 (x : Nat) (h : x < 4294967296) :
    x.testBit 31 = decide (2147483648 ≤ x) := by
  rw [Nat.testBit_to_div_mod]
  congr 1
  apply propext
  norm_num
  omega

theorem add32_lt (a b : Nat) : add32 a b < 4294967296 := by
  unfold add32; omega

theorem sub32_lt (a b : Nat) : sub32 a b < 4294967296 := by
  unfold sub32; omega

theorem nf_eq (res : Nat) (h : res < 4294967296) :
    lshift (res &&& (1 <<< 31)) ((ARMG_CC_SHIFT_N : Int) - 31)
      = if decide (2147483648 ≤ res) then 2147483648 else 0 := by
  have h1 := and_two_pow_eq res 31
  rw [testBit31 res h] at h1
  norm_num at h1
  have h2 : (1 <<< 31 : Nat) = 2147483648 := by decide
  simp only [lshift, ARMG_CC_SHIFT_N, h2]
  norm_num
  rw [h1]
  split_ifs <;> simp

theorem zf_eq (p : Bool) :
    lshift (b2u p) ARMG_CC_SHIFT_Z = if p then 1073741824 else 0 := by
  cases p <;> simp [lshift, b2u, ARMG_CC_SHIFT_Z]

theorem cf_eq (p : Bool) :
    lshift (b2u p) ARMG_CC_SHIFT_C = if p then 536870912 else 0 := by
  cases p <;> simp [lshift, b2u, ARMG_CC_SHIFT_C]

theorem vf_eq (y : Nat) :
    lshift y ((ARMG_CC_SHIFT_V : Int) + 1 - 32) &&& ARMG_CC_MASK_V
      = if y.testBit 31 then 268435456 else 0 := by
  have h1 := and_two_pow_eq (y >>> 3) 28
  rw [Nat.testBit_shiftRight] at h1
  norm_num at h1
  simp only [lshift, ARMG_CC_SHIFT_V, ARMG_CC_MASK_V]
  norm_num
  exact h1

theorem nzcv_ADD (argL argR d3 : Nat) (hL : argL < 4294967296) (hR : argR < 4294967296) :
    armg_calculate_flags_nzcv ARMG_CC_OP_ADD argL argR d3
      = some (pack (decide (2147483648 ≤ add32 argL argR))
                   (add32 argL argR == 0)
                   (decide (add32 argL argR < argL))
                   ((xor (decide (2147483648 ≤ add32 argL argR)) (decide (2147483648 ≤ argL)))
                     && (xor (decide (2147483648 ≤ add32 argL argR)) (decide (2147483648 ≤ argR))))) := by
  unfold armg_calculate_flags_nzcv
  rw [if_neg (by decide), if_pos rfl]
  dsimp only
  rw [nf_eq _ (add32_lt _ _), zf_eq, cf_eq, vf_eq]
  simp only [Nat.testBit_and, Nat.testBit_xor, testBit31 _ (add32_lt _ _), testBit31 _ hL,
    testBit31 _ hR]
  rfl

theorem cfb_eq (x : Nat) :
    lshift (x &&& 1) ARMG_CC_SHIFT_C = if decide (x % 2 = 1) then 536870912 else 0 := by
  rw [Nat.and_one_is_mod]
  rcases Nat.mod_two_eq_zero_or_one x with h | h <;> simp [lshift, h, ARMG_CC_SHIFT_C]

theorem vfb_eq (x : Nat) :
    lshift (x &&& 1) ARMG_CC_SHIFT_V = if decide (x % 2 = 1) then 268435456 else 0 := by
  rw [Nat.and_one_is_mod]
  rcases Nat.mod_two_eq_zero_or_one x with h | h <;> simp [lshift, h, ARMG_CC_SHIFT_V]

theorem nzcv_SUB (argL argR d3 : Nat) (hL : argL < 4294967296) (hR : argR < 4294967296) :
    armg_calculate_flags_nzcv ARMG_CC_OP_SUB argL argR d3
      = some (pack (decide (2147483648 ≤ sub32 argL argR))
                   (sub32 argL argR == 0)
                   (decide (argL ≥ argR))
                   ((xor (decide (2147483648 ≤ argL)) (decide (2147483648 ≤ argR)))
                     && (xor (decide (2147483648 ≤ argL))
                          (decide (2147483648 ≤ sub32 argL argR))))) := by
  unfold armg_calculate_flags_nzcv
  rw [if_neg (by decide), if_neg (by decide), if_pos rfl]
  dsimp only
  rw [nf_eq _ (sub32_lt _ _), zf_eq, cf_eq, vf_eq]
  simp only [Nat.testBit_and, Nat.testBit_xor, testBit31 _ (sub32_lt _ _), testBit31 _ hL,
    testBit31 _ hR]
  rfl

theorem nzcv_ADC (argL argR oldC : Nat) (hL : argL < 4294967296) (hR : argR < 4294967296) :
    armg_calculate_flags_nzcv ARMG_CC_OP_ADC argL argR oldC
      = some (pack (decide (2147483648 ≤ add32 (add32 argL argR) oldC))
                   (add32 (add32 argL argR) oldC == 0)
                   (if oldC ≠ 0 then decide (add32 (add32 argL argR) oldC ≤ argL)
                    else decide (add32 (add32 argL argR) oldC < argL))
                   ((xor (decide (2147483648 ≤ add32 (add32 argL argR) oldC))
                          (decide (2147483648 ≤ argL)))
                     && (xor (decide (2147483648 ≤ add32 (add32 argL argR) oldC))
                          (decide (2147483648 ≤ argR))))) := by
  unfold armg_calculate_flags_nzcv
  rw [if_neg (by decide), if_neg (by decide), if_neg (by decide), if_pos rfl]
  dsimp only
  rw [nf_eq _ (add32_lt _ _), zf_eq, cf_eq, cf_eq, vf_eq]
  simp only [Nat.testBit_and, Nat.testBit_xor, testBit31 _ (add32_lt _ _), testBit31 _ hL,
    testBit31 _ hR]
  unfold pack
  by_cases h : oldC ≠ 0
  · rw [if_pos h, if_pos h]
  · rw [if_neg h, if_neg h]

theorem nzcv_SBB (argL argR oldC : Nat) (hL : argL < 4294967296) (hR : argR < 4294967296) :
    armg_calculate_flags_nzcv ARMG_CC_OP_SBB argL argR oldC
      = some (pack (decide (2147483648 ≤ sub32 (sub32 argL argR) (oldC ^^^ 1)))
                   (sub32 (sub32 argL argR) (oldC ^^^ 1) == 0)
                   (if oldC ≠ 0 then decide (argL ≥ argR) else decide (argL > argR))
                   ((xor (decide (2147483648 ≤ argL)) (decide (2147483648 ≤ argR)))
                     && (xor (decide (2147483648 ≤ argL))
                          (decide (2147483648 ≤ sub32 (sub32 argL argR) (oldC ^^^ 1)))))) := by
  unfold armg_calculate_flags_nzcv
  rw [if_neg (by decide), if_neg (by decide), if_neg (by decide), if_neg (by decide), if_pos rfl]
  dsimp only
  rw [nf_eq _ (sub32_lt _ _), zf_eq, cf_eq, cf_eq, vf_eq]
  simp only [Nat.testBit_and, Nat.testBit_xor, testBit31 _ (sub32_lt _ _), testBit31 _ hL,
    testBit31 _ hR]
  unfold pack
  by_cases h : oldC ≠ 0
  · rw [if_pos h, if_pos h]
  · rw [if_neg h, if_neg h]

theorem nzcv_LOGIC (res shco oldV : Nat) (h : res < 4294967296) :
    armg_calculate_flags_nzcv ARMG_CC_OP_LOGIC res shco oldV
      = some (pack (decide (2147483648 ≤ res)) (res == 0)
                   (decide (shco % 2 = 1)) (decide (oldV % 2 = 1))) := by
  unfold armg_calculate_flags_nzcv
  rw [if_neg (by decide), if_neg (by decide), if_neg (by decide), if_neg (by decide),
    if_neg (by decide), if_pos rfl]
  dsimp only
  rw [nf_eq _ h, zf_eq, cfb_eq, vfb_eq]
  rfl

theorem nzcv_MUL (res d2 d3 : Nat) (h : res < 4294967296) :
    armg_calculate_flags_nzcv ARMG_CC_OP_MUL res d2 d3
      = some (pack (decide (2147483648 ≤ res)) (res == 0)
                   (decide (((d3 >>> 1) &&& 1) % 2 = 1))
                   (decide (((d3 >>> 0) &&& 1) % 2 = 1))) := by
  unfold armg_calculate_flags_nzcv
  rw [if_neg (by decide), if_neg (by decide), if_neg (by decide), if_neg (by decide),
    if_neg (by decide), if_neg (by decide), if_pos rfl]
  dsimp only
  rw [nf_eq _ h, zf_eq, cfb_eq, vfb_eq]
  rfl

theorem nzcv_MULL (resLo32 resHi32 d3 : Nat) (h : resHi32 < 4294967296) :
    armg_calculate_flags_nzcv ARMG_CC_OP_MULL resLo32 resHi32 d3
      = some (pack (decide (2147483648 ≤ resHi32)) ((resHi32 ||| resLo32) == 0)
                   (decide (((d3 >>> 1) &&& 1) % 2 = 1))
                   (decide (((d3 >>> 0) &&& 1) % 2 = 1))) := by
  unfold armg_calculate_flags_nzcv
  rw [if_neg (by decide), if_neg (by decide), if_neg (by decide), if_neg (by decide),
    if_neg (by decide), if_neg (by decide), if_neg (by decide), if_pos rfl]
  dsimp only
  rw [nf_eq _ h, zf_eq, cfb_eq, vfb_eq]
  rfl

theorem pack_low (n z c v : Bool) : pack n z c v &&& 268435455 = 0 := by
  cases n <;> cases z <;> cases c <;> cases v <;> rfl

theorem bitOf_pack_N (n z c v : Bool) : bitOf (pack n z c v) 31 = b2u n := by
  cases n <;> cases z <;> cases c <;> cases v <;> rfl

theorem bitOf_pack_Z (n z c v : Bool) : bitOf (pack n z c v) 30 = b2u z := by
  cases n <;> cases z <;> cases c <;> cases v <;> rfl

theorem bitOf_pack_C (n z c v : Bool) : bitOf (pack n z c v) 29 = b2u c := by
  cases n <;> cases z <;> cases c <;> cases v <;> rfl

theorem bitOf_pack_V (n z c v : Bool) : bitOf (pack n z c v) 28 = b2u v := by
  cases n <;> cases z <;> cases c <;> cases v <;> rfl

theorem bitOf_eq_testBit (x i : Nat) : bitOf x i = b2u (x.testBit i) := by
  unfold bitOf b2u
  rw [Nat.and_one_is_mod, Nat.shiftRight_eq_div_pow, Nat.testBit_to_div_mod]
  rcases Nat.mod_two_eq_zero_or_one (x / 2 ^ i) with h | h <;> simp [h]

theorem bitOf_31 (x : Nat) (h : x < 4294967296) :
    bitOf x 31 = b2u (decide (2147483648 ≤ x)) := by
  rw [bitOf_eq_testBit, testBit31 x h]

/-! ## The packed flags word -/

/-- For the seven computing thunk ops the packed word has bits 27..0 zero. -/
theorem nzcv_low_bits_zero (cc_op d1 d2 d3 : Nat) (h1 : 1 ≤ cc_op) (h7 : cc_op ≤ 7)
    (hd1 : d1 < 4294967296) (hd2 : d2 < 4294967296) :
    ∃ r, armg_calculate_flags_nzcv cc_op d1 d2 d3 = some r ∧ r &&& 268435455 = 0 := by
  interval_cases cc_op
  · exact ⟨_, nzcv_ADD d1 d2 d3 hd1 hd2, pack_low _ _ _ _⟩
  · exact ⟨_, nzcv_SUB d1 d2 d3 hd1 hd2, pack_low _ _ _ _⟩
  · exact ⟨_, nzcv_ADC d1 d2 d3 hd1 hd2, pack_low _ _ _ _⟩
  · exact ⟨_, nzcv_SBB d1 d2 d3 hd1 hd2, pack_low _ _ _ _⟩
  · exact ⟨_, nzcv_LOGIC d1 d2 d3 hd1, pack_low _ _ _ _⟩
  · exact ⟨_, nzcv_MUL d1 d2 d3 hd1, pack_low _ _ _ _⟩
  · exact ⟨_, nzcv_MULL d1 d2 d3 hd2, pack_low _ _ _ _⟩

/-- C1: the claim that bits 27..0 of the word returned by
`armg_calculate_flags_nzcv` are zero for all eight thunk ops fails on the
code at `COPY`: the `COPY` case returns `cc_dep1` unmasked, so for
`cc_dep1 = 1` the returned word is `1` and `1 & 0x0FFFFFFF` is not zero. -/
theorem nzcv_copy_returns_dep1_unmasked :
    armg_calculate_flags_nzcv ARMG_CC_OP_COPY 1 0 0 = some 1
      ∧ (1 : Nat) &&& 268435455 ≠ 0 := by
  constructor
  · rfl
  · decide

/-- C2: for `SUB`, bit 29 (C) of the packed word is 1 if `argL >= argR`
as unsigned 32-bit values and 0 otherwise, for every `dep3`, and
`armg_calculate_flag_c` returns exactly that bit as 0 or 1. -/
theorem sub_carry_is_unsigned_ge (argL argR dep3 : Nat)
    (hL : argL < 4294967296) (hR : argR < 4294967296) :
    ∃ r, armg_calculate_flags_nzcv ARMG_CC_OP_SUB argL argR dep3 = some r
      ∧ bitOf r 29 = (if argL ≥ argR then 1 else 0)
      ∧ armg_calculate_flag_c ARMG_CC_OP_SUB argL argR dep3
          = some (if argL ≥ argR then 1 else 0) := by
  have hC : ∀ n z v, bitOf (pack n z (decide (argL ≥ argR)) v) 29
      = (if argL ≥ argR then 1 else 0) := by
    intro n z v
    rw [bitOf_pack_C]
    by_cases h : argL ≥ argR <;> simp [b2u, h]
  refine ⟨_, nzcv_SUB argL argR dep3 hL hR, hC _ _ _, ?_⟩
  unfold armg_calculate_flag_c
  rw [nzcv_SUB argL argR dep3 hL hR]
  exact congrArg some (hC _ _ _)

theorem sub_carry_is_unsigned_ge_witness :
    (5 < 4294967296 ∧ 7 < 4294967296) ∧
    ∃ r, armg_calculate_flags_nzcv ARMG_CC_OP_SUB 5 7 0 = some r
      ∧ bitOf r 29 = (if 5 ≥ 7 then 1 else 0)
      ∧ armg_calculate_flag_c ARMG_CC_OP_SUB 5 7 0 = some (if 5 ≥ 7 then 1 else 0) :=
  ⟨by decide, sub_carry_is_unsigned_ge 5 7 0 (by decide) (by decide)⟩

/-- C3: for `ADD`, bit 28 (V) of the packed word equals bit 31 of
`(argL ^ res) & (argR ^ res)` with `res = (argL + argR) mod 2^32`, for every
`dep3`, and `armg_calculate_flag_v` returns exactly that bit as 0 or 1. -/
theorem add_overflow_is_sign_test (argL argR dep3 : Nat)
    (hL : argL < 4294967296) (hR : argR < 4294967296) :
    ∃ r, armg_calculate_flags_nzcv ARMG_CC_OP_ADD argL argR dep3 = some r
      ∧ bitOf r 28
          = bitOf ((argL ^^^ ((argL + argR) % 4294967296))
                    &&& (argR ^^^ ((argL + argR) % 4294967296))) 31
      ∧ armg_calculate_flag_v ARMG_CC_OP_ADD argL argR dep3
          = some (bitOf ((argL ^^^ ((argL + argR) % 4294967296))
                    &&& (argR ^^^ ((argL + argR) % 4294967296))) 31)
      ∧ bitOf ((argL ^^^ ((argL + argR) % 4294967296))
                    &&& (argR ^^^ ((argL + argR) % 4294967296))) 31 ≤ 1 := by
  have hres : (argL + argR) % 4294967296 < 4294967296 := by omega
  have hV : ∀ n z c, bitOf (pack n z c
        ((xor (decide (2147483648 ≤ add32 argL argR)) (decide (2147483648 ≤ argL)))
          && (xor (decide (2147483648 ≤ add32 argL argR)) (decide (2147483648 ≤ argR))))) 28
      = bitOf ((argL ^^^ ((argL + argR) % 4294967296))
                    &&& (argR ^^^ ((argL + argR) % 4294967296))) 31 := by
    intro n z c
    rw [bitOf_pack_V, bitOf_eq_testBit]
    simp only [Nat.testBit_and, Nat.testBit_xor, testBit31 _ hres, testBit31 _ hL,
      testBit31 _ hR, add32]
    rw [Bool.xor_comm (decide (2147483648 ≤ argL)), Bool.xor_comm (decide (2147483648 ≤ argR))]
  refine ⟨_, nzcv_ADD argL argR dep3 hL hR, hV _ _ _, ?_, ?_⟩
  · unfold armg_calculate_flag_v
    rw [nzcv_ADD argL argR dep3 hL hR]
    exact congrArg some (hV _ _ _)
  · rw [bitOf_eq_testBit]
    unfold b2u
    split <;> omega

theorem add_overflow_is_sign_test_witness :
    (2147483647 < 4294967296 ∧ 1 < 4294967296) ∧
    ∃ r, armg_calculate_flags_nzcv ARMG_CC_OP_ADD 2147483647 1 0 = some r
      ∧ bitOf r 28
          = bitOf ((2147483647 ^^^ ((2147483647 + 1) % 4294967296))
                    &&& (1 ^^^ ((2147483647 + 1) % 4294967296))) 31
      ∧ armg_calculate_flag_v ARMG_CC_OP_ADD 2147483647 1 0
          = some (bitOf ((2147483647 ^^^ ((2147483647 + 1) % 4294967296))
                    &&& (1 ^^^ ((2147483647 + 1) % 4294967296))) 31)
      ∧ bitOf ((2147483647 ^^^ ((2147483647 + 1) % 4294967296))
                    &&& (1 ^^^ ((2147483647 + 1) % 4294967296))) 31 ≤ 1 :=
  ⟨by decide, add_overflow_is_sign_test 2147483647 1 0 (by decide) (by decide)⟩

/-! ## Conditions -/

theorem decode_cond (cond op : Nat) (hop : op < 16) :
    ((cond <<< 4) ||| op) >>> 4 = cond := by
  apply Nat.eq_of_testBit_eq
  intro i
  have h : op.testBit (4 + i) = false :=
    Nat.testBit_lt_two_pow (lt_of_lt_of_le hop (by
      calc 16 = 2 ^ 4 := by norm_num
        _ ≤ 2 ^ (4 + i) := Nat.pow_le_pow_right (by norm_num) (by omega)))
  simp [Nat.testBit_shiftRight, Nat.testBit_or, Nat.testBit_shiftLeft, h]

theorem decode_op (cond op : Nat) (hop : op < 16) :
    ((cond <<< 4) ||| op) &&& 15 = op := by
  apply Nat.eq_of_testBit_eq
  intro i
  have h15 : (15 : Nat) = 2 ^ 4 - 1 := by norm_num
  rw [Nat.testBit_and, Nat.testBit_or, Nat.testBit_shiftLeft, h15, Nat.testBit_two_pow_sub_one]
  by_cases hi : i < 4
  · have : ¬ (i ≥ 4) := by omega
    simp [hi, this]
  · have h : op.testBit i = false :=
      Nat.testBit_lt_two_pow (lt_of_lt_of_le hop (by
        calc 16 = 2 ^ 4 := by norm_num
          _ ≤ 2 ^ i := Nat.pow_le_pow_right (by norm_num) (by omega)))
    simp [hi, h]

/-- The switch of `armg_calculate_condition` on an already computed packed
word: the value returned for condition `cond` when the flags helper
returned `nzcv`. -/
theorem condition_of_nzcv (cond op d1 d2 d3 nzcv : Nat) (hop : op < 16)
    (h : armg_calculate_flags_nzcv op d1 d2 d3 = some nzcv) :
    armg_calculate_condition ((cond <<< 4) ||| op) d1 d2 d3 =
      if cond = ARMCondEQ ∨ cond = ARMCondNE then
        some (1 &&& ((cond &&& 1) ^^^ (nzcv >>> 30)))
      else if cond = ARMCondHS ∨ cond = ARMCondLO then
        some (1 &&& ((cond &&& 1) ^^^ (nzcv >>> 29)))
      else if cond = ARMCondMI ∨ cond = ARMCondPL then
        some (1 &&& ((cond &&& 1) ^^^ (nzcv >>> 31)))
      else if cond = ARMCondVS ∨ cond = ARMCondVC then
        some (1 &&& ((cond &&& 1) ^^^ (nzcv >>> 28)))
      else if cond = ARMCondHI ∨ cond = ARMCondLS then
        some (1 &&& ((cond &&& 1) ^^^ ((nzcv >>> 29) &&& not32 (nzcv >>> 30))))
      else if cond = ARMCondGE ∨ cond = ARMCondLT then
        some (1 &&& ((cond &&& 1) ^^^ not32 ((nzcv >>> 31) ^^^ (nzcv >>> 28))))
      else if cond = ARMCondGT ∨ cond = ARMCondLE then
        some (1 &&& ((cond &&& 1) ^^^ not32 ((nzcv >>> 30) ||| ((nzcv >>> 31) ^^^ (nzcv >>> 28)))))
      else none := by
  unfold armg_calculate_condition
  simp only [decode_cond cond op hop, decode_op cond op hop, h]
  rfl

theorem nzcv_some (op d1 d2 d3 : Nat) (hop : op ≤ 7) :
    ∃ r, armg_calculate_flags_nzcv op d1 d2 d3 = some r := by
  interval_cases op <;> exact ⟨_, rfl⟩

theorem low_flip (x : Nat) : 1 &&& (1 ^^^ x) = 1 - (1 &&& (0 ^^^ x)) := by
  simp only [Nat.one_and_eq_mod_two, Nat.zero_xor]
  have := @Nat.xor_mod_two_eq_one 1 x
  omega

theorem low_le_one (x : Nat) : 1 &&& x ≤ 1 := by
  rw [Nat.one_and_eq_mod_two]; omega

/-- C4: for every `cond` in 0..13, every valid thunk op and every
`dep1, dep2, dep3`, both `armg_calculate_condition(((cond | 1) << 4) | op, ..)`
and `armg_calculate_condition(((cond & ~1) << 4) | op, ..)` return a value,
and the first is `1 -` the second: each odd condition code is the exact
inverse of the preceding even one. -/
theorem condition_inverse_pairs (cond op dep1 dep2 dep3 : Nat)
    (hc : cond ≤ 13) (hop : op ≤ 7) :
    ∃ a b,
      armg_calculate_condition (((cond ||| 1) <<< 4) ||| op) dep1 dep2 dep3 = some a
      ∧ armg_calculate_condition (((cond &&& 4294967294) <<< 4) ||| op) dep1 dep2 dep3 = some b
      ∧ b ≤ 1 ∧ a = 1 - b := by
  obtain ⟨r, hr⟩ := nzcv_some op dep1 dep2 dep3 hop
  have hop16 : op < 16 := by omega
  rw [condition_of_nzcv _ op dep1 dep2 dep3 r hop16 hr,
    condition_of_nzcv _ op dep1 dep2 dep3 r hop16 hr]
  interval_cases cond <;>
    exact ⟨_, _, rfl, rfl, low_le_one _, low_flip _⟩

theorem condition_inverse_pairs_witness :
    (10 ≤ 13 ∧ 2 ≤ 7) ∧
    ∃ a b,
      armg_calculate_condition (((10 ||| 1) <<< 4) ||| 2) 3 5 0 = some a
      ∧ armg_calculate_condition (((10 &&& 4294967294) <<< 4) ||| 2) 3 5 0 = some b
      ∧ b ≤ 1 ∧ a = 1 - b :=
  ⟨by decide, condition_inverse_pairs 10 2 3 5 0 (by decide) (by decide)⟩

theorem low_keep (x : Nat) : 1 &&& (0 ^^^ x) = x &&& 1 := by
  rw [Nat.zero_xor, Nat.and_comm]

theorem not32_mod_two (x : Nat) : not32 x % 2 = 1 - x % 2 := by
  unfold not32; omega

theorem hi_low (c z : Nat) :
    1 &&& (0 ^^^ (c &&& not32 z)) = if c &&& 1 = 1 ∧ z &&& 1 = 0 then 1 else 0 := by
  simp only [Nat.one_and_eq_mod_two, Nat.zero_xor, Nat.and_one_is_mod]
  have h1 := @Nat.and_mod_two_eq_one c (not32 z)
  have h2 := not32_mod_two z
  split_ifs <;> omega

theorem ge_low (n v : Nat) :
    1 &&& (0 ^^^ not32 (n ^^^ v)) = if n &&& 1 = v &&& 1 then 1 else 0 := by
  simp only [Nat.one_and_eq_mod_two, Nat.zero_xor, Nat.and_one_is_mod]
  have h1 := @Nat.xor_mod_two_eq_one n v
  have h2 := not32_mod_two (n ^^^ v)
  split_ifs <;> omega

theorem gt_low (z n v : Nat) :
    1 &&& (0 ^^^ not32 (z ||| (n ^^^ v)))
      = if z &&& 1 = 0 ∧ n &&& 1 = v &&& 1 then 1 else 0 := by
  simp only [Nat.one_and_eq_mod_two, Nat.zero_xor, Nat.and_one_is_mod]
  have h1 := @Nat.xor_mod_two_eq_one n v
  have h2 := not32_mod_two (z ||| (n ^^^ v))
  have h3 := @Nat.or_mod_two_eq_one z (n ^^^ v)
  split_ifs <;> omega

theorem bitOf_le_one (x i : Nat) : bitOf x i ≤ 1 := by
  unfold bitOf; rw [Nat.and_one_is_mod]; omega

/-- C5: for every valid thunk op and every `dep1, dep2, dep3`, with N, Z, C, V
the bits 31, 30, 29, 28 of the word `r` returned by
`armg_calculate_flags_nzcv`, `armg_calculate_condition((cond << 4) | op, ..)`
returns a value in {0,1} equal to: Z for EQ, C for HS, N for MI, V for VS,
C and not Z for HI, (N = V) for GE, not Z and (N = V) for GT. -/
theorem condition_even_codes (op dep1 dep2 dep3 : Nat) (hop : op ≤ 7) :
    ∃ r, armg_calculate_flags_nzcv op dep1 dep2 dep3 = some r
      ∧ armg_calculate_condition ((ARMCondEQ <<< 4) ||| op) dep1 dep2 dep3
          = some (bitOf r 30)
      ∧ armg_calculate_condition ((ARMCondHS <<< 4) ||| op) dep1 dep2 dep3
          = some (bitOf r 29)
      ∧ armg_calculate_condition ((ARMCondMI <<< 4) ||| op) dep1 dep2 dep3
          = some (bitOf r 31)
      ∧ armg_calculate_condition ((ARMCondVS <<< 4) ||| op) dep1 dep2 dep3
          = some (bitOf r 28)
      ∧ armg_calculate_condition ((ARMCondHI <<< 4) ||| op) dep1 dep2 dep3
          = some (if bitOf r 29 = 1 ∧ bitOf r 30 = 0 then 1 else 0)
      ∧ armg_calculate_condition ((ARMCondGE <<< 4) ||| op) dep1 dep2 dep3
          = some (if bitOf r 31 = bitOf r 28 then 1 else 0)
      ∧ armg_calculate_condition ((ARMCondGT <<< 4) ||| op) dep1 dep2 dep3
          = some (if bitOf r 30 = 0 ∧ bitOf r 31 = bitOf r 28 then 1 else 0)
      ∧ bitOf r 31 ≤ 1 ∧ bitOf r 30 ≤ 1 ∧ bitOf r 29 ≤ 1 ∧ bitOf r 28 ≤ 1 := by
  obtain ⟨r, hr⟩ := nzcv_some op dep1 dep2 dep3 hop
  have hop16 : op < 16 := by omega
  refine ⟨r, hr, ?_, ?_, ?_, ?_, ?_, ?_, ?_, bitOf_le_one _ _, bitOf_le_one _ _,
    bitOf_le_one _ _, bitOf_le_one _ _⟩
  · exact (condition_of_nzcv ARMCondEQ op dep1 dep2 dep3 r hop16 hr).trans
      (congrArg some (low_keep _))
  · exact (condition_of_nzcv ARMCondHS op dep1 dep2 dep3 r hop16 hr).trans
      (congrArg some (low_keep _))
  · exact (condition_of_nzcv ARMCondMI op dep1 dep2 dep3 r hop16 hr).trans
      (congrArg some (low_keep _))
  · exact (condition_of_nzcv ARMCondVS op dep1 dep2 dep3 r hop16 hr).trans
      (congrArg some (low_keep _))
  · exact (condition_of_nzcv ARMCondHI op dep1 dep2 dep3 r hop16 hr).trans
      (congrArg some (hi_low _ _))
  · exact (condition_of_nzcv ARMCondGE op dep1 dep2 dep3 r hop16 hr).trans
      (congrArg some (ge_low _ _))
  · exact (condition_of_nzcv ARMCondGT op dep1 dep2 dep3 r hop16 hr).trans
      (congrArg some (gt_low _ _ _))

theorem condition_even_codes_witness :
    2 ≤ 7 ∧
    ∃ r, armg_calculate_flags_nzcv 2 7 5 0 = some r
      ∧ armg_calculate_condition ((ARMCondEQ <<< 4) ||| 2) 7 5 0 = some (bitOf r 30)
      ∧ armg_calculate_condition ((ARMCondHS <<< 4) ||| 2) 7 5 0 = some (bitOf r 29)
      ∧ armg_calculate_condition ((ARMCondMI <<< 4) ||| 2) 7 5 0 = some (bitOf r 31)
      ∧ armg_calculate_condition ((ARMCondVS <<< 4) ||| 2) 7 5 0 = some (bitOf r 28)
      ∧ armg_calculate_condition ((ARMCondHI <<< 4) ||| 2) 7 5 0
          = some (if bitOf r 29 = 1 ∧ bitOf r 30 = 0 then 1 else 0)
      ∧ armg_calculate_condition ((ARMCondGE <<< 4) ||| 2) 7 5 0
          = some (if bitOf r 31 = bitOf r 28 then 1 else 0)
      ∧ armg_calculate_condition ((ARMCondGT <<< 4) ||| 2) 7 5 0
          = some (if bitOf r 30 = 0 ∧ bitOf r 31 = bitOf r 28 then 1 else 0)
      ∧ bitOf r 31 ≤ 1 ∧ bitOf r 30 ≤ 1 ∧ bitOf r 29 ≤ 1 ∧ bitOf r 28 ≤ 1 :=
  ⟨by decide, condition_even_codes 2 7 5 0 (by decide)⟩

/-! ## Carry and overflow of the arithmetic thunks -/

theorem b2u_eq_one (p : Bool) : b2u p = 1 ↔ p = true := by
  cases p <;> simp [b2u]

theorem b2u_le_one (p : Bool) : b2u p ≤ 1 := by
  cases p <;> simp [b2u]

theorem or_eq_zero (a b : Nat) : a ||| b = 0 ↔ a = 0 ∧ b = 0 := by
  constructor
  · intro h
    have ht : ∀ i, a.testBit i = false ∧ b.testBit i = false := by
      intro i
      have h1 : (a ||| b).testBit i = false := by rw [h]; simp
      simpa [Nat.testBit_or] using h1
    constructor
    · apply Nat.eq_of_testBit_eq
      intro i
      simp [(ht i).1]
    · apply Nat.eq_of_testBit_eq
      intro i
      simp [(ht i).2]
  · rintro ⟨rfl, rfl⟩
    rfl

/-- C6: for `ADC` with `oldC` in {0,1}, bit 29 (C) of the packed word is 1
exactly when the exact sum `argL + argR + oldC` is at least `2^32`; the
code computes it as `res <= argL` when `oldC = 1` and as `res < argL` when
`oldC = 0`, with `res = (argL + argR + oldC) mod 2^32`. -/
theorem adc_carry_is_true_carry (argL argR oldC : Nat)
    (hL : argL < 4294967296) (hR : argR < 4294967296) (hC : oldC ≤ 1) :
    ∃ r, armg_calculate_flags_nzcv ARMG_CC_OP_ADC argL argR oldC = some r
      ∧ bitOf r 29 ≤ 1
      ∧ (bitOf r 29 = 1 ↔ 4294967296 ≤ argL + argR + oldC)
      ∧ (oldC = 1 →
          bitOf r 29 = b2u (decide ((argL + argR + oldC) % 4294967296 ≤ argL)))
      ∧ (oldC = 0 →
          bitOf r 29 = b2u (decide ((argL + argR + oldC) % 4294967296 < argL))) := by
  have hres : add32 (add32 argL argR) oldC = (argL + argR + oldC) % 4294967296 := by
    unfold add32; omega
  refine ⟨_, nzcv_ADC argL argR oldC hL hR, ?_, ?_, ?_, ?_⟩
  · rw [bitOf_pack_C]; exact b2u_le_one _
  · rw [bitOf_pack_C, b2u_eq_one, hres]
    interval_cases oldC
    · simp only [ne_eq, not_true_eq_false, if_false, decide_eq_true_eq]; omega
    · simp only [ne_eq, one_ne_zero, not_false_eq_true, if_true, decide_eq_true_eq]; omega
  · intro h1
    subst h1
    rw [bitOf_pack_C, hres]
    simp
  · intro h0
    subst h0
    rw [bitOf_pack_C, hres]
    simp

theorem adc_carry_is_true_carry_witness :
    (4294967295 < 4294967296 ∧ 0 < 4294967296 ∧ 1 ≤ 1) ∧
    ∃ r, armg_calculate_flags_nzcv ARMG_CC_OP_ADC 4294967295 0 1 = some r
      ∧ bitOf r 29 ≤ 1
      ∧ (bitOf r 29 = 1 ↔ 4294967296 ≤ 4294967295 + 0 + 1)
      ∧ (1 = 1 →
          bitOf r 29 = b2u (decide ((4294967295 + 0 + 1) % 4294967296 ≤ 4294967295)))
      ∧ (1 = 0 →
          bitOf r 29 = b2u (decide ((4294967295 + 0 + 1) % 4294967296 < 4294967295))) :=
  ⟨by decide, adc_carry_is_true_carry 4294967295 0 1 (by decide) (by decide) (by decide)⟩

/-- C7 as stated fails: scenario S6 says the C bit of
`armg_calculate_flags_nzcv(ADC, 0xFFFFFFFF, 0, 0)` is 1, but the code
returns a word whose bit 29 is 0 there. -/
theorem scenario_S6_as_stated_fails :
    ¬ ((armg_calculate_flags_nzcv ARMG_CC_OP_ADC 4294967295 0 1).map (fun r => bitOf r 29)
          = some 1
        ∧ (armg_calculate_flags_nzcv ARMG_CC_OP_ADC 4294967295 0 0).map (fun r => bitOf r 29)
          = some 1
        ∧ (armg_calculate_flags_nzcv ARMG_CC_OP_ADC 0 0 0).map (fun r => bitOf r 29)
          = some 0) := by
  decide

/-- C7 amended: the C bit (bit 29) of
`armg_calculate_flags_nzcv(ADC, 0xFFFFFFFF, 0, 1)` is 1; the C bit of
`armg_calculate_flags_nzcv(ADC, 0xFFFFFFFF, 0, 0)` is 0 (there
`res = 0xFFFFFFFF` is not below `argL`); and the C bit of
`armg_calculate_flags_nzcv(ADC, 0, 0, 0)` is 0. -/
theorem scenario_S6_carry_bits :
    (armg_calculate_flags_nzcv ARMG_CC_OP_ADC 4294967295 0 1).map (fun r => bitOf r 29)
        = some 1
      ∧ (armg_calculate_flags_nzcv ARMG_CC_OP_ADC 4294967295 0 0).map (fun r => bitOf r 29)
        = some 0
      ∧ (armg_calculate_flags_nzcv ARMG_CC_OP_ADC 0 0 0).map (fun r => bitOf r 29)
        = some 0 := by
  decide

/-- C8: for `SBB` with `oldC` in {0,1}, bit 29 (C) of the packed word is 1
exactly when `argL - argR - (1 - oldC)` does not borrow, that is
`argL >= argR + (1 - oldC)`; equivalently it is the carry-out of
`argL + (NOT argR) + oldC`. -/
theorem sbb_carry_is_no_borrow (argL argR oldC : Nat)
    (hL : argL < 4294967296) (hR : argR < 4294967296) (hC : oldC ≤ 1) :
    ∃ r, armg_calculate_flags_nzcv ARMG_CC_OP_SBB argL argR oldC = some r
      ∧ bitOf r 29 ≤ 1
      ∧ (bitOf r 29 = 1 ↔ argR + (1 - oldC) ≤ argL)
      ∧ (bitOf r 29 = 1 ↔ 4294967296 ≤ argL + not32 argR + oldC) := by
  refine ⟨_, nzcv_SBB argL argR oldC hL hR, ?_, ?_, ?_⟩
  · rw [bitOf_pack_C]; exact b2u_le_one _
  · rw [bitOf_pack_C, b2u_eq_one]
    interval_cases oldC
    · simp only [ne_eq, not_true_eq_false, if_false, decide_eq_true_eq]; omega
    · simp only [ne_eq, one_ne_zero, not_false_eq_true, if_true, decide_eq_true_eq]; omega
  · rw [bitOf_pack_C, b2u_eq_one]
    unfold not32
    interval_cases oldC
    · simp only [ne_eq, not_true_eq_false, if_false, decide_eq_true_eq]; omega
    · simp only [ne_eq, one_ne_zero, not_false_eq_true, if_true, decide_eq_true_eq]; omega

theorem sbb_carry_is_no_borrow_witness :
    (5 < 4294967296 ∧ 5 < 4294967296 ∧ 0 ≤ 1) ∧
    ∃ r, armg_calculate_flags_nzcv ARMG_CC_OP_SBB 5 5 0 = some r
      ∧ bitOf r 29 ≤ 1
      ∧ (bitOf r 29 = 1 ↔ 5 + (1 - 0) ≤ 5)
      ∧ (bitOf r 29 = 1 ↔ 4294967296 ≤ 5 + not32 5 + 0) :=
  ⟨by decide, sbb_carry_is_no_borrow 5 5 0 (by decide) (by decide) (by decide)⟩

/-- C9: for `oldC` in {0,1}, bit 28 (V) of the packed word is 1 exactly when
the exact signed result is not representable in 32-bit twos complement:
for `ADD` and `ADC` when `sint argL + sint argR + carry-in` lies outside
`[-2^31, 2^31 - 1]` (carry-in 0 for `ADD`, `oldC` for `ADC`), for `SUB` and
`SBB` when `sint argL - sint argR - borrow` lies outside that range
(borrow 0 for `SUB`, `1 - oldC` for `SBB`). -/
theorem overflow_is_signed_overflow (argL argR oldC dep3 : Nat)
    (hL : argL < 4294967296) (hR : argR < 4294967296) (hC : oldC ≤ 1) :
    (∃ r, armg_calculate_flags_nzcv ARMG_CC_OP_ADD argL argR dep3 = some r
        ∧ bitOf r 28 ≤ 1
        ∧ (bitOf r 28 = 1 ↔
            ¬ (-2147483648 ≤ sint argL + sint argR
                ∧ sint argL + sint argR ≤ 2147483647)))
    ∧ (∃ r, armg_calculate_flags_nzcv ARMG_CC_OP_ADC argL argR oldC = some r
        ∧ bitOf r 28 ≤ 1
        ∧ (bitOf r 28 = 1 ↔
            ¬ (-2147483648 ≤ sint argL + sint argR + (oldC : Int)
                ∧ sint argL + sint argR + (oldC : Int) ≤ 2147483647)))
    ∧ (∃ r, armg_calculate_flags_nzcv ARMG_CC_OP_SUB argL argR dep3 = some r
        ∧ bitOf r 28 ≤ 1
        ∧ (bitOf r 28 = 1 ↔
            ¬ (-2147483648 ≤ sint argL - sint argR
                ∧ sint argL - sint argR ≤ 2147483647)))
    ∧ (∃ r, armg_calculate_flags_nzcv ARMG_CC_OP_SBB argL argR oldC = some r
        ∧ bitOf r 28 ≤ 1
        ∧ (bitOf r 28 = 1 ↔
            ¬ (-2147483648 ≤ sint argL - sint argR - (1 - (oldC : Int))
                ∧ sint argL - sint argR - (1 - (oldC : Int)) ≤ 2147483647))) := by
  refine ⟨⟨_, nzcv_ADD argL argR dep3 hL hR, ?_, ?_⟩, ⟨_, nzcv_ADC argL argR oldC hL hR, ?_, ?_⟩,
    ⟨_, nzcv_SUB argL argR dep3 hL hR, ?_, ?_⟩, ⟨_, nzcv_SBB argL argR oldC hL hR, ?_, ?_⟩⟩
  · rw [bitOf_pack_V]; exact b2u_le_one _
  · rw [bitOf_pack_V, b2u_eq_one]
    simp only [Bool.and_eq_true, bne_iff_ne, ne_eq, decide_eq_decide, add32, sint]
    split_ifs <;> omega
  · rw [bitOf_pack_V]; exact b2u_le_one _
  · rw [bitOf_pack_V, b2u_eq_one]
    simp only [Bool.and_eq_true, bne_iff_ne, ne_eq, decide_eq_decide, add32, sint]
    split_ifs <;> omega
  · rw [bitOf_pack_V]; exact b2u_le_one _
  · rw [bitOf_pack_V, b2u_eq_one]
    simp only [Bool.and_eq_true, bne_iff_ne, ne_eq, decide_eq_decide, sub32, sint]
    split_ifs <;> omega
  · rw [bitOf_pack_V]; exact b2u_le_one _
  · rw [bitOf_pack_V, b2u_eq_one]
    interval_cases oldC
    · have h1 : (0 ^^^ 1 : Nat) = 1 := by decide
      simp only [Bool.and_eq_true, bne_iff_ne, ne_eq, decide_eq_decide, sub32, sint,
        h1]
      split_ifs <;> omega
    · have h1 : (1 ^^^ 1 : Nat) = 0 := by decide
      simp only [Bool.and_eq_true, bne_iff_ne, ne_eq, decide_eq_decide, sub32, sint,
        h1]
      split_ifs <;> omega

theorem overflow_is_signed_overflow_witness :
    (2147483647 < 4294967296 ∧ 1 < 4294967296 ∧ 1 ≤ 1) ∧
    ((∃ r, armg_calculate_flags_nzcv ARMG_CC_OP_ADD 2147483647 1 0 = some r
        ∧ bitOf r 28 ≤ 1
        ∧ (bitOf r 28 = 1 ↔
            ¬ (-2147483648 ≤ sint 2147483647 + sint 1
                ∧ sint 2147483647 + sint 1 ≤ 2147483647)))
    ∧ (∃ r, armg_calculate_flags_nzcv ARMG_CC_OP_ADC 2147483647 1 1 = some r
        ∧ bitOf r 28 ≤ 1
        ∧ (bitOf r 28 = 1 ↔
            ¬ (-2147483648 ≤ sint 2147483647 + sint 1 + ((1 : Nat) : Int)
                ∧ sint 2147483647 + sint 1 + ((1 : Nat) : Int) ≤ 2147483647)))
    ∧ (∃ r, armg_calculate_flags_nzcv ARMG_CC_OP_SUB 2147483647 1 0 = some r
        ∧ bitOf r 28 ≤ 1
        ∧ (bitOf r 28 = 1 ↔
            ¬ (-2147483648 ≤ sint 2147483647 - sint 1
                ∧ sint 2147483647 - sint 1 ≤ 2147483647)))
    ∧ (∃ r, armg_calculate_flags_nzcv ARMG_CC_OP_SBB 2147483647 1 1 = some r
        ∧ bitOf r 28 ≤ 1
        ∧ (bitOf r 28 = 1 ↔
            ¬ (-2147483648 ≤ sint 2147483647 - sint 1 - (1 - ((1 : Nat) : Int))
                ∧ sint 2147483647 - sint 1 - (1 - ((1 : Nat) : Int)) ≤ 2147483647)))) :=
  ⟨by decide,
    overflow_is_signed_overflow 2147483647 1 1 0 (by decide) (by decide) (by decide)⟩

/-! ## N and Z of the logic and long-multiply thunks -/

theorem bitOf_63_concat (lo hi : Nat) (hlo : lo < 4294967296) :
    bitOf (hi * 4294967296 + lo) 63 = bitOf hi 31 := by
  rw [bitOf_eq_testBit, bitOf_eq_testBit, Nat.testBit_to_div_mod, Nat.testBit_to_div_mod]
  congr 2
  apply propext
  norm_num
  omega

/-- C10: for every `dep1, dep2, dep3`: for `LOGIC` (with `res = dep1`),
bit 30 (Z) of the packed word is 1 iff `res = 0` and bit 31 (N) is bit 31 of
`res`; for `MULL`, Z is 1 iff the 64-bit value `dep2 : dep1` is zero and N
is bit 63 of that 64-bit value, which is bit 31 of `dep2`. -/
theorem logic_mull_n_z (dep1 dep2 dep3 : Nat)
    (h1 : dep1 < 4294967296) (h2 : dep2 < 4294967296) :
    (∃ r, armg_calculate_flags_nzcv ARMG_CC_OP_LOGIC dep1 dep2 dep3 = some r
        ∧ bitOf r 30 ≤ 1
        ∧ (bitOf r 30 = 1 ↔ dep1 = 0)
        ∧ bitOf r 31 = bitOf dep1 31)
    ∧ (∃ r, armg_calculate_flags_nzcv ARMG_CC_OP_MULL dep1 dep2 dep3 = some r
        ∧ bitOf r 30 ≤ 1
        ∧ (bitOf r 30 = 1 ↔ dep2 * 4294967296 + dep1 = 0)
        ∧ bitOf r 31 = bitOf (dep2 * 4294967296 + dep1) 63
        ∧ bitOf r 31 = bitOf dep2 31) := by
  refine ⟨⟨_, nzcv_LOGIC dep1 dep2 dep3 h1, ?_, ?_, ?_⟩,
    ⟨_, nzcv_MULL dep1 dep2 dep3 h2, ?_, ?_, ?_, ?_⟩⟩
  · rw [bitOf_pack_Z]; exact b2u_le_one _
  · rw [bitOf_pack_Z, b2u_eq_one]; simp
  · rw [bitOf_pack_N, bitOf_31 dep1 h1]
  · rw [bitOf_pack_Z]; exact b2u_le_one _
  · rw [bitOf_pack_Z, b2u_eq_one, beq_iff_eq, or_eq_zero]; omega
  · rw [bitOf_pack_N, bitOf_63_concat dep1 dep2 h1, bitOf_31 dep2 h2]
  · rw [bitOf_pack_N, bitOf_31 dep2 h2]

theorem logic_mull_n_z_witness :
    (0 < 4294967296 ∧ 2147483648 < 4294967296) ∧
    ((∃ r, armg_calculate_flags_nzcv ARMG_CC_OP_LOGIC 0 2147483648 3 = some r
        ∧ bitOf r 30 ≤ 1
        ∧ (bitOf r 30 = 1 ↔ 0 = 0)
        ∧ bitOf r 31 = bitOf 0 31)
    ∧ (∃ r, armg_calculate_flags_nzcv ARMG_CC_OP_MULL 0 2147483648 3 = some r
        ∧ bitOf r 30 ≤ 1
        ∧ (bitOf r 30 = 1 ↔ 2147483648 * 4294967296 + 0 = 0)
        ∧ bitOf r 31 = bitOf (2147483648 * 4294967296 + 0) 63
        ∧ bitOf r 31 = bitOf 2147483648 31)) :=
  ⟨by decide, logic_mull_n_z 0 2147483648 3 (by decide) (by decide)⟩

/-! ## Carry and overflow passed through by the logic and multiply thunks -/

theorem b2u_low_bit (x : Nat) : b2u (decide (x % 2 = 1)) = bitOf x 0 := by
  unfold b2u bitOf
  rw [Nat.and_one_is_mod, Nat.shiftRight_zero]
  rcases Nat.mod_two_eq_zero_or_one x with h | h <;> simp [h]

theorem b2u_masked_bit (x i : Nat) : b2u (decide (((x >>> i) &&& 1) % 2 = 1)) = bitOf x i := by
  unfold b2u bitOf
  rw [Nat.and_one_is_mod]
  rcases Nat.mod_two_eq_zero_or_one (x >>> i) with h | h <;> simp [h]

/-- C11: the C and V flags of the `LOGIC`, `MUL` and `MULL` thunks are passed
through from the dependency words and do not depend on the result: for
`LOGIC`, C is bit 0 of `dep2` and V is bit 0 of `dep3`; for `MUL` and `MULL`,
C is bit 1 of `dep3` and V is bit 0 of `dep3`, for every `dep1, dep2, dep3`. -/
theorem logic_mul_carry_overflow_pass_through (dep1 dep2 dep3 : Nat)
    (h1 : dep1 < 4294967296) (h2 : dep2 < 4294967296) :
    (∃ r, armg_calculate_flags_nzcv ARMG_CC_OP_LOGIC dep1 dep2 dep3 = some r
        ∧ bitOf r 29 = bitOf dep2 0 ∧ bitOf r 28 = bitOf dep3 0)
    ∧ (∃ r, armg_calculate_flags_nzcv ARMG_CC_OP_MUL dep1 dep2 dep3 = some r
        ∧ bitOf r 29 = bitOf dep3 1 ∧ bitOf r 28 = bitOf dep3 0)
    ∧ (∃ r, armg_calculate_flags_nzcv ARMG_CC_OP_MULL dep1 dep2 dep3 = some r
        ∧ bitOf r 29 = bitOf dep3 1 ∧ bitOf r 28 = bitOf dep3 0) := by
  refine ⟨⟨_, nzcv_LOGIC dep1 dep2 dep3 h1, ?_, ?_⟩, ⟨_, nzcv_MUL dep1 dep2 dep3 h1, ?_, ?_⟩,
    ⟨_, nzcv_MULL dep1 dep2 dep3 h2, ?_, ?_⟩⟩
  · rw [bitOf_pack_C, b2u_low_bit]
  · rw [bitOf_pack_V, b2u_low_bit]
  · rw [bitOf_pack_C, b2u_masked_bit]
  · rw [bitOf_pack_V, b2u_masked_bit]
  · rw [bitOf_pack_C, b2u_masked_bit]
  · rw [bitOf_pack_V, b2u_masked_bit]

theorem logic_mul_carry_overflow_pass_through_witness :
    (2147483648 < 4294967296 ∧ 1 < 4294967296) ∧
    ((∃ r, armg_calculate_flags_nzcv ARMG_CC_OP_LOGIC 2147483648 1 2 = some r
        ∧ bitOf r 29 = bitOf 1 0 ∧ bitOf r 28 = bitOf 2 0)
    ∧ (∃ r, armg_calculate_flags_nzcv ARMG_CC_OP_MUL 2147483648 1 2 = some r
        ∧ bitOf r 29 = bitOf 2 1 ∧ bitOf r 28 = bitOf 2 0)
    ∧ (∃ r, armg_calculate_flags_nzcv ARMG_CC_OP_MULL 2147483648 1 2 = some r
        ∧ bitOf r 29 = bitOf 2 1 ∧ bitOf r 28 = bitOf 2 0)) :=
  ⟨by decide, logic_mul_carry_overflow_pass_through 2147483648 1 2 (by decide) (by decide)⟩

/-! ## Fatal failures -/

theorem nzcv_none_iff (cc_op d1 d2 d3 : Nat) :
    armg_calculate_flags_nzcv cc_op d1 d2 d3 = none ↔ 7 < cc_op := by
  constructor
  · intro h
    by_contra hle
    obtain ⟨r, hr⟩ := nzcv_some cc_op d1 d2 d3 (by omega)
    rw [hr] at h
    exact Option.noConfusion h
  · intro h
    unfold armg_calculate_flags_nzcv
    simp only [ARMG_CC_OP_COPY, ARMG_CC_OP_ADD, ARMG_CC_OP_SUB, ARMG_CC_OP_ADC, ARMG_CC_OP_SBB,
      ARMG_CC_OP_LOGIC, ARMG_CC_OP_MUL, ARMG_CC_OP_MULL]
    split_ifs
    all_goals first
      | rfl
      | omega

theorem condition_none_iff (cond_n_op d1 d2 d3 : Nat) :
    armg_calculate_condition cond_n_op d1 d2 d3 = none
      ↔ 7 < cond_n_op &&& 15 ∨ 13 < cond_n_op >>> 4 := by
  unfold armg_calculate_condition
  generalize cond_n_op >>> 4 = c
  generalize cond_n_op &&& 15 = o
  cases hn : armg_calculate_flags_nzcv o d1 d2 d3 with
  | none =>
    have := (nzcv_none_iff _ _ _ _).1 hn
    simp only [hn, true_iff]
    exact Or.inl this
  | some r =>
    have h7 : ¬ (7 < o) := by
      intro h
      rw [(nzcv_none_iff _ _ _ _).2 h] at hn
      exact Option.noConfusion hn
    simp only [hn, ARMCondEQ, ARMCondNE, ARMCondHS, ARMCondLO, ARMCondMI, ARMCondPL, ARMCondVS,
      ARMCondVC, ARMCondHI, ARMCondLS, ARMCondGE, ARMCondLT, ARMCondGT, ARMCondLE]
    split_ifs
    all_goals simp only [reduceCtorEq, false_iff, true_iff]
    all_goals omega

/-- C12: `armg_calculate_flags_nzcv` fails fatally iff `cc_op` is not one of
the eight thunk ops; `armg_calculate_condition` fails fatally iff
`cond_n_op & 0xF` is not one of the eight thunk ops or `cond_n_op >> 4` is
not in 0..13, in particular for AL = 14 and NV = 15; in every other case
each returns a value. -/
theorem fatal_iff_unknown_op_or_condition :
    (∀ cc_op d1 d2 d3 : Nat,
      (armg_calculate_flags_nzcv cc_op d1 d2 d3 = none ↔
        ¬ (cc_op = ARMG_CC_OP_COPY ∨ cc_op = ARMG_CC_OP_ADD ∨ cc_op = ARMG_CC_OP_SUB
            ∨ cc_op = ARMG_CC_OP_ADC ∨ cc_op = ARMG_CC_OP_SBB ∨ cc_op = ARMG_CC_OP_LOGIC
            ∨ cc_op = ARMG_CC_OP_MUL ∨ cc_op = ARMG_CC_OP_MULL))
      ∧ (armg_calculate_flags_nzcv cc_op d1 d2 d3 ≠ none →
          ∃ r, armg_calculate_flags_nzcv cc_op d1 d2 d3 = some r))
    ∧ (∀ cond_n_op d1 d2 d3 : Nat,
      (armg_calculate_condition cond_n_op d1 d2 d3 = none ↔
        (¬ (cond_n_op &&& 15 = ARMG_CC_OP_COPY ∨ cond_n_op &&& 15 = ARMG_CC_OP_ADD
            ∨ cond_n_op &&& 15 = ARMG_CC_OP_SUB ∨ cond_n_op &&& 15 = ARMG_CC_OP_ADC
            ∨ cond_n_op &&& 15 = ARMG_CC_OP_SBB ∨ cond_n_op &&& 15 = ARMG_CC_OP_LOGIC
            ∨ cond_n_op &&& 15 = ARMG_CC_OP_MUL ∨ cond_n_op &&& 15 = ARMG_CC_OP_MULL)
          ∨ ¬ (cond_n_op >>> 4 ≤ 13)))
      ∧ (armg_calculate_condition cond_n_op d1 d2 d3 ≠ none →
          ∃ r, armg_calculate_condition cond_n_op d1 d2 d3 = some r))
    ∧ (∀ op d1 d2 d3 : Nat, op ≤ 7 →
        armg_calculate_condition ((ARMCondAL <<< 4) ||| op) d1 d2 d3 = none
        ∧ armg_calculate_condition ((ARMCondNV <<< 4) ||| op) d1 d2 d3 = none) := by
  refine ⟨?_, ?_, ?_⟩
  · intro cc_op d1 d2 d3
    refine ⟨?_, fun h => Option.ne_none_iff_exists'.1 h⟩
    rw [nzcv_none_iff]
    simp only [ARMG_CC_OP_COPY, ARMG_CC_OP_ADD, ARMG_CC_OP_SUB, ARMG_CC_OP_ADC, ARMG_CC_OP_SBB,
      ARMG_CC_OP_LOGIC, ARMG_CC_OP_MUL, ARMG_CC_OP_MULL]
    omega
  · intro k d1 d2 d3
    refine ⟨?_, fun h => Option.ne_none_iff_exists'.1 h⟩
    rw [condition_none_iff]
    simp only [ARMG_CC_OP_COPY, ARMG_CC_OP_ADD, ARMG_CC_OP_SUB, ARMG_CC_OP_ADC, ARMG_CC_OP_SBB,
      ARMG_CC_OP_LOGIC, ARMG_CC_OP_MUL, ARMG_CC_OP_MULL]
    omega
  · intro op d1 d2 d3 hop
    have hop16 : op < 16 := by omega
    constructor
    · rw [condition_none_iff, decode_cond _ _ hop16]
      right; decide
    · rw [condition_none_iff, decode_cond _ _ hop16]
      right; decide

theorem fatal_iff_unknown_op_or_condition_witness :
    armg_calculate_condition ((ARMCondAL <<< 4) ||| 2) 5 5 0 = none
      ∧ armg_calculate_condition ((ARMCondNV <<< 4) ||| 2) 5 5 0 = none :=
  fatal_iff_unknown_op_or_condition.2.2 2 5 5 0 (by decide)

/-! ## Guest state initialisation and flag readback -/

/-- C13: after `LibVEX_GuestARM_initialise`, every guest register R0..R15
is 0, the thunk is (`COPY`, 0, 0, 0), the bookkeeping scalars (EMWARN,
TISTART, TILEN, NRADDR, IP_AT_SYSCALL) and FPSCR are 0, and
`LibVEX_GuestARM_get_cpsr` on that state returns 0; in general
`LibVEX_GuestARM_get_cpsr` of a state is `armg_calculate_flags_nzcv` of its
four thunk words. -/
theorem initialise_clears_state (st : VexGuestARMState) :
    ((LibVEX_GuestARM_initialise st).guest_R0 = 0
      ∧ (LibVEX_GuestARM_initialise st).guest_R1 = 0
      ∧ (LibVEX_GuestARM_initialise st).guest_R2 = 0
      ∧ (LibVEX_GuestARM_initialise st).guest_R3 = 0
      ∧ (LibVEX_GuestARM_initialise st).guest_R4 = 0
      ∧ (LibVEX_GuestARM_initialise st).guest_R5 = 0
      ∧ (LibVEX_GuestARM_initialise st).guest_R6 = 0
      ∧ (LibVEX_GuestARM_initialise st).guest_R7 = 0
      ∧ (LibVEX_GuestARM_initialise st).guest_R8 = 0
      ∧ (LibVEX_GuestARM_initialise st).guest_R9 = 0
      ∧ (LibVEX_GuestARM_initialise st).guest_R10 = 0
      ∧ (LibVEX_GuestARM_initialise st).guest_R11 = 0
      ∧ (LibVEX_GuestARM_initialise st).guest_R12 = 0
      ∧ (LibVEX_GuestARM_initialise st).guest_R13 = 0
      ∧ (LibVEX_GuestARM_initialise st).guest_R14 = 0
      ∧ (LibVEX_GuestARM_initialise st).guest_R15 = 0)
    ∧ ((LibVEX_GuestARM_initialise st).guest_CC_OP = ARMG_CC_OP_COPY
      ∧ (LibVEX_GuestARM_initialise st).guest_CC_DEP1 = 0
      ∧ (LibVEX_GuestARM_initialise st).guest_CC_DEP2 = 0
      ∧ (LibVEX_GuestARM_initialise st).guest_CC_DEP3 = 0)
    ∧ ((LibVEX_GuestARM_initialise st).guest_EMWARN = 0
      ∧ (LibVEX_GuestARM_initialise st).guest_TISTART = 0
      ∧ (LibVEX_GuestARM_initialise st).guest_TILEN = 0
      ∧ (LibVEX_GuestARM_initialise st).guest_NRADDR = 0
      ∧ (LibVEX_GuestARM_initialise st).guest_IP_AT_SYSCALL = 0
      ∧ (LibVEX_GuestARM_initialise st).guest_FPSCR = 0)
    ∧ LibVEX_GuestARM_get_cpsr (LibVEX_GuestARM_initialise st) = some 0
    ∧ LibVEX_GuestARM_get_cpsr st
        = armg_calculate_flags_nzcv st.guest_CC_OP st.guest_CC_DEP1 st.guest_CC_DEP2
            st.guest_CC_DEP3 := by
  refine ⟨?_, ?_, ?_, ?_, ?_⟩
  · simp only [LibVEX_GuestARM_initialise, and_self]
  · simp only [LibVEX_GuestARM_initialise, and_self]
  · simp only [LibVEX_GuestARM_initialise, and_self]
  · show armg_calculate_flags_nzcv ARMG_CC_OP_COPY 0 0 0 = some 0
    rfl
  · unfold LibVEX_GuestARM_get_cpsr
    rfl

theorem flag_mask_value :
    ARMG_CC_MASK_N ||| ARMG_CC_MASK_Z ||| ARMG_CC_MASK_V ||| ARMG_CC_MASK_C = 4026531840 := by
  decide

/-- C14 as stated fails: `LibVEX_GuestARM_put_flags` does not return, whatever
its arguments: for `x = 0xF0000000` and the initialised state the leading
`vassert(0)` fails, so there is no state after the call on which
`LibVEX_GuestARM_get_cpsr` could return `x & 0xF0000000`. -/
theorem put_flags_round_trip_as_stated_fails :
    ¬ ∃ st, LibVEX_GuestARM_put_flags 4026531840 (LibVEX_GuestARM_initialise default) = some st
        ∧ LibVEX_GuestARM_get_cpsr st = some (4026531840 &&& 4026531840) := by
  rintro ⟨st, h, _⟩
  exact Option.noConfusion h

/-- C14 amended: `LibVEX_GuestARM_put_flags` is disabled in the source (kept
under `#if 0`, and its first statement is `vassert(0)`), so every call fails
fatally; the statements that follow the assertion, run on their own, leave
the thunk (`COPY`, `x & 0xF0000000`, 0, 0) with
`x & 0xF0000000 = x & (MASK_N | MASK_Z | MASK_V | MASK_C)`, and
`LibVEX_GuestARM_get_cpsr` on the resulting state returns `x & 0xF0000000`,
for every `x` and every guest state. -/
theorem put_flags_disabled_statements_round_trip (x : Nat) (st : VexGuestARMState) :
    LibVEX_GuestARM_put_flags x st = none
      ∧ (put_flags_statements x st).guest_CC_OP = ARMG_CC_OP_COPY
      ∧ (put_flags_statements x st).guest_CC_DEP1 = x &&& 4026531840
      ∧ (put_flags_statements x st).guest_CC_DEP2 = 0
      ∧ (put_flags_statements x st).guest_CC_DEP3 = 0
      ∧ x &&& 4026531840
          = x &&& (ARMG_CC_MASK_N ||| ARMG_CC_MASK_Z ||| ARMG_CC_MASK_V ||| ARMG_CC_MASK_C)
      ∧ LibVEX_GuestARM_get_cpsr (put_flags_statements x st) = some (x &&& 4026531840) := by
  have hm := flag_mask_value
  refine ⟨rfl, rfl, ?_, rfl, rfl, ?_, ?_⟩
  · show x &&& _ = _
    rw [hm]
  · rw [hm]
  · show armg_calculate_flags_nzcv ARMG_CC_OP_COPY (x &&& _) 0 0 = _
    rw [hm]
    rfl

/-! ## The specialiser against the run-time helper -/

theorem condition_on_pack (op d1 d2 d3 : Nat) (n z c v : Bool) (hop : op < 16)
    (h : armg_calculate_flags_nzcv op d1 d2 d3 = some (pack n z c v)) :
    armg_calculate_condition ((ARMCondEQ <<< 4) ||| op) d1 d2 d3 = some (b2u z)
    ∧ armg_calculate_condition ((ARMCondNE <<< 4) ||| op) d1 d2 d3 = some (b2u (!z))
    ∧ armg_calculate_condition ((ARMCondHS <<< 4) ||| op) d1 d2 d3 = some (b2u c)
    ∧ armg_calculate_condition ((ARMCondLS <<< 4) ||| op) d1 d2 d3 = some (b2u (!c || z))
    ∧ armg_calculate_condition ((ARMCondGE <<< 4) ||| op) d1 d2 d3 = some (b2u (n == v))
    ∧ armg_calculate_condition ((ARMCondLT <<< 4) ||| op) d1 d2 d3 = some (b2u (n != v))
    ∧ armg_calculate_condition ((ARMCondGT <<< 4) ||| op) d1 d2 d3
        = some (b2u (!z && (n == v)))
    ∧ armg_calculate_condition ((ARMCondLE <<< 4) ||| op) d1 d2 d3
        = some (b2u (z || (n != v))) := by
  rw [condition_of_nzcv _ op d1 d2 d3 _ hop h, condition_of_nzcv _ op d1 d2 d3 _ hop h,
    condition_of_nzcv _ op d1 d2 d3 _ hop h, condition_of_nzcv _ op d1 d2 d3 _ hop h,
    condition_of_nzcv _ op d1 d2 d3 _ hop h, condition_of_nzcv _ op d1 d2 d3 _ hop h,
    condition_of_nzcv _ op d1 d2 d3 _ hop h, condition_of_nzcv _ op d1 d2 d3 _ hop h]
  cases n <;> cases z <;> cases c <;> cases v <;>
    (refine ⟨?_, ?_, ?_, ?_, ?_, ?_, ?_, ?_⟩ <;> rfl)

theorem eval_compare (tmps gst : Nat → Nat) (op : IROp) (a b : IRExpr) (va vb : Nat)
    (p : Bool) (ha : evalIRExpr tmps gst a = some va) (hb : evalIRExpr tmps gst b = some vb)
    (hop : evalBinop op va vb = some (b2u p)) :
    evalIRExpr tmps gst (.Unop .Iop_1Uto32 (.Binop op a b)) = some (b2u p) := by
  simp only [evalIRExpr, ha, hb, hop, evalUnop]
  cases p <;> rfl

theorem sub32_eq_zero_iff (a b : Nat) (ha : a < 4294967296) (hb : b < 4294967296) :
    sub32 a b = 0 ↔ a = b := by
  unfold sub32; omega

/-- C15: specialiser soundness for equality after `SUB`: for all argument
expressions `a, b, d3`, `guest_arm_spechelper` on `armg_calculate_condition`
and `[const((EQ<<4)|SUB), a, b, d3]` returns `1Uto32(CmpEQ32(a, b))`, and for
NE `1Uto32(CmpNE32(a, b))`; in any model where `a` and `b` have the 32-bit
values `va` and `vb`, the returned expression evaluates to `va == vb ? 1 : 0`
(resp. `va != vb`), which is what `armg_calculate_condition` returns on
`va, vb` and any third dependency word; `condition((EQ<<4)|SUB, 5, 5, 0) = 1`
and `condition((NE<<4)|SUB, 5, 5, 0) = 0`. -/
theorem spechelper_eq_ne_after_sub (tmps gst : Nat → Nat) (a b d3 : IRExpr) (va vb vd : Nat)
    (ha : evalIRExpr tmps gst a = some va) (hb : evalIRExpr tmps gst b = some vb)
    (hva : va < 4294967296) (hvb : vb < 4294967296) :
    (guest_arm_spechelper ("armg_calculate_condition")
        [mkU32 ((ARMCondEQ <<< 4) ||| ARMG_CC_OP_SUB), a, b, d3]
        = some (some (.Unop .Iop_1Uto32 (.Binop .Iop_CmpEQ32 a b)))
      ∧ evalIRExpr tmps gst (.Unop .Iop_1Uto32 (.Binop .Iop_CmpEQ32 a b))
        = some (b2u (decide (va = vb)))
      ∧ armg_calculate_condition ((ARMCondEQ <<< 4) ||| ARMG_CC_OP_SUB) va vb vd
        = some (b2u (decide (va = vb))))
    ∧ (guest_arm_spechelper ("armg_calculate_condition")
        [mkU32 ((ARMCondNE <<< 4) ||| ARMG_CC_OP_SUB), a, b, d3]
        = some (some (.Unop .Iop_1Uto32 (.Binop .Iop_CmpNE32 a b)))
      ∧ evalIRExpr tmps gst (.Unop .Iop_1Uto32 (.Binop .Iop_CmpNE32 a b))
        = some (b2u (decide (va ≠ vb)))
      ∧ armg_calculate_condition ((ARMCondNE <<< 4) ||| ARMG_CC_OP_SUB) va vb vd
        = some (b2u (decide (va ≠ vb))))
    ∧ armg_calculate_condition ((ARMCondEQ <<< 4) ||| ARMG_CC_OP_SUB) 5 5 0 = some 1
    ∧ armg_calculate_condition ((ARMCondNE <<< 4) ||| ARMG_CC_OP_SUB) 5 5 0 = some 0 := by
  have hc := condition_on_pack ARMG_CC_OP_SUB va vb vd _ _ _ _ (by decide)
    (nzcv_SUB va vb vd hva hvb)
  have hz : (sub32 va vb == 0) = decide (va = vb) := by
    rw [Bool.eq_iff_iff]
    simp only [beq_iff_eq, decide_eq_true_eq]
    exact sub32_eq_zero_iff va vb hva hvb
  refine ⟨⟨rfl, eval_compare tmps gst _ a b va vb _ ha hb rfl, ?_⟩,
    ⟨rfl, eval_compare tmps gst _ a b va vb _ ha hb rfl, ?_⟩, rfl, rfl⟩
  · rw [hc.1, hz]
  · rw [hc.2.1, hz]
    congr 2
    simp

theorem spechelper_eq_ne_after_sub_witness :
    (evalIRExpr (fun _ => 5) (fun _ => 0) (.RdTmp 0) = some 5
      ∧ evalIRExpr (fun _ => 5) (fun _ => 0) (.RdTmp 1) = some 5
      ∧ 5 < 4294967296 ∧ 5 < 4294967296) ∧
    ((guest_arm_spechelper ("armg_calculate_condition")
        [mkU32 ((ARMCondEQ <<< 4) ||| ARMG_CC_OP_SUB), .RdTmp 0, .RdTmp 1, mkU32 0]
        = some (some (.Unop .Iop_1Uto32 (.Binop .Iop_CmpEQ32 (.RdTmp 0) (.RdTmp 1))))
      ∧ evalIRExpr (fun _ => 5) (fun _ => 0)
          (.Unop .Iop_1Uto32 (.Binop .Iop_CmpEQ32 (.RdTmp 0) (.RdTmp 1)))
        = some (b2u (decide (5 = 5)))
      ∧ armg_calculate_condition ((ARMCondEQ <<< 4) ||| ARMG_CC_OP_SUB) 5 5 0
        = some (b2u (decide (5 = 5))))
    ∧ (guest_arm_spechelper ("armg_calculate_condition")
        [mkU32 ((ARMCondNE <<< 4) ||| ARMG_CC_OP_SUB), .RdTmp 0, .RdTmp 1, mkU32 0]
        = some (some (.Unop .Iop_1Uto32 (.Binop .Iop_CmpNE32 (.RdTmp 0) (.RdTmp 1))))
      ∧ evalIRExpr (fun _ => 5) (fun _ => 0)
          (.Unop .Iop_1Uto32 (.Binop .Iop_CmpNE32 (.RdTmp 0) (.RdTmp 1)))
        = some (b2u (decide (5 ≠ 5)))
      ∧ armg_calculate_condition ((ARMCondNE <<< 4) ||| ARMG_CC_OP_SUB) 5 5 0
        = some (b2u (decide (5 ≠ 5))))
    ∧ armg_calculate_condition ((ARMCondEQ <<< 4) ||| ARMG_CC_OP_SUB) 5 5 0 = some 1
    ∧ armg_calculate_condition ((ARMCondNE <<< 4) ||| ARMG_CC_OP_SUB) 5 5 0 = some 0) :=
  ⟨⟨rfl, rfl, by decide, by decide⟩,
    spechelper_eq_ne_after_sub (fun _ => 5) (fun _ => 0) (.RdTmp 0) (.RdTmp 1) (mkU32 0) 5 5 0
      rfl rfl (by decide) (by decide)⟩

theorem sub_signed_le (va vb : Nat) (hva : va < 4294967296) (hvb : vb < 4294967296) :
    ((sub32 va vb == 0) ||
      (decide (2147483648 ≤ sub32 va vb) !=
        ((xor (decide (2147483648 ≤ va)) (decide (2147483648 ≤ vb)))
          && (xor (decide (2147483648 ≤ va)) (decide (2147483648 ≤ sub32 va vb))))))
      = decide (sint va ≤ sint vb) := by
  rw [Bool.eq_iff_iff]
  simp only [Bool.or_eq_true, beq_iff_eq, bne_iff_ne, ne_eq, Bool.and_eq_true,
    decide_eq_true_eq, sub32, sint]
  by_cases h1 : 2147483648 ≤ va <;> by_cases h2 : 2147483648 ≤ vb <;>
    by_cases h3 : 2147483648 ≤ (va + (4294967296 - vb % 4294967296)) % 4294967296 <;>
    simp [h1, h2, h3] <;> omega

theorem sub_signed_lt (va vb : Nat) (hva : va < 4294967296) (hvb : vb < 4294967296) :
    (decide (2147483648 ≤ sub32 va vb) !=
        ((xor (decide (2147483648 ≤ va)) (decide (2147483648 ≤ vb)))
          && (xor (decide (2147483648 ≤ va)) (decide (2147483648 ≤ sub32 va vb)))))
      = decide (sint va < sint vb) := by
  rw [Bool.eq_iff_iff]
  simp only [bne_iff_ne, ne_eq, Bool.and_eq_true, decide_eq_true_eq, sub32, sint]
  by_cases h1 : 2147483648 ≤ va <;> by_cases h2 : 2147483648 ≤ vb <;>
    by_cases h3 : 2147483648 ≤ (va + (4294967296 - vb % 4294967296)) % 4294967296 <;>
    simp [h1, h2, h3] <;> omega

theorem sub_signed_ge (va vb : Nat) (hva : va < 4294967296) (hvb : vb < 4294967296) :
    (decide (2147483648 ≤ sub32 va vb) ==
        ((xor (decide (2147483648 ≤ va)) (decide (2147483648 ≤ vb)))
          && (xor (decide (2147483648 ≤ va)) (decide (2147483648 ≤ sub32 va vb)))))
      = decide (sint vb ≤ sint va) := by
  rw [Bool.eq_iff_iff]
  simp only [beq_iff_eq, Bool.and_eq_true, decide_eq_true_eq, sub32, sint]
  by_cases h1 : 2147483648 ≤ va <;> by_cases h2 : 2147483648 ≤ vb <;>
    by_cases h3 : 2147483648 ≤ (va + (4294967296 - vb % 4294967296)) % 4294967296 <;>
    simp [h1, h2, h3] <;> omega

/-- C16: specialiser soundness for signed comparisons after `SUB`: in any
model where the argument expressions `a` and `b` have the 32-bit values `d1`
and `d2`, the expression returned for K = `(LE<<4)|SUB` (signed `d1 <= d2`),
for K = `(LT<<4)|SUB` (signed `d1 < d2`) and for K = `(GE<<4)|SUB` (signed
`d2 <= d1`, operands swapped) evaluates to the same 0/1 value as
`armg_calculate_condition(K, d1, d2, d3)` for every `d3`, also when
`d1 - d2` overflows as a signed subtraction. -/
theorem spechelper_signed_after_sub (tmps gst : Nat → Nat) (a b e3 : IRExpr) (d1 d2 d3 : Nat)
    (ha : evalIRExpr tmps gst a = some d1) (hb : evalIRExpr tmps gst b = some d2)
    (h1 : d1 < 4294967296) (h2 : d2 < 4294967296) :
    (guest_arm_spechelper ("armg_calculate_condition")
        [mkU32 ((ARMCondLE <<< 4) ||| ARMG_CC_OP_SUB), a, b, e3]
        = some (some (.Unop .Iop_1Uto32 (.Binop .Iop_CmpLE32S a b)))
      ∧ evalIRExpr tmps gst (.Unop .Iop_1Uto32 (.Binop .Iop_CmpLE32S a b))
        = some (b2u (decide (sint d1 ≤ sint d2)))
      ∧ armg_calculate_condition ((ARMCondLE <<< 4) ||| ARMG_CC_OP_SUB) d1 d2 d3
        = some (b2u (decide (sint d1 ≤ sint d2))))
    ∧ (guest_arm_spechelper ("armg_calculate_condition")
        [mkU32 ((ARMCondLT <<< 4) ||| ARMG_CC_OP_SUB), a, b, e3]
        = some (some (.Unop .Iop_1Uto32 (.Binop .Iop_CmpLT32S a b)))
      ∧ evalIRExpr tmps gst (.Unop .Iop_1Uto32 (.Binop .Iop_CmpLT32S a b))
        = some (b2u (decide (sint d1 < sint d2)))
      ∧ armg_calculate_condition ((ARMCondLT <<< 4) ||| ARMG_CC_OP_SUB) d1 d2 d3
        = some (b2u (decide (sint d1 < sint d2))))
    ∧ (guest_arm_spechelper ("armg_calculate_condition")
        [mkU32 ((ARMCondGE <<< 4) ||| ARMG_CC_OP_SUB), a, b, e3]
        = some (some (.Unop .Iop_1Uto32 (.Binop .Iop_CmpLE32S b a)))
      ∧ evalIRExpr tmps gst (.Unop .Iop_1Uto32 (.Binop .Iop_CmpLE32S b a))
        = some (b2u (decide (sint d2 ≤ sint d1)))
      ∧ armg_calculate_condition ((ARMCondGE <<< 4) ||| ARMG_CC_OP_SUB) d1 d2 d3
        = some (b2u (decide (sint d2 ≤ sint d1)))) := by
  have hc := condition_on_pack ARMG_CC_OP_SUB d1 d2 d3 _ _ _ _ (by decide)
    (nzcv_SUB d1 d2 d3 h1 h2)
  refine ⟨⟨rfl, eval_compare tmps gst _ a b d1 d2 _ ha hb rfl, ?_⟩,
    ⟨rfl, eval_compare tmps gst _ a b d1 d2 _ ha hb rfl, ?_⟩,
    ⟨rfl, eval_compare tmps gst _ b a d2 d1 _ hb ha rfl, ?_⟩⟩
  · rw [hc.2.2.2.2.2.2.2, sub_signed_le d1 d2 h1 h2]
  · rw [hc.2.2.2.2.2.1, sub_signed_lt d1 d2 h1 h2]
  · rw [hc.2.2.2.2.1, sub_signed_ge d1 d2 h1 h2]

theorem spechelper_signed_after_sub_witness :
    (evalIRExpr (fun t => if t = 0 then 2147483648 else 1) (fun _ => 0) (.RdTmp 0)
        = some 2147483648
      ∧ evalIRExpr (fun t => if t = 0 then 2147483648 else 1) (fun _ => 0) (.RdTmp 1) = some 1
      ∧ 2147483648 < 4294967296 ∧ 1 < 4294967296) ∧
    ((guest_arm_spechelper ("armg_calculate_condition")
        [mkU32 ((ARMCondLE <<< 4) ||| ARMG_CC_OP_SUB), .RdTmp 0, .RdTmp 1, .RdTmp 2]
        = some (some (.Unop .Iop_1Uto32 (.Binop .Iop_CmpLE32S (.RdTmp 0) (.RdTmp 1))))
      ∧ evalIRExpr (fun t => if t = 0 then 2147483648 else 1) (fun _ => 0)
          (.Unop .Iop_1Uto32 (.Binop .Iop_CmpLE32S (.RdTmp 0) (.RdTmp 1)))
        = some (b2u (decide (sint 2147483648 ≤ sint 1)))
      ∧ armg_calculate_condition ((ARMCondLE <<< 4) ||| ARMG_CC_OP_SUB) 2147483648 1 7
        = some (b2u (decide (sint 2147483648 ≤ sint 1))))
    ∧ (guest_arm_spechelper ("armg_calculate_condition")
        [mkU32 ((ARMCondLT <<< 4) ||| ARMG_CC_OP_SUB), .RdTmp 0, .RdTmp 1, .RdTmp 2]
        = some (some (.Unop .Iop_1Uto32 (.Binop .Iop_CmpLT32S (.RdTmp 0) (.RdTmp 1))))
      ∧ evalIRExpr (fun t => if t = 0 then 2147483648 else 1) (fun _ => 0)
          (.Unop .Iop_1Uto32 (.Binop .Iop_CmpLT32S (.RdTmp 0) (.RdTmp 1)))
        = some (b2u (decide (sint 2147483648 < sint 1)))
      ∧ armg_calculate_condition ((ARMCondLT <<< 4) ||| ARMG_CC_OP_SUB) 2147483648 1 7
        = some (b2u (decide (sint 2147483648 < sint 1))))
    ∧ (guest_arm_spechelper ("armg_calculate_condition")
        [mkU32 ((ARMCondGE <<< 4) ||| ARMG_CC_OP_SUB), .RdTmp 0, .RdTmp 1, .RdTmp 2]
        = some (some (.Unop .Iop_1Uto32 (.Binop .Iop_CmpLE32S (.RdTmp 1) (.RdTmp 0))))
      ∧ evalIRExpr (fun t => if t = 0 then 2147483648 else 1) (fun _ => 0)
          (.Unop .Iop_1Uto32 (.Binop .Iop_CmpLE32S (.RdTmp 1) (.RdTmp 0)))
        = some (b2u (decide (sint 1 ≤ sint 2147483648)))
      ∧ armg_calculate_condition ((ARMCondGE <<< 4) ||| ARMG_CC_OP_SUB) 2147483648 1 7
        = some (b2u (decide (sint 1 ≤ sint 2147483648))))) :=
  ⟨⟨rfl, rfl, by decide, by decide⟩,
    spechelper_signed_after_sub (fun t => if t = 0 then 2147483648 else 1) (fun _ => 0)
      (.RdTmp 0) (.RdTmp 1) (.RdTmp 2) 2147483648 1 7 rfl rfl (by decide) (by decide)⟩

/-- C17 as stated fails: for GT after `SUB` the specialiser returns the
`no specialization` sentinel (`NULL`), not an expression: the source has no
case for `(GT<<4)|SUB`. -/
theorem spechelper_gt_after_sub_not_specialised :
    ¬ ∃ e, guest_arm_spechelper ("armg_calculate_condition")
        [mkU32 ((ARMCondGT <<< 4) ||| ARMG_CC_OP_SUB), .RdTmp 0, .RdTmp 1, .RdTmp 2]
        = some (some e) := by
  rintro ⟨e, h⟩
  have h2 : guest_arm_spechelper ("armg_calculate_condition")
      [mkU32 ((ARMCondGT <<< 4) ||| ARMG_CC_OP_SUB), .RdTmp 0, .RdTmp 1, .RdTmp 2]
      = some none := rfl
  rw [h2] at h
  exact Option.noConfusion (Option.some.inj h)

/-- C17 amended: GT after `SUB` is not among the specialisations: for all
argument expressions `d1, d2, d3`, `guest_arm_spechelper` on
`armg_calculate_condition` and `[const((GT<<4)|SUB), d1, d2, d3]` returns the
`no specialization` sentinel (`NULL`). -/
theorem spechelper_gt_after_sub_returns_null (d1 d2 d3 : IRExpr) :
    guest_arm_spechelper ("armg_calculate_condition")
        [mkU32 ((ARMCondGT <<< 4) ||| ARMG_CC_OP_SUB), d1, d2, d3]
      = some none := by
  rfl

/-- C18: specialiser soundness for unsigned comparisons after `SUB`: in any
model where the argument expressions `a` and `b` have the 32-bit values `d1`
and `d2`, the expression returned for K = `(HS<<4)|SUB` is unsigned
`d2 <= d1` and for K = `(LS<<4)|SUB` is unsigned `d1 <= d2`, and each
evaluates to the same 0/1 value as `armg_calculate_condition(K, d1, d2, d3)`
for every `d3`. -/
theorem spechelper_unsigned_after_sub (tmps gst : Nat → Nat) (a b e3 : IRExpr)
    (d1 d2 d3 : Nat)
    (ha : evalIRExpr tmps gst a = some d1) (hb : evalIRExpr tmps gst b = some d2)
    (h1 : d1 < 4294967296) (h2 : d2 < 4294967296) :
    (guest_arm_spechelper ("armg_calculate_condition")
        [mkU32 ((ARMCondHS <<< 4) ||| ARMG_CC_OP_SUB), a, b, e3]
        = some (some (.Unop .Iop_1Uto32 (.Binop .Iop_CmpLE32U b a)))
      ∧ evalIRExpr tmps gst (.Unop .Iop_1Uto32 (.Binop .Iop_CmpLE32U b a))
        = some (b2u (decide (d2 ≤ d1)))
      ∧ armg_calculate_condition ((ARMCondHS <<< 4) ||| ARMG_CC_OP_SUB) d1 d2 d3
        = some (b2u (decide (d2 ≤ d1))))
    ∧ (guest_arm_spechelper ("armg_calculate_condition")
        [mkU32 ((ARMCondLS <<< 4) ||| ARMG_CC_OP_SUB), a, b, e3]
        = some (some (.Unop .Iop_1Uto32 (.Binop .Iop_CmpLE32U a b)))
      ∧ evalIRExpr tmps gst (.Unop .Iop_1Uto32 (.Binop .Iop_CmpLE32U a b))
        = some (b2u (decide (d1 ≤ d2)))
      ∧ armg_calculate_condition ((ARMCondLS <<< 4) ||| ARMG_CC_OP_SUB) d1 d2 d3
        = some (b2u (decide (d1 ≤ d2)))) := by
  have hc := condition_on_pack ARMG_CC_OP_SUB d1 d2 d3 _ _ _ _ (by decide)
    (nzcv_SUB d1 d2 d3 h1 h2)
  refine ⟨⟨rfl, eval_compare tmps gst _ b a d2 d1 _ hb ha rfl, ?_⟩,
    ⟨rfl, eval_compare tmps gst _ a b d1 d2 _ ha hb rfl, ?_⟩⟩
  · rw [hc.2.2.1]
  · rw [hc.2.2.2.1]
    congr 2
    rw [Bool.eq_iff_iff]
    simp only [Bool.or_eq_true, Bool.not_eq_true', decide_eq_false_iff_not, beq_iff_eq,
      decide_eq_true_eq, sub32_eq_zero_iff d1 d2 h1 h2]
    omega

theorem spechelper_unsigned_after_sub_witness :
    (evalIRExpr (fun t => if t = 0 then 3 else 4294967295) (fun _ => 0) (.RdTmp 0) = some 3
      ∧ evalIRExpr (fun t => if t = 0 then 3 else 4294967295) (fun _ => 0) (.RdTmp 1)
        = some 4294967295
      ∧ 3 < 4294967296 ∧ 4294967295 < 4294967296) ∧
    ((guest_arm_spechelper ("armg_calculate_condition")
        [mkU32 ((ARMCondHS <<< 4) ||| ARMG_CC_OP_SUB), .RdTmp 0, .RdTmp 1, .RdTmp 2]
        = some (some (.Unop .Iop_1Uto32 (.Binop .Iop_CmpLE32U (.RdTmp 1) (.RdTmp 0))))
      ∧ evalIRExpr (fun t => if t = 0 then 3 else 4294967295) (fun _ => 0)
          (.Unop .Iop_1Uto32 (.Binop .Iop_CmpLE32U (.RdTmp 1) (.RdTmp 0)))
        = some (b2u (decide (4294967295 ≤ 3)))
      ∧ armg_calculate_condition ((ARMCondHS <<< 4) ||| ARMG_CC_OP_SUB) 3 4294967295 9
        = some (b2u (decide (4294967295 ≤ 3))))
    ∧ (guest_arm_spechelper ("armg_calculate_condition")
        [mkU32 ((ARMCondLS <<< 4) ||| ARMG_CC_OP_SUB), .RdTmp 0, .RdTmp 1, .RdTmp 2]
        = some (some (.Unop .Iop_1Uto32 (.Binop .Iop_CmpLE32U (.RdTmp 0) (.RdTmp 1))))
      ∧ evalIRExpr (fun t => if t = 0 then 3 else 4294967295) (fun _ => 0)
          (.Unop .Iop_1Uto32 (.Binop .Iop_CmpLE32U (.RdTmp 0) (.RdTmp 1)))
        = some (b2u (decide (3 ≤ 4294967295)))
      ∧ armg_calculate_condition ((ARMCondLS <<< 4) ||| ARMG_CC_OP_SUB) 3 4294967295 9
        = some (b2u (decide (3 ≤ 4294967295))))) :=
  ⟨⟨rfl, rfl, by decide, by decide⟩,
    spechelper_unsigned_after_sub (fun t => if t = 0 then 3 else 4294967295) (fun _ => 0)
      (.RdTmp 0) (.RdTmp 1) (.RdTmp 2) 3 4294967295 9 rfl rfl (by decide) (by decide)⟩

/-- C19: specialiser soundness after `LOGIC`: in any model where the argument
expression `a` has the 32-bit value `d1`, the expression returned for
K = `(EQ<<4)|LOGIC` is `d1 == 0` and for K = `(NE<<4)|LOGIC` is `d1 != 0`,
zero-extended to 32 bits, and each evaluates to the same 0/1 value as
`armg_calculate_condition(K, d1, d2, d3)` whatever `d2` and `d3` are. -/
theorem spechelper_after_logic (tmps gst : Nat → Nat) (a e2 e3 : IRExpr) (d1 d2 d3 : Nat)
    (ha : evalIRExpr tmps gst a = some d1) (h1 : d1 < 4294967296) :
    (guest_arm_spechelper ("armg_calculate_condition")
        [mkU32 ((ARMCondEQ <<< 4) ||| ARMG_CC_OP_LOGIC), a, e2, e3]
        = some (some (.Unop .Iop_1Uto32 (.Binop .Iop_CmpEQ32 a (mkU32 0))))
      ∧ evalIRExpr tmps gst (.Unop .Iop_1Uto32 (.Binop .Iop_CmpEQ32 a (mkU32 0)))
        = some (b2u (decide (d1 = 0)))
      ∧ armg_calculate_condition ((ARMCondEQ <<< 4) ||| ARMG_CC_OP_LOGIC) d1 d2 d3
        = some (b2u (decide (d1 = 0))))
    ∧ (guest_arm_spechelper ("armg_calculate_condition")
        [mkU32 ((ARMCondNE <<< 4) ||| ARMG_CC_OP_LOGIC), a, e2, e3]
        = some (some (.Unop .Iop_1Uto32 (.Binop .Iop_CmpNE32 a (mkU32 0))))
      ∧ evalIRExpr tmps gst (.Unop .Iop_1Uto32 (.Binop .Iop_CmpNE32 a (mkU32 0)))
        = some (b2u (decide (d1 ≠ 0)))
      ∧ armg_calculate_condition ((ARMCondNE <<< 4) ||| ARMG_CC_OP_LOGIC) d1 d2 d3
        = some (b2u (decide (d1 ≠ 0)))) := by
  have hc := condition_on_pack ARMG_CC_OP_LOGIC d1 d2 d3 _ _ _ _ (by decide)
    (nzcv_LOGIC d1 d2 d3 h1)
  have hz : (d1 == 0) = decide (d1 = 0) := by
    rw [Bool.eq_iff_iff]
    simp only [beq_iff_eq, decide_eq_true_eq]
  refine ⟨⟨rfl, eval_compare tmps gst _ a (mkU32 0) d1 0 _ ha rfl rfl, ?_⟩,
    ⟨rfl, eval_compare tmps gst _ a (mkU32 0) d1 0 _ ha rfl rfl, ?_⟩⟩
  · rw [hc.1, hz]
  · rw [hc.2.1, hz]
    congr 2
    simp

theorem spechelper_after_logic_witness :
    (evalIRExpr (fun _ => 0) (fun _ => 0) (.RdTmp 0) = some 0 ∧ 0 < 4294967296) ∧
    ((guest_arm_spechelper ("armg_calculate_condition")
        [mkU32 ((ARMCondEQ <<< 4) ||| ARMG_CC_OP_LOGIC), .RdTmp 0, .RdTmp 1, .RdTmp 2]
        = some (some (.Unop .Iop_1Uto32 (.Binop .Iop_CmpEQ32 (.RdTmp 0) (mkU32 0))))
      ∧ evalIRExpr (fun _ => 0) (fun _ => 0)
          (.Unop .Iop_1Uto32 (.Binop .Iop_CmpEQ32 (.RdTmp 0) (mkU32 0)))
        = some (b2u (decide (0 = 0)))
      ∧ armg_calculate_condition ((ARMCondEQ <<< 4) ||| ARMG_CC_OP_LOGIC) 0 1 3
        = some (b2u (decide (0 = 0))))
    ∧ (guest_arm_spechelper ("armg_calculate_condition")
        [mkU32 ((ARMCondNE <<< 4) ||| ARMG_CC_OP_LOGIC), .RdTmp 0, .RdTmp 1, .RdTmp 2]
        = some (some (.Unop .Iop_1Uto32 (.Binop .Iop_CmpNE32 (.RdTmp 0) (mkU32 0))))
      ∧ evalIRExpr (fun _ => 0) (fun _ => 0)
          (.Unop .Iop_1Uto32 (.Binop .Iop_CmpNE32 (.RdTmp 0) (mkU32 0)))
        = some (b2u (decide (0 ≠ 0)))
      ∧ armg_calculate_condition ((ARMCondNE <<< 4) ||| ARMG_CC_OP_LOGIC) 0 1 3
        = some (b2u (decide (0 ≠ 0))))) :=
  ⟨⟨rfl, by decide⟩,
    spechelper_after_logic (fun _ => 0) (fun _ => 0) (.RdTmp 0) (.RdTmp 1) (.RdTmp 2) 0 1 3
      rfl (by decide)⟩

/-! ## Patterns the specialiser leaves alone -/

theorem isU32_not_const (k : IRExpr) (h : ∀ n, k ≠ .Const (.U32 n)) (m : Nat) :
    isU32 k m = false := by
  cases k with
  | Const c =>
    cases c with
    | U32 n => exact absurd rfl (h n)
    | _ => rfl
  | _ => rfl

theorem isU32_const (n m : Nat) : isU32 (.Const (.U32 n)) m = (n == m) := rfl

theorem spechelper_four (k a b c : IRExpr)
    (h : ∀ m, isU32 k m = false) :
    guest_arm_spechelper ("armg_calculate_condition") [k, a, b, c] = some none := by
  unfold guest_arm_spechelper
  rw [if_pos rfl]
  simp only [h]
  rfl

/-- C20: `guest_arm_spechelper` returns `no specialization` (`NULL`) for
every other pattern: whenever the function name is not
`armg_calculate_condition` (whatever the arguments), or, the name being that
one and the arguments four, the first argument is not a 32-bit constant
expression, or it is a 32-bit constant different from the nine recognised
values `(EQ|NE|LE|LT|GE|HS|LS)<<4 | SUB` and `(EQ|NE)<<4 | LOGIC`; and an
expression it does return is `1Uto32` of a comparison whose operands are
argument expressions, unchanged, or the constant 0. -/
theorem spechelper_null_otherwise :
    (∀ (name : String) (args : List IRExpr), name ≠ "armg_calculate_condition" →
      guest_arm_spechelper name args = some none)
    ∧ (∀ k a b c : IRExpr, (∀ n, k ≠ .Const (.U32 n)) →
      guest_arm_spechelper ("armg_calculate_condition") [k, a, b, c] = some none)
    ∧ (∀ (n : Nat) (a b c : IRExpr),
      n ≠ (ARMCondEQ <<< 4) ||| ARMG_CC_OP_SUB → n ≠ (ARMCondNE <<< 4) ||| ARMG_CC_OP_SUB →
      n ≠ (ARMCondLE <<< 4) ||| ARMG_CC_OP_SUB → n ≠ (ARMCondLT <<< 4) ||| ARMG_CC_OP_SUB →
      n ≠ (ARMCondGE <<< 4) ||| ARMG_CC_OP_SUB → n ≠ (ARMCondHS <<< 4) ||| ARMG_CC_OP_SUB →
      n ≠ (ARMCondLS <<< 4) ||| ARMG_CC_OP_SUB → n ≠ (ARMCondEQ <<< 4) ||| ARMG_CC_OP_LOGIC →
      n ≠ (ARMCondNE <<< 4) ||| ARMG_CC_OP_LOGIC →
      guest_arm_spechelper ("armg_calculate_condition") [.Const (.U32 n), a, b, c]
        = some none)
    ∧ (∀ (name : String) (args : List IRExpr) (e : IRExpr),
      guest_arm_spechelper name args = some (some e) →
      ∃ op x y, e = .Unop .Iop_1Uto32 (.Binop op x y)
        ∧ (x ∈ args ∨ x = mkU32 0) ∧ (y ∈ args ∨ y = mkU32 0)) := by
  refine ⟨?_, ?_, ?_, ?_⟩
  · intro name args hname
    unfold guest_arm_spechelper
    rw [if_neg hname]
  · intro k a b c hk
    exact spechelper_four k a b c (isU32_not_const k hk)
  · intro n a b c h1 h2 h3 h4 h5 h6 h7 h8 h9
    unfold guest_arm_spechelper
    rw [if_pos rfl]
    simp only [isU32_const, beq_iff_eq]
    rw [if_neg h1, if_neg h2, if_neg h3, if_neg h4, if_neg h5, if_neg h6, if_neg h7, if_neg h8,
      if_neg h9]
  · intro name args e h
    unfold guest_arm_spechelper at h
    by_cases hname : name = "armg_calculate_condition"
    · rw [if_pos hname] at h
      rcases args with _ | ⟨k, _ | ⟨a, _ | ⟨b, _ | ⟨c, _ | ⟨d, rest⟩⟩⟩⟩⟩
      · exact Option.noConfusion h
      · exact Option.noConfusion h
      · exact Option.noConfusion h
      · exact Option.noConfusion h
      · simp only at h
        split_ifs at h
        all_goals first
          | exact Option.noConfusion (Option.some.inj h)
          | (have he := Option.some.inj (Option.some.inj h)
             subst he
             exact ⟨_, _, _, rfl, by simp, by simp⟩)
      · exact Option.noConfusion h
    · rw [if_neg hname] at h
      exact Option.noConfusion (Option.some.inj h)

theorem spechelper_null_otherwise_witness :
    guest_arm_spechelper ("armg_calculate_flag_c") [mkU32 2, .RdTmp 0, .RdTmp 1, .RdTmp 2]
        = some none
      ∧ guest_arm_spechelper ("armg_calculate_condition")
          [.RdTmp 7, .RdTmp 0, .RdTmp 1, .RdTmp 2] = some none
      ∧ guest_arm_spechelper ("armg_calculate_condition")
          [.Const (.U32 ((ARMCondHI <<< 4) ||| ARMG_CC_OP_SUB)), .RdTmp 0, .RdTmp 1, .RdTmp 2]
          = some none :=
  ⟨spechelper_null_otherwise.1 _ _ (by decide),
    spechelper_null_otherwise.2.1 _ _ _ _ (by intro n h; exact IRExpr.noConfusion h),
    spechelper_null_otherwise.2.2.1 _ _ _ _ (by decide) (by decide) (by decide) (by decide)
      (by decide) (by decide) (by decide) (by decide) (by decide)⟩

/-! ## Precise memory exceptions -/

theorem slot_overlap_iff (off minoff maxoff : Int) (h : minoff ≤ maxoff) :
    (∃ k, minoff ≤ k ∧ k ≤ maxoff ∧ off ≤ k ∧ k ≤ off + 3)
      ↔ ¬ (maxoff < off ∨ minoff > off + 4 - 1) := by
  constructor
  · rintro ⟨k, h1, h2, h3, h4⟩
    omega
  · intro hn
    by_cases hc : minoff ≤ off
    · exact ⟨off, by omega, by omega, by omega, by omega⟩
    · exact ⟨minoff, by omega, by omega, by omega, by omega⟩

/-- C21: for every `minoff <= maxoff`,
`guest_arm_state_requires_precise_mem_exns(minoff, maxoff)` returns True iff
the closed byte range `[minoff, maxoff]` intersects the 4-byte slot of the
stack pointer (R13), the instruction pointer (R15) or the frame pointer (R11)
in the guest state, whatever the offsets of the three slots are; it returns
False for every range that touches none of the three slots. -/
theorem precise_mem_exns_iff_overlap (off_R13 off_R15 off_R11 minoff maxoff : Int)
    (h : minoff ≤ maxoff) :
    (guest_arm_state_requires_precise_mem_exns off_R13 off_R15 off_R11 minoff maxoff = true
      ↔ ((∃ k, minoff ≤ k ∧ k ≤ maxoff ∧ off_R13 ≤ k ∧ k ≤ off_R13 + 3)
          ∨ (∃ k, minoff ≤ k ∧ k ≤ maxoff ∧ off_R15 ≤ k ∧ k ≤ off_R15 + 3)
          ∨ (∃ k, minoff ≤ k ∧ k ≤ maxoff ∧ off_R11 ≤ k ∧ k ≤ off_R11 + 3)))
    ∧ (¬ ((∃ k, minoff ≤ k ∧ k ≤ maxoff ∧ off_R13 ≤ k ∧ k ≤ off_R13 + 3)
          ∨ (∃ k, minoff ≤ k ∧ k ≤ maxoff ∧ off_R15 ≤ k ∧ k ≤ off_R15 + 3)
          ∨ (∃ k, minoff ≤ k ∧ k ≤ maxoff ∧ off_R11 ≤ k ∧ k ≤ off_R11 + 3))
        → guest_arm_state_requires_precise_mem_exns off_R13 off_R15 off_R11 minoff maxoff
            = false) := by
  have key : guest_arm_state_requires_precise_mem_exns off_R13 off_R15 off_R11 minoff maxoff
      = true
      ↔ ((∃ k, minoff ≤ k ∧ k ≤ maxoff ∧ off_R13 ≤ k ∧ k ≤ off_R13 + 3)
          ∨ (∃ k, minoff ≤ k ∧ k ≤ maxoff ∧ off_R15 ≤ k ∧ k ≤ off_R15 + 3)
          ∨ (∃ k, minoff ≤ k ∧ k ≤ maxoff ∧ off_R11 ≤ k ∧ k ≤ off_R11 + 3)) := by
    rw [slot_overlap_iff off_R13 minoff maxoff h, slot_overlap_iff off_R15 minoff maxoff h,
      slot_overlap_iff off_R11 minoff maxoff h]
    unfold guest_arm_state_requires_precise_mem_exns
    dsimp only
    split_ifs with h1 h2 h3
    · simp only [Bool.false_eq_true, false_iff]
      tauto
    · simp only [true_iff]
      tauto
    · simp only [true_iff]
      tauto
    · simp only [true_iff]
      tauto
  refine ⟨key, fun hno => ?_⟩
  cases hv : guest_arm_state_requires_precise_mem_exns off_R13 off_R15 off_R11 minoff maxoff
  · rfl
  · exact absurd (key.1 hv) hno

theorem precise_mem_exns_iff_overlap_witness :
    ((50 : Int) ≤ 53) ∧
    ((guest_arm_state_requires_precise_mem_exns 52 60 44 50 53 = true
      ↔ ((∃ k : Int, 50 ≤ k ∧ k ≤ 53 ∧ 52 ≤ k ∧ k ≤ 52 + 3)
          ∨ (∃ k : Int, 50 ≤ k ∧ k ≤ 53 ∧ 60 ≤ k ∧ k ≤ 60 + 3)
          ∨ (∃ k : Int, 50 ≤ k ∧ k ≤ 53 ∧ 44 ≤ k ∧ k ≤ 44 + 3)))
    ∧ (¬ ((∃ k : Int, 50 ≤ k ∧ k ≤ 53 ∧ 52 ≤ k ∧ k ≤ 52 + 3)
          ∨ (∃ k : Int, 50 ≤ k ∧ k ≤ 53 ∧ 60 ≤ k ∧ k ≤ 60 + 3)
          ∨ (∃ k : Int, 50 ≤ k ∧ k ≤ 53 ∧ 44 ≤ k ∧ k ≤ 44 + 3))
        → guest_arm_state_requires_precise_mem_exns 52 60 44 50 53 = false)) :=
  ⟨by decide, precise_mem_exns_iff_overlap 52 60 44 50 53 (by decide)⟩

/-! ## The checksum -/

theorem adler32_loop4_then_loop1 (buf : List Nat) (s1 s2 : Nat) :
    adler32_loop1 (adler32_loop4 buf s1 s2).2.2 (adler32_loop4 buf s1 s2).1
        (adler32_loop4 buf s1 s2).2.1
      = adler32_loop1 buf s1 s2 := by
  induction buf, s1, s2 using adler32_loop4.induct with
  | case1 b0 b1 b2 b3 rest s1 s2 _ _ _ _ _ _ _ _ ih =>
    rw [adler32_loop4]
    simp only [adler32_loop1]
    exact ih
  | case2 buf s1 s2 hne =>
    rw [adler32_loop4]
    intro b0 b1 b2 b3 rest h
    exact hne b0 b1 b2 b3 rest h

theorem adler32_loop1_eq_fold (buf : List Nat) (s1 s2 : Nat) :
    adler32_loop1 buf s1 s2
      = buf.foldl
          (fun s b => ((s.1 + b) % 4294967296, (s.2 + (s.1 + b) % 4294967296) % 4294967296))
          (s1, s2) := by
  induction buf generalizing s1 s2 with
  | nil => rfl
  | cons b rest ih =>
    simp only [adler32_loop1, List.foldl_cons, add32]
    exact ih _ _

theorem adler32_eq_spec (bs : List Nat) :
    genericg_compute_adler32 bs
      = (((adler32_spec_sums bs).2 <<< 16) + (adler32_spec_sums bs).1) % 4294967296 := by
  unfold genericg_compute_adler32 adler32_spec_sums
  dsimp only
  rw [adler32_loop4_then_loop1, adler32_loop1_eq_fold]
  unfold add32
  omega

theorem spec_sums_fst_fold (bs : List Nat) (s1 s2 : Nat) :
    (bs.foldl
        (fun s b => ((s.1 + b) % 4294967296, (s.2 + (s.1 + b) % 4294967296) % 4294967296))
        (s1, s2)).1 % 65536 = (s1 + bs.sum) % 65536 := by
  induction bs generalizing s1 s2 with
  | nil => simp
  | cons b rest ih =>
    rw [List.foldl_cons, ih, List.sum_cons]
    omega

theorem adler32_low_half (bs : List Nat) :
    genericg_compute_adler32 bs % 65536 = (1 + bs.sum) % 65536 := by
  rw [adler32_eq_spec]
  have h := spec_sums_fst_fold bs 1 0
  unfold adler32_spec_sums
  rw [Nat.shiftLeft_eq]
  omega

theorem sum_le_of_bytes (bs : List Nat) (hb : ∀ x ∈ bs, x < 256) :
    bs.sum ≤ 255 * bs.length := by
  induction bs with
  | nil => simp
  | cons b rest ih =>
    have h1 : b < 256 := hb b (List.mem_cons_self _ _)
    have h2 := ih (fun x hx => hb x (List.mem_cons_of_mem _ hx))
    rw [List.sum_cons, List.length_cons]
    omega

/-- C22 as stated fails: the code returns `(s2 << 16) + s1`, not
`(s2 << 16) | s1`; for the region of 258 bytes `0xFF` the sums are
`s1 = 0x100FF` and `s2 = 0x82017F`, the code returns `0x018000FF`, and
`((s2 << 16) | s1) mod 2^32` is `0x017F00FF`. -/
theorem adler32_is_not_or_of_sums :
    adler32_spec_sums (List.replicate 258 255) = (65791, 8520063)
      ∧ genericg_compute_adler32 (List.replicate 258 255) = 25166079
      ∧ ((8520063 <<< 16) ||| 65791) % 4294967296 = 25100543
      ∧ genericg_compute_adler32 (List.replicate 258 255)
          ≠ (((adler32_spec_sums (List.replicate 258 255)).2 <<< 16)
              ||| (adler32_spec_sums (List.replicate 258 255)).1) % 4294967296 := by
  set_option maxRecDepth 20000 in
  decide

/-- C22 amended: for every byte region, `genericg_compute_adler32` returns
`((s2 << 16) + s1) mod 2^32`, where `s1` and `s2` are the 32-bit running sums
defined by `s1 := 1`, `s2 := 0` and, for each byte in order,
`s1 := s1 + b (mod 2^32)`, `s2 := s2 + s1 (mod 2^32)`. -/
theorem adler32_is_sum_of_sums (bs : List Nat) :
    genericg_compute_adler32 bs
      = (((adler32_spec_sums bs).2 <<< 16) + (adler32_spec_sums bs).1) % 4294967296 :=
  adler32_eq_spec bs

theorem sum_set_byte (bs : List Nat) (i b b1 : Nat) (h : bs[i]? = some b) :
    (bs.set i b1).sum + b = bs.sum + b1 := by
  induction bs generalizing i with
  | nil => simp at h
  | cons x rest ih =>
    cases i with
    | zero =>
      simp only [List.getElem?_cons_zero, Option.some.injEq] at h
      subst h
      simp only [List.set_cons_zero, List.sum_cons]
      omega
    | succ j =>
      simp only [List.getElem?_cons_succ] at h
      have := ih j h
      simp only [List.set_cons_succ, List.sum_cons]
      omega

theorem set_bytes_lt (bs : List Nat) (i b1 : Nat) (hb : ∀ x ∈ bs, x < 256) (h1 : b1 < 256) :
    ∀ x ∈ bs.set i b1, x < 256 := by
  intro x hx
  rcases List.mem_or_eq_of_mem_set hx with h | h
  · exact hb x h
  · rw [h]; exact h1

theorem adler32_perturbed (bs : List Nat) (i b b1 : Nat) (h64 : bs.length ≤ 64)
    (hb : ∀ x ∈ bs, x < 256) (h : bs[i]? = some b) (h1 : b1 < 256) (hne : b1 ≠ b) :
    genericg_compute_adler32 (bs.set i b1) ≠ genericg_compute_adler32 bs := by
  intro heq
  have e1 := adler32_low_half bs
  have e2 := adler32_low_half (bs.set i b1)
  have s1 := sum_le_of_bytes bs hb
  have s2 := sum_le_of_bytes (bs.set i b1) (set_bytes_lt bs i b1 hb h1)
  rw [List.length_set] at s2
  have s3 := sum_set_byte bs i b b1 h
  rw [heq] at e2
  omega

/-- C23: the checksum is a function of the bytes of the region (equal byte
sequences give equal results), and for every region of length 1..64 there is
a single-byte perturbation, a position and a different byte value there, for
which `genericg_compute_adler32` returns a different value; in fact every
single-byte perturbation of such a region changes the value. -/
theorem adler32_deterministic_and_sensitive (bs : List Nat)
    (h1 : 1 ≤ bs.length) (h64 : bs.length ≤ 64) (hb : ∀ x ∈ bs, x < 256) :
    (∀ bs1 : List Nat, bs1 = bs → genericg_compute_adler32 bs1 = genericg_compute_adler32 bs)
    ∧ (∃ i b1, i < bs.length ∧ b1 < 256 ∧ bs[i]? ≠ some b1
        ∧ genericg_compute_adler32 (bs.set i b1) ≠ genericg_compute_adler32 bs)
    ∧ (∀ i b1, i < bs.length → b1 < 256 → bs[i]? ≠ some b1 →
        genericg_compute_adler32 (bs.set i b1) ≠ genericg_compute_adler32 bs) := by
  have hall : ∀ i b1, i < bs.length → b1 < 256 → bs[i]? ≠ some b1 →
      genericg_compute_adler32 (bs.set i b1) ≠ genericg_compute_adler32 bs := by
    intro i b1 hi hb1 hne
    have hget : bs[i]? = some bs[i] := List.getElem?_eq_getElem hi
    refine adler32_perturbed bs i bs[i] b1 h64 hb hget hb1 ?_
    intro he
    rw [hget, he] at hne
    exact hne rfl
  refine ⟨fun bs1 he => by rw [he], ?_, hall⟩
  have hget : bs[0]? = some bs[0] := List.getElem?_eq_getElem (by omega)
  by_cases h0 : bs[0] = 0
  · refine ⟨0, 1, by omega, by decide, ?_, hall 0 1 (by omega) (by decide) ?_⟩
    · rw [hget, h0]; simp
    · rw [hget, h0]; simp
  · refine ⟨0, 0, by omega, by decide, ?_, hall 0 0 (by omega) (by decide) ?_⟩
    · rw [hget]; simpa using h0
    · rw [hget]; simpa using h0

theorem adler32_deterministic_and_sensitive_witness :
    (1 ≤ [1, 2, 3].length ∧ [1, 2, 3].length ≤ 64 ∧ ∀ x ∈ [1, 2, 3], x < 256) ∧
    ((∀ bs1 : List Nat, bs1 = [1, 2, 3] →
        genericg_compute_adler32 bs1 = genericg_compute_adler32 [1, 2, 3])
    ∧ (∃ i b1, i < [1, 2, 3].length ∧ b1 < 256 ∧ [1, 2, 3][i]? ≠ some b1
        ∧ genericg_compute_adler32 ([1, 2, 3].set i b1) ≠ genericg_compute_adler32 [1, 2, 3])
    ∧ (∀ i b1, i < [1, 2, 3].length → b1 < 256 → [1, 2, 3][i]? ≠ some b1 →
        genericg_compute_adler32 ([1, 2, 3].set i b1)
          ≠ genericg_compute_adler32 [1, 2, 3])) :=
  ⟨⟨by decide, by decide, by decide⟩,
    adler32_deterministic_and_sensitive [1, 2, 3] (by decide) (by decide) (by decide)⟩

/-! ## The block decoder: one round of the main loop -/

theorem getElem?_append_cons_length {α : Type} (xs : List α) (x : α) (ys : List α) :
    (xs ++ x :: ys)[xs.length]? = some x := by
  induction xs with
  | nil => simp
  | cons y rest ih => simpa using ih

theorem set_append_cons_length {α : Type} (xs : List α) (x y : α) (ys : List α) :
    (xs ++ x :: ys).set xs.length y = xs ++ y :: ys := by
  induction xs with
  | nil => rfl
  | cons z rest ih => simp [ih]

theorem imarks_append (xs ys : List IRStmt) : imarks (xs ++ ys) = imarks xs ++ imarks ys := by
  induction xs with
  | nil => rfl
  | cons x rest ih =>
    cases x <;> simp [imarks, ih]

theorem toUInt_of_len (l : Int) (h0 : 0 ≤ l) (h20 : l ≤ 20) : (toUInt l : Int) = l := by
  unfold toUInt
  omega

theorem bb_call_stmts (a : BBArgs) (s : BBState) (hwb : AppendsNoIMark a.dis_instr_fn) :
    ∃ extra, (bb_call a s).1.stmts
        = s.irbb.stmts ++ .IMark (guest_IP_curr_instr a s) 0 :: extra
      ∧ imarks extra = [] := by
  obtain ⟨extra, h1, h2⟩ := hwb (addStmtToIRBB s.irbb (.IMark (guest_IP_curr_instr a s) 0))
    (decide (s.n_instrs > 0)) (resteerOKfn a s) a.guest_code s.delta (guest_IP_curr_instr a s)
    a.archinfo_guest a.host_bigendian
  refine ⟨extra, ?_, h2⟩
  unfold bb_call
  rw [h1]
  simp [addStmtToIRBB]

/-- With a decoder that left `s.irbb.stmts ++ IMark curr 0 :: extra`, one round
is the checks on the result followed by `bb_iter_rest` on the block with the
mark patched. -/
theorem bb_iter_of_appended (a : BBArgs) (s : BBState) (extra : List IRStmt)
    (hst : (bb_call a s).1.stmts
      = s.irbb.stmts ++ .IMark (guest_IP_curr_instr a s) 0 :: extra) :
    bb_iter a s =
      if ¬ (s.n_instrs < a.vex_control.guest_max_insns) then .fatal else
      if ¬ ((bb_call a s).2.len ≥ 0 ∧ (bb_call a s).2.len ≤ 20) then .fatal else
      if (bb_call a s).2.whatNext ≠ .Dis_Resteer ∧ (bb_call a s).2.continueAt ≠ 0 then .fatal
      else
        bb_iter_rest a s
          { (bb_call a s).1 with
            stmts := s.irbb.stmts
              ++ .IMark (guest_IP_curr_instr a s) (toUInt (bb_call a s).2.len) :: extra }
          (bb_call a s).2 := by
  unfold bb_iter
  simp only [hst, getElem?_append_cons_length, set_append_cons_length]
  have hlt : s.irbb.stmts.length
      < (s.irbb.stmts ++ IRStmt.IMark (guest_IP_curr_instr a s) 0 :: extra).length := by
    simp
  simp only [hlt, not_true_eq_false, if_false, ne_eq]

/-- What `bb_iter_rest` did when it goes back to the loop head. -/
theorem bb_iter_rest_again (a : BBArgs) (s s1 : BBState) (irbb : IRBB) (dres : DisResult)
    (h : bb_iter_rest a s irbb dres = .again s1) :
    s1.irbb = irbb ∧ s1.n_instrs = s.n_instrs + 1
      ∧ s.vge.len (s.vge.n_used - 1) < 5000 ∧ irbb.next.isSome = false
      ∧ ((dres.whatNext = .Dis_Continue
            ∧ s1.n_instrs < a.vex_control.guest_max_insns
            ∧ s1.delta = toLong (s.delta + dres.len)
            ∧ s1.vge.n_used = s.vge.n_used
            ∧ s1.vge.base = s.vge.base
            ∧ s1.vge.len = store s.vge.len (s.vge.n_used - 1)
                (toUShort (toUInt ((s.vge.len (s.vge.n_used - 1) : Int) + dres.len))))
          ∨ (dres.whatNext = .Dis_Resteer
            ∧ resteerOK a s = true ∧ resteerOKfn a s dres.continueAt = true
            ∧ s1.delta = toLong ((dres.continueAt : Int) - (a.guest_IP_bbstart : Int))
            ∧ s1.vge.n_used = s.vge.n_used + 1 ∧ s.vge.n_used + 1 ≤ 3
            ∧ s1.vge.base = store s.vge.base s.vge.n_used dres.continueAt
            ∧ s1.vge.len = store (store s.vge.len (s.vge.n_used - 1)
                (toUShort (toUInt ((s.vge.len (s.vge.n_used - 1) : Int) + dres.len))))
                s.vge.n_used 0)) := by
  unfold bb_iter_rest at h
  split at h
  · cases h
  split at h
  · cases h
  rename_i h1 h2
  dsimp only at h
  split at h
  · split at h
    · cases h
    split at h
    · rename_i hw h3 h4
      injection h with h
      subst h
      exact ⟨rfl, rfl, by omega, by simpa using h3, Or.inl ⟨hw, h4, rfl, rfl, rfl, rfl⟩⟩
    · cases h
  · split at h <;> cases h
  · split at h
    · cases h
    split at h
    · cases h
    split at h
    · cases h
    split at h
    · cases h
    rename_i hw h3 h4 h5 h6
    injection h with h
    subst h
    refine ⟨rfl, rfl, by omega, by simpa using h4, Or.inr ⟨hw, by simpa using h3,
      by simpa using h5, rfl, rfl, by omega, ?_, ?_⟩⟩
    · simp
    · simp

/-- What `bb_iter_rest` did when it leaves the loop. -/
theorem bb_iter_rest_leave (a : BBArgs) (s s1 : BBState) (irbb : IRBB) (dres : DisResult)
    (h : bb_iter_rest a s irbb dres = .leave s1) :
    s1.irbb.stmts = irbb.stmts ∧ s1.irbb.tyenv = irbb.tyenv
      ∧ s1.irbb.jumpkind = irbb.jumpkind
      ∧ s1.n_instrs = s.n_instrs + 1
      ∧ s.vge.len (s.vge.n_used - 1) < 5000
      ∧ s1.delta = toLong (s.delta + dres.len)
      ∧ s1.vge.n_used = s.vge.n_used
      ∧ s1.vge.base = s.vge.base
      ∧ s1.vge.len = store s.vge.len (s.vge.n_used - 1)
          (toUShort (toUInt ((s.vge.len (s.vge.n_used - 1) : Int) + dres.len)))
      ∧ ((dres.whatNext = .Dis_Continue ∧ irbb.next.isSome = false
            ∧ ¬ (s.n_instrs + 1 < a.vex_control.guest_max_insns)
            ∧ s1.irbb.next = some (.Const (guest_IRConst a.guest_word_type
                (toAddr64 ((a.guest_IP_bbstart : Int) + toLong (s.delta + dres.len))))))
          ∨ (dres.whatNext = .Dis_StopHere ∧ irbb.next.isSome = true
            ∧ s1.irbb.next = irbb.next)) := by
  unfold bb_iter_rest at h
  split at h
  · cases h
  split at h
  · cases h
  rename_i h1 h2
  dsimp only at h
  split at h
  · split at h
    · cases h
    split at h
    · cases h
    · rename_i hw h3 h4
      injection h with h
      subst h
      exact ⟨rfl, rfl, rfl, rfl, by omega, rfl, rfl, rfl, rfl,
        Or.inl ⟨hw, by simpa using h3, h4, rfl⟩⟩
  · split at h
    · cases h
    rename_i hw h3
    injection h with h
    subst h
    refine ⟨rfl, rfl, rfl, rfl, by omega, rfl, rfl, rfl, rfl, Or.inr ⟨hw, ?_, rfl⟩⟩
    cases hn : irbb.next <;> simp_all
  · split at h
    · cases h
    split at h
    · cases h
    split at h
    · cases h
    split at h
    · cases h
    cases h

/-- Whatever the decoder did, a round that does not fail passed the check at
the loop head and the checks on the result, and ended in `bb_iter_rest` on a
block that differs from the one the decoder left in its statements only. -/
theorem bb_iter_not_fatal (a : BBArgs) (s : BBState) (h : bb_iter a s ≠ .fatal) :
    s.n_instrs < a.vex_control.guest_max_insns
      ∧ 0 ≤ (bb_call a s).2.len ∧ (bb_call a s).2.len ≤ 20
      ∧ ((bb_call a s).2.whatNext = .Dis_Resteer ∨ (bb_call a s).2.continueAt = 0)
      ∧ ∃ irbb, irbb.next = (bb_call a s).1.next
          ∧ irbb.jumpkind = (bb_call a s).1.jumpkind
          ∧ irbb.tyenv = (bb_call a s).1.tyenv
          ∧ bb_iter a s = bb_iter_rest a s irbb (bb_call a s).2 := by
  unfold bb_iter at h ⊢
  split at h
  · exact absurd rfl h
  rename_i h1
  dsimp only at h ⊢
  split at h
  · exact absurd rfl h
  rename_i h2
  split at h
  · exact absurd rfl h
  rename_i h3
  split at h
  · exact absurd rfl h
  rename_i h4
  rw [if_neg h1, if_neg h2, if_neg h3, if_neg h4]
  split at h
  · split at h
    · exact absurd rfl h
    rename_i addr len heq h5
    rw [if_neg h5]
    refine ⟨by omega, by omega, by omega, ?_,
      { (bb_call a s).1 with
        stmts := (bb_call a s).1.stmts.set s.irbb.stmts.length
          (IRStmt.IMark addr (toUInt (bb_call a s).2.len)) }, rfl, rfl, rfl, rfl⟩
    by_cases hw : (bb_call a s).2.whatNext = .Dis_Resteer
    · exact Or.inl hw
    · right
      by_contra hc
      exact h3 ⟨hw, hc⟩
  · exact absurd rfl h

theorem extentLenSum_store_ge (len : Nat → Nat) (i v n : Nat) (h : n ≤ i) :
    extentLenSum (store len i v) n = extentLenSum len n := by
  induction n with
  | zero => rfl
  | succ m ih =>
    have hm : (store len i v) m = len m := by
      unfold store
      rw [if_neg (by omega)]
    rw [extentLenSum, extentLenSum, ih (by omega), hm]

theorem extentLenSum_store_last (len : Nat → Nat) (n v : Nat) (h : 1 ≤ n) :
    extentLenSum (store len (n - 1) v) n + len (n - 1) = extentLenSum len n + v := by
  obtain ⟨m, rfl⟩ : ∃ m, n = m + 1 := ⟨n - 1, by omega⟩
  have hs : (store len m v) m = v := by
    unfold store
    rw [if_pos rfl]
  simp only [Nat.add_sub_cancel, extentLenSum, extentLenSum_store_ge len m v m (le_refl m), hs]
  omega

theorem newlen_eq (old : Nat) (l : Int) (h : old < 5000) (h0 : 0 ≤ l) (h20 : l ≤ 20) :
    toUShort (toUInt ((old : Int) + l)) = old + l.toNat := by
  unfold toUShort toUInt
  omega

/-- The effect of a round that does not fail on the extents and the
instruction count, whatever the decoder did. -/
theorem bb_iter_counts (a : BBArgs) (s s1 : BBState)
    (h : bb_iter a s = .again s1 ∨ bb_iter a s = .leave s1) (hn : 1 ≤ s.vge.n_used) :
    s.n_instrs < a.vex_control.guest_max_insns
      ∧ s1.n_instrs = s.n_instrs + 1
      ∧ 0 ≤ (bb_call a s).2.len ∧ (bb_call a s).2.len ≤ 20
      ∧ s.vge.n_used ≤ s1.vge.n_used
      ∧ (s.vge.n_used ≤ 3 → s1.vge.n_used ≤ 3)
      ∧ extentLenSum s1.vge.len s1.vge.n_used
          = extentLenSum s.vge.len s.vge.n_used + ((bb_call a s).2.len).toNat
      ∧ (bb_iter a s = .again s1 → s1.n_instrs < a.vex_control.guest_max_insns
          ∨ s1.n_instrs < a.vex_control.guest_chase_thresh + 1) := by
  have hnf : bb_iter a s ≠ .fatal := by
    rcases h with h | h <;> rw [h] <;> exact Iter.noConfusion
  obtain ⟨hlt, h0, h20, _, irbb, _, _, _, hrest⟩ := bb_iter_not_fatal a s hnf
  rw [hrest] at h
  rcases h with h | h
  · obtain ⟨_, hni, h5000, _, hc | hr⟩ := bb_iter_rest_again a s s1 irbb _ h
    · obtain ⟨_, hmax, _, hnu, _, hlen⟩ := hc
      refine ⟨hlt, hni, h0, h20, by omega, by omega, ?_, fun _ => Or.inl hmax⟩
      rw [hnu, hlen, newlen_eq _ _ h5000 h0 h20]
      have := extentLenSum_store_last s.vge.len s.vge.n_used
        (s.vge.len (s.vge.n_used - 1) + ((bb_call a s).2.len).toNat) hn
      omega
    · obtain ⟨_, hok, _, _, hnu, h3, _, hlen⟩ := hr
      refine ⟨hlt, hni, h0, h20, by omega, by omega, ?_, fun _ => Or.inr ?_⟩
      · rw [hnu, hlen, newlen_eq _ _ h5000 h0 h20, extentLenSum]
        rw [extentLenSum_store_ge _ _ _ _ (le_refl _)]
        have := extentLenSum_store_last s.vge.len s.vge.n_used
          (s.vge.len (s.vge.n_used - 1) + ((bb_call a s).2.len).toNat) hn
        have hs : store (store s.vge.len (s.vge.n_used - 1)
            (s.vge.len (s.vge.n_used - 1) + ((bb_call a s).2.len).toNat)) s.vge.n_used 0
            s.vge.n_used = 0 := by
          unfold store
          rw [if_pos rfl]
        rw [hs]
        omega
      · unfold resteerOK at hok
        simp only [Bool.and_eq_true, decide_eq_true_eq] at hok
        omega
  · obtain ⟨_, _, _, hni, h5000, _, hnu, _, hlen, _⟩ := bb_iter_rest_leave a s s1 irbb _ h
    refine ⟨hlt, hni, h0, h20, by omega, by omega, ?_, fun hh => ?_⟩
    · rw [hnu, hlen, newlen_eq _ _ h5000 h0 h20]
      have := extentLenSum_store_last s.vge.len s.vge.n_used
        (s.vge.len (s.vge.n_used - 1) + ((bb_call a s).2.len).toNat) hn
      omega
    · rw [hrest, h] at hh
      exact Iter.noConfusion hh

/-- The statements of the block after a round that does not fail, for a
decoder that only appends statements other than instruction marks. -/
theorem bb_iter_stmts (a : BBArgs) (s s1 : BBState) (hwb : AppendsNoIMark a.dis_instr_fn)
    (h : bb_iter a s = .again s1 ∨ bb_iter a s = .leave s1) :
    ∃ extra, imarks extra = []
      ∧ s1.irbb.stmts = s.irbb.stmts
          ++ .IMark (guest_IP_curr_instr a s) ((bb_call a s).2.len).toNat :: extra := by
  obtain ⟨extra, hst, hex⟩ := bb_call_stmts a s hwb
  have hnf : bb_iter a s ≠ .fatal := by
    rcases h with h | h <;> rw [h] <;> exact Iter.noConfusion
  obtain ⟨hlt, h0, h20, _, _, _⟩ := bb_iter_not_fatal a s hnf
  have hu : toUInt (bb_call a s).2.len = ((bb_call a s).2.len).toNat := by
    unfold toUInt
    omega
  rw [bb_iter_of_appended a s extra hst, if_neg (by omega), if_neg (by omega)] at h
  split at h
  · rcases h with h | h <;> cases h
  refine ⟨extra, hex, ?_⟩
  rcases h with h | h
  · have := (bb_iter_rest_again a s s1 _ _ h).1
    rw [this, hu]
  · have := (bb_iter_rest_leave a s s1 _ _ h).1
    rw [this, hu]

/-! ## The block decoder: the whole run -/

/-- Induction over the main loop: a property kept by every round that goes
back to the loop head, and turned into `Q` by a round that leaves, gives `Q`
of the state the loop ends in. -/
theorem bb_loop_induct (a : BBArgs) (P Q : BBState → Prop)
    (hagain : ∀ s s1, P s → bb_iter a s = .again s1 → P s1)
    (hleave : ∀ s s1, P s → bb_iter a s = .leave s1 → Q s1) :
    ∀ (fuel : Nat) (s s1 : BBState), P s → bb_loop a fuel s = .done s1 → Q s1 := by
  intro fuel
  induction fuel with
  | zero =>
    intro s s1 _ h
    cases h
  | succ n ih =>
    intro s s1 hP h
    unfold bb_loop at h
    split at h
    · rename_i s2 heq
      exact ih s2 s1 (hagain s s2 hP heq) h
    · rename_i s2 heq
      injection h with h
      subst h
      exact hleave s s2 hP heq
    · cases h

/-- A run of `bb_to_IR` that returns passed the sanity checks, ended its main
loop in some state and went through the part after `done`. -/
theorem bb_to_IR_done (a : BBArgs) (r : BBState) (h : bb_to_IR a = .done r) :
    (1 ≤ a.vex_control.guest_max_insns ∧ a.vex_control.guest_max_insns < 100
      ∧ 0 ≤ a.vex_control.guest_chase_thresh
      ∧ a.vex_control.guest_chase_thresh < a.vex_control.guest_max_insns
      ∧ (a.guest_word_type = .Ity_I32 ∨ a.guest_word_type = .Ity_I64))
    ∧ ∃ s1, bb_loop a (a.vex_control.guest_max_insns.toNat + 1) (bb_entry a) = .done s1
        ∧ bb_done a 0 s1 = .done r := by
  unfold bb_to_IR at h
  split at h
  · cases h
  split at h
  · cases h
  split at h
  · cases h
  split at h
  · cases h
  split at h
  · cases h
  rename_i h1 h2 h3 h4 h5
  refine ⟨⟨by omega, by omega, by omega, by omega, by tauto⟩, ?_⟩
  dsimp only at h
  split at h
  · rename_i s1 heq
    refine ⟨s1, heq, ?_⟩
    have hidx : (if a.do_self_check = true then emptyIRBB.stmts.length else 0) = 0 := by
      split <;> rfl
    rw [hidx] at h
    exact h
  · cases h
  · cases h

/-- What the part after `done` returns. -/
theorem bb_done_done (a : BBArgs) (s r : BBState) (h : bb_done a 0 s = .done r) :
    r.vge = s.vge ∧ r.n_instrs = s.n_instrs ∧ r.delta = s.delta
      ∧ r.irbb.next = s.irbb.next ∧ r.irbb.jumpkind = s.irbb.jumpkind
      ∧ ((a.do_self_check = false ∧ r.irbb.stmts = s.irbb.stmts)
        ∨ (a.do_self_check = true ∧ s.vge.n_used = 1
          ∧ r.irbb.stmts
            = ((((s.irbb.stmts.set 0
                (.Tmp s.irbb.tyenv.length
                  (.Const (guest_IRConst a.guest_word_type a.guest_IP_bbstart)))).set 1
                (.Tmp (s.irbb.tyenv.length + 1)
                  (if a.guest_word_type = .Ity_I32
                    then .Const (.U32 (if s.vge.len 0 % 4294967296 = 0 then 1
                      else s.vge.len 0 % 4294967296))
                    else .Const (.U64 (if s.vge.len 0 % 4294967296 = 0 then 1
                      else s.vge.len 0 % 4294967296))))).set 2
                (.Put a.offB_TISTART (.RdTmp s.irbb.tyenv.length))).set 3
                (.Put a.offB_TILEN (.RdTmp (s.irbb.tyenv.length + 1)))).set 4
                (.Exit
                  (.Binop .Iop_CmpNE32
                    (.CCall .Ity_I32 2 ("genericg_compute_adler32")
                      [a.mkIRExpr_HWord a.guest_code_HWord,
                        a.mkIRExpr_HWord (if s.vge.len 0 % 4294967296 = 0 then 1
                          else s.vge.len 0 % 4294967296)])
                    (.Const (.U32 (genericg_compute_adler32
                      ((List.range (if s.vge.len 0 % 4294967296 = 0 then 1
                          else s.vge.len 0 % 4294967296)).map a.guest_code)))))
                  .Ijk_TInval
                  (guest_IRConst a.guest_word_type a.guest_IP_bbstart)))) := by
  unfold bb_done at h
  split at h
  · rename_i hsc
    split at h
    · cases h
    rename_i hn
    injection h with h
    subst h
    refine ⟨rfl, rfl, rfl, rfl, rfl, Or.inr ⟨hsc, by simpa using hn, ?_⟩⟩
    simp [newIRTemp]
  · rename_i hsc
    injection h with h
    subst h
    exact ⟨rfl, rfl, rfl, rfl, rfl, Or.inl ⟨by simpa using hsc, rfl⟩⟩

theorem bb_entry_stmts (a : BBArgs) :
    (bb_entry a).irbb.stmts
      = (if a.do_self_check then [.NoOp, .NoOp, .NoOp, .NoOp, .NoOp] else [])
        ++ (if a.do_set_NRADDR then
              [.Put a.offB_NRADDR
                (.Const (guest_IRConst a.guest_word_type a.guest_IP_bbstart_noredir))]
            else []) := by
  unfold bb_entry
  cases a.do_self_check <;> cases a.do_set_NRADDR <;> rfl

theorem bb_entry_imarks (a : BBArgs) : imarks (bb_entry a).irbb.stmts = [] := by
  rw [bb_entry_stmts]
  cases a.do_self_check <;> cases a.do_set_NRADDR <;> rfl

/-- The invariant of the main loop for any decoder: between one and three
extents in use, a count of instructions that is not negative. -/
theorem bb_loop_counts (a : BBArgs) (s1 : BBState)
    (h : bb_loop a (a.vex_control.guest_max_insns.toNat + 1) (bb_entry a) = .done s1) :
    1 ≤ s1.vge.n_used ∧ s1.vge.n_used ≤ 3 ∧ 1 ≤ s1.n_instrs
      ∧ s1.n_instrs ≤ a.vex_control.guest_max_insns := by
  have h0 : 1 ≤ (bb_entry a).vge.n_used ∧ (bb_entry a).vge.n_used ≤ 3
      ∧ 0 ≤ (bb_entry a).n_instrs := by
    refine ⟨le_refl _, ?_, le_refl _⟩
    show 1 ≤ 3
    decide
  refine bb_loop_induct a
    (fun s => 1 ≤ s.vge.n_used ∧ s.vge.n_used ≤ 3 ∧ 0 ≤ s.n_instrs)
    (fun s => 1 ≤ s.vge.n_used ∧ s.vge.n_used ≤ 3 ∧ 1 ≤ s.n_instrs
      ∧ s.n_instrs ≤ a.vex_control.guest_max_insns)
    ?_ ?_ _ (bb_entry a) s1 h0 h
  · intro s s2 ⟨h1, h3, h0⟩ hit
    obtain ⟨_, hn, _, _, hle, h3', _, _⟩ := bb_iter_counts a s s2 (Or.inl hit) h1
    exact ⟨by omega, h3' h3, by omega⟩
  · intro s s2 ⟨h1, h3, h0⟩ hit
    obtain ⟨hlt, hn, _, _, hle, h3', _, _⟩ := bb_iter_counts a s s2 (Or.inr hit) h1
    exact ⟨by omega, h3' h3, by omega, by omega⟩

/-- The invariant of the main loop for a decoder that only appends statements
other than instruction marks: the lengths of the extents in use add up to
the lengths of the instruction marks, and there is one mark per
instruction. -/
theorem bb_loop_marks (a : BBArgs) (s1 : BBState) (hwb : AppendsNoIMark a.dis_instr_fn)
    (h : bb_loop a (a.vex_control.guest_max_insns.toNat + 1) (bb_entry a) = .done s1) :
    ∃ body, s1.irbb.stmts = (bb_entry a).irbb.stmts ++ body
      ∧ extentLenSum s1.vge.len s1.vge.n_used = imarkLenSum body
      ∧ ((imarks body).length : Int) = s1.n_instrs := by
  have key := bb_loop_induct a
    (fun s => 1 ≤ s.vge.n_used ∧ ∃ body, s.irbb.stmts = (bb_entry a).irbb.stmts ++ body
      ∧ extentLenSum s.vge.len s.vge.n_used = imarkLenSum body
      ∧ ((imarks body).length : Int) = s.n_instrs)
    (fun s => 1 ≤ s.vge.n_used ∧ ∃ body, s.irbb.stmts = (bb_entry a).irbb.stmts ++ body
      ∧ extentLenSum s.vge.len s.vge.n_used = imarkLenSum body
      ∧ ((imarks body).length : Int) = s.n_instrs)
    ?_ ?_ _ (bb_entry a) s1 ?_ h
  · exact key.2
  · intro s s2 ⟨h1, body, hst, hsum, hcnt⟩ hit
    obtain ⟨_, hn, _, _, hle, _, hs, _⟩ := bb_iter_counts a s s2 (Or.inl hit) h1
    obtain ⟨extra, hex, hst2⟩ := bb_iter_stmts a s s2 hwb (Or.inl hit)
    refine ⟨by omega, body ++ .IMark (guest_IP_curr_instr a s) ((bb_call a s).2.len).toNat
      :: extra, ?_, ?_, ?_⟩
    · rw [hst2, hst, List.append_assoc]
    · rw [hs, hsum]
      simp [imarkLenSum, imarks_append, imarks, hex]
    · rw [hn, ← hcnt]
      simp [imarks_append, imarks, hex]
  · intro s s2 ⟨h1, body, hst, hsum, hcnt⟩ hit
    obtain ⟨_, hn, _, _, hle, _, hs, _⟩ := bb_iter_counts a s s2 (Or.inr hit) h1
    obtain ⟨extra, hex, hst2⟩ := bb_iter_stmts a s s2 hwb (Or.inr hit)
    refine ⟨by omega, body ++ .IMark (guest_IP_curr_instr a s) ((bb_call a s).2.len).toNat
      :: extra, ?_, ?_, ?_⟩
    · rw [hst2, hst, List.append_assoc]
    · rw [hs, hsum]
      simp [imarkLenSum, imarks_append, imarks, hex]
    · rw [hn, ← hcnt]
      simp [imarks_append, imarks, hex]
  · exact ⟨le_refl _, [], by simp, rfl, rfl⟩

/-- A round that does not fail leaves the first extent at its base and keeps
its length below 5020. -/
theorem bb_iter_first_extent (a : BBArgs) (s s1 : BBState)
    (h : bb_iter a s = .again s1 ∨ bb_iter a s = .leave s1) (hn : 1 ≤ s.vge.n_used)
    (h0 : s.vge.len 0 < 5020) :
    s1.vge.len 0 < 5020 ∧ s1.vge.base 0 = s.vge.base 0 := by
  have hnf : bb_iter a s ≠ .fatal := by
    rcases h with h | h <;> rw [h] <;> exact Iter.noConfusion
  obtain ⟨_, hl0, hl20, _, irbb, _, _, _, hrest⟩ := bb_iter_not_fatal a s hnf
  rw [hrest] at h
  have hstore : ∀ old : Nat, old < 5000 →
      store s.vge.len (s.vge.n_used - 1)
        (toUShort (toUInt ((old : Int) + (bb_call a s).2.len))) 0 < 5020 := by
    intro old hold
    rw [newlen_eq _ _ hold hl0 hl20]
    unfold store
    split <;> omega
  rcases h with h | h
  · obtain ⟨_, _, h5000, _, hc | hr⟩ := bb_iter_rest_again a s s1 irbb _ h
    · obtain ⟨_, _, _, _, hbase, hlen⟩ := hc
      rw [hlen, hbase]
      exact ⟨hstore _ h5000, rfl⟩
    · obtain ⟨_, _, _, _, _, _, hbase, hlen⟩ := hr
      rw [hlen, hbase]
      constructor
      · have := hstore _ h5000
        unfold store at this ⊢
        rw [if_neg (by omega)]
        exact this
      · unfold store
        rw [if_neg (by omega)]
  · obtain ⟨_, _, _, _, h5000, _, _, hbase, hlen, _⟩ := bb_iter_rest_leave a s s1 irbb _ h
    rw [hlen, hbase]
    exact ⟨hstore _ h5000, rfl⟩

theorem bb_loop_first_extent (a : BBArgs) (s1 : BBState)
    (h : bb_loop a (a.vex_control.guest_max_insns.toNat + 1) (bb_entry a) = .done s1) :
    s1.vge.len 0 < 5020 ∧ s1.vge.base 0 = a.guest_IP_bbstart := by
  have h0 : 1 ≤ (bb_entry a).vge.n_used ∧ (bb_entry a).vge.len 0 < 5020
      ∧ (bb_entry a).vge.base 0 = a.guest_IP_bbstart := by
    refine ⟨le_refl _, ?_, rfl⟩
    show (0 : Nat) < 5020
    decide
  have key := bb_loop_induct a
    (fun s => 1 ≤ s.vge.n_used ∧ s.vge.len 0 < 5020 ∧ s.vge.base 0 = a.guest_IP_bbstart)
    (fun s => 1 ≤ s.vge.n_used ∧ s.vge.len 0 < 5020 ∧ s.vge.base 0 = a.guest_IP_bbstart)
    ?_ ?_ _ (bb_entry a) s1 h0 h
  · exact key.2
  · intro s s2 ⟨h1, h2, h3⟩ hit
    obtain ⟨_, _, _, _, hle, _⟩ := bb_iter_counts a s s2 (Or.inl hit) h1
    obtain ⟨h4, h5⟩ := bb_iter_first_extent a s s2 (Or.inl hit) h1 h2
    exact ⟨by omega, h4, by rw [h5, h3]⟩
  · intro s s2 ⟨h1, h2, h3⟩ hit
    obtain ⟨_, _, _, _, hle, _⟩ := bb_iter_counts a s s2 (Or.inr hit) h1
    obtain ⟨h4, h5⟩ := bb_iter_first_extent a s s2 (Or.inr hit) h1 h2
    exact ⟨by omega, h4, by rw [h5, h3]⟩

theorem stub_continue_appends : AppendsNoIMark stub_continue := by
  intro irbb p f c d ip ai hb
  exact ⟨[], by simp [stub_continue], rfl⟩

/-- The statements of the returned block of a self-checking translation, for
a decoder that only appends statements. -/
theorem bb_done_selfcheck_stmts (a : BBArgs) (s r : BBState) (body : List IRStmt)
    (hsc : a.do_self_check = true) (hst : s.irbb.stmts = (bb_entry a).irbb.stmts ++ body)
    (h : bb_done a 0 s = .done r) :
    r.irbb.stmts
      = [.Tmp s.irbb.tyenv.length
            (.Const (guest_IRConst a.guest_word_type a.guest_IP_bbstart)),
          .Tmp (s.irbb.tyenv.length + 1)
            (if a.guest_word_type = .Ity_I32
              then .Const (.U32 (if s.vge.len 0 % 4294967296 = 0 then 1
                else s.vge.len 0 % 4294967296))
              else .Const (.U64 (if s.vge.len 0 % 4294967296 = 0 then 1
                else s.vge.len 0 % 4294967296))),
          .Put a.offB_TISTART (.RdTmp s.irbb.tyenv.length),
          .Put a.offB_TILEN (.RdTmp (s.irbb.tyenv.length + 1)),
          .Exit
            (.Binop .Iop_CmpNE32
              (.CCall .Ity_I32 2 ("genericg_compute_adler32")
                [a.mkIRExpr_HWord a.guest_code_HWord,
                  a.mkIRExpr_HWord (if s.vge.len 0 % 4294967296 = 0 then 1
                    else s.vge.len 0 % 4294967296)])
              (.Const (.U32 (genericg_compute_adler32
                ((List.range (if s.vge.len 0 % 4294967296 = 0 then 1
                    else s.vge.len 0 % 4294967296)).map a.guest_code)))))
            .Ijk_TInval
            (guest_IRConst a.guest_word_type a.guest_IP_bbstart)]
        ++ ((if a.do_set_NRADDR then
              [.Put a.offB_NRADDR
                (.Const (guest_IRConst a.guest_word_type a.guest_IP_bbstart_noredir))]
            else []) ++ body) := by
  obtain ⟨_, _, _, _, _, hcase⟩ := bb_done_done a s r h
  rcases hcase with ⟨hf, _⟩ | ⟨_, _, hr⟩
  · rw [hsc] at hf
    cases hf
  · rw [hr, hst, bb_entry_stmts, hsc]
    simp

/-- C24: for every successful run of `bb_to_IR` with a callback that only
appends statements other than instruction marks (the callback is handed the
block only, not `vge`), the sum of `vge.len[i]` over the used extents equals
the sum of the length fields of all IMark statements in the returned block. -/
theorem extent_lengths_sum_to_imark_lengths (a : BBArgs) (r : BBState)
    (hwb : AppendsNoIMark a.dis_instr_fn) (h : bb_to_IR a = .done r) :
    extentLenSum r.vge.len r.vge.n_used = imarkLenSum r.irbb.stmts := by
  obtain ⟨_, s1, hloop, hdone⟩ := bb_to_IR_done a r h
  obtain ⟨body, hst, hsum, _⟩ := bb_loop_marks a s1 hwb hloop
  obtain ⟨hvge, _, _, _, _, hcase⟩ := bb_done_done a s1 r hdone
  rw [hvge, hsum]
  have hentry := bb_entry_imarks a
  rcases hcase with ⟨_, hr⟩ | ⟨hsc, _, _⟩
  · rw [hr, hst]
    simp [imarkLenSum, imarks_append, hentry]
  · rw [bb_done_selfcheck_stmts a s1 r body hsc hst hdone]
    cases a.do_set_NRADDR <;> simp [imarkLenSum, imarks_append, imarks]

theorem extent_lengths_sum_to_imark_lengths_witness :
    (AppendsNoIMark scenario_S4.dis_instr_fn
      ∧ bb_to_IR scenario_S4 = .done (bb_result scenario_S4)) ∧
    extentLenSum (bb_result scenario_S4).vge.len (bb_result scenario_S4).vge.n_used
      = imarkLenSum (bb_result scenario_S4).irbb.stmts :=
  ⟨⟨stub_continue_appends, rfl⟩,
    extent_lengths_sum_to_imark_lengths scenario_S4 (bb_result scenario_S4)
      stub_continue_appends rfl⟩

/-- C25: for every successful run of `bb_to_IR` (which implies the entry
preconditions), on return `1 <= vge.n_used <= 3` and the number of
instructions decoded, which is the number of callback invocations, is at
least 1 and at most `guest_max_insns`; with a callback that only appends
statements other than instruction marks it is the number of IMarks in the
returned block. -/
theorem extents_and_instruction_count_bounded (a : BBArgs) (r : BBState)
    (h : bb_to_IR a = .done r) :
    (1 ≤ a.vex_control.guest_max_insns ∧ a.vex_control.guest_max_insns < 100
      ∧ 0 ≤ a.vex_control.guest_chase_thresh
      ∧ a.vex_control.guest_chase_thresh < a.vex_control.guest_max_insns)
    ∧ 1 ≤ r.vge.n_used ∧ r.vge.n_used ≤ 3
    ∧ 1 ≤ r.n_instrs ∧ r.n_instrs ≤ a.vex_control.guest_max_insns
    ∧ (AppendsNoIMark a.dis_instr_fn →
        ((imarks r.irbb.stmts).length : Int) = r.n_instrs) := by
  obtain ⟨⟨p1, p2, p3, p4, _⟩, s1, hloop, hdone⟩ := bb_to_IR_done a r h
  obtain ⟨c1, c2, c3, c4⟩ := bb_loop_counts a s1 hloop
  obtain ⟨hvge, hni, _, _, _, hcase⟩ := bb_done_done a s1 r hdone
  rw [hvge, hni]
  refine ⟨⟨p1, p2, p3, p4⟩, c1, c2, c3, c4, fun hwb => ?_⟩
  obtain ⟨body, hst, _, hcnt⟩ := bb_loop_marks a s1 hwb hloop
  have hentry := bb_entry_imarks a
  rw [← hcnt]
  rcases hcase with ⟨_, hr⟩ | ⟨hsc, _, _⟩
  · rw [hr, hst]
    simp [imarks_append, hentry]
  · rw [bb_done_selfcheck_stmts a s1 r body hsc hst hdone]
    cases a.do_set_NRADDR <;> simp [imarks_append, imarks]

theorem extents_and_instruction_count_bounded_witness :
    (bb_to_IR scenario_S3 = .done (bb_result scenario_S3)) ∧
    ((1 ≤ scenario_S3.vex_control.guest_max_insns
        ∧ scenario_S3.vex_control.guest_max_insns < 100
        ∧ 0 ≤ scenario_S3.vex_control.guest_chase_thresh
        ∧ scenario_S3.vex_control.guest_chase_thresh
          < scenario_S3.vex_control.guest_max_insns)
      ∧ 1 ≤ (bb_result scenario_S3).vge.n_used ∧ (bb_result scenario_S3).vge.n_used ≤ 3
      ∧ 1 ≤ (bb_result scenario_S3).n_instrs
      ∧ (bb_result scenario_S3).n_instrs ≤ scenario_S3.vex_control.guest_max_insns
      ∧ (AppendsNoIMark scenario_S3.dis_instr_fn →
          ((imarks (bb_result scenario_S3).irbb.stmts).length : Int)
            = (bb_result scenario_S3).n_instrs)) :=
  ⟨rfl, extents_and_instruction_count_bounded scenario_S3 (bb_result scenario_S3) rfl⟩

/-- C26: when `do_self_check` is true, on every successful return of
`bb_to_IR` (with a callback that only appends statements other than
instruction marks) statements 0..4 of the block are, in this order,
`Tmp(t_start := const(guest_IP_bbstart))`, `Tmp(t_len := const(len2check))`,
`Put(offB_TISTART, t_start)`, `Put(offB_TILEN, t_len)` and
`Exit(CmpNE32(call genericg_compute_adler32(guest_code, len2check), const(c)),
TInval, const(guest_IP_bbstart))`, where `len2check = max(1, vge.len[0])` and
`c` is `genericg_compute_adler32` of the first `len2check` bytes of
`guest_code`; no no-op placeholder remains, and all the IMarks, one per
instruction and at least one, come after them. -/
theorem self_check_preamble (a : BBArgs) (r : BBState)
    (hwb : AppendsNoIMark a.dis_instr_fn) (hsc : a.do_self_check = true)
    (h : bb_to_IR a = .done r) :
    ∃ (t_start t_len len2check : Nat) (rest : List IRStmt),
      len2check = max 1 (r.vge.len 0)
      ∧ t_len = t_start + 1
      ∧ r.irbb.stmts
        = [.Tmp t_start (.Const (guest_IRConst a.guest_word_type a.guest_IP_bbstart)),
            .Tmp t_len
              (if a.guest_word_type = .Ity_I32 then .Const (.U32 len2check)
                else .Const (.U64 len2check)),
            .Put a.offB_TISTART (.RdTmp t_start),
            .Put a.offB_TILEN (.RdTmp t_len),
            .Exit
              (.Binop .Iop_CmpNE32
                (.CCall .Ity_I32 2 ("genericg_compute_adler32")
                  [a.mkIRExpr_HWord a.guest_code_HWord, a.mkIRExpr_HWord len2check])
                (.Const (.U32 (genericg_compute_adler32
                  ((List.range len2check).map a.guest_code)))))
              .Ijk_TInval
              (guest_IRConst a.guest_word_type a.guest_IP_bbstart)]
          ++ rest
      ∧ ((imarks rest).length : Int) = r.n_instrs
      ∧ 1 ≤ r.n_instrs
      ∧ r.vge.n_used = 1 := by
  obtain ⟨_, s1, hloop, hdone⟩ := bb_to_IR_done a r h
  obtain ⟨body, hst, _, hcnt⟩ := bb_loop_marks a s1 hwb hloop
  obtain ⟨_, _, c3, _⟩ := bb_loop_counts a s1 hloop
  obtain ⟨hlen0, _⟩ := bb_loop_first_extent a s1 hloop
  obtain ⟨hvge, hni, _, _, _, hcase⟩ := bb_done_done a s1 r hdone
  have hused : s1.vge.n_used = 1 := by
    rcases hcase with ⟨hf, _⟩ | ⟨_, hu, _⟩
    · rw [hsc] at hf
      cases hf
    · exact hu
  have hl : (if s1.vge.len 0 % 4294967296 = 0 then 1 else s1.vge.len 0 % 4294967296)
      = max 1 (s1.vge.len 0) := by
    split <;> omega
  have hstmts := bb_done_selfcheck_stmts a s1 r body hsc hst hdone
  rw [hl] at hstmts
  refine ⟨s1.irbb.tyenv.length, s1.irbb.tyenv.length + 1, max 1 (s1.vge.len 0), _, ?_, rfl,
    hstmts, ?_, ?_, ?_⟩
  · rw [hvge]
  · rw [hni, ← hcnt]
    cases a.do_set_NRADDR <;> simp [imarks_append, imarks]
  · rw [hni]
    exact c3
  · rw [hvge]
    exact hused

theorem self_check_preamble_witness :
    (AppendsNoIMark scenario_S4.dis_instr_fn ∧ scenario_S4.do_self_check = true
      ∧ bb_to_IR scenario_S4 = .done (bb_result scenario_S4)) ∧
    ∃ (t_start t_len len2check : Nat) (rest : List IRStmt),
      len2check = max 1 ((bb_result scenario_S4).vge.len 0)
      ∧ t_len = t_start + 1
      ∧ (bb_result scenario_S4).irbb.stmts
        = [.Tmp t_start
              (.Const (guest_IRConst scenario_S4.guest_word_type
                scenario_S4.guest_IP_bbstart)),
            .Tmp t_len
              (if scenario_S4.guest_word_type = .Ity_I32 then .Const (.U32 len2check)
                else .Const (.U64 len2check)),
            .Put scenario_S4.offB_TISTART (.RdTmp t_start),
            .Put scenario_S4.offB_TILEN (.RdTmp t_len),
            .Exit
              (.Binop .Iop_CmpNE32
                (.CCall .Ity_I32 2 ("genericg_compute_adler32")
                  [scenario_S4.mkIRExpr_HWord scenario_S4.guest_code_HWord,
                    scenario_S4.mkIRExpr_HWord len2check])
                (.Const (.U32 (genericg_compute_adler32
                  ((List.range len2check).map scenario_S4.guest_code)))))
              .Ijk_TInval
              (guest_IRConst scenario_S4.guest_word_type scenario_S4.guest_IP_bbstart)]
          ++ rest
      ∧ ((imarks rest).length : Int) = (bb_result scenario_S4).n_instrs
      ∧ 1 ≤ (bb_result scenario_S4).n_instrs
      ∧ (bb_result scenario_S4).vge.n_used = 1 :=
  ⟨⟨stub_continue_appends, rfl, rfl⟩,
    self_check_preamble scenario_S4 (bb_result scenario_S4) stub_continue_appends rfl rfl⟩

/-- A round in which the decoder answers `Dis_Continue` within its contract:
back to the loop head below the cap, else out with `next` set to the
constant `guest_IP_bbstart + delta`. -/
theorem bb_iter_continue (a : BBArgs) (s : BBState) (extra : List IRStmt)
    (hlt : s.n_instrs < a.vex_control.guest_max_insns)
    (hst : (bb_call a s).1.stmts
      = s.irbb.stmts ++ .IMark (guest_IP_curr_instr a s) 0 :: extra)
    (hw : (bb_call a s).2.whatNext = .Dis_Continue)
    (h0 : 0 ≤ (bb_call a s).2.len) (h20 : (bb_call a s).2.len ≤ 20)
    (hca : (bb_call a s).2.continueAt = 0)
    (hnext : (bb_call a s).1.next = none)
    (h5000 : s.vge.len (s.vge.n_used - 1) < 5000) :
    bb_iter a s =
      if s.n_instrs + 1 < a.vex_control.guest_max_insns then
        .again
          { irbb :=
              { (bb_call a s).1 with
                stmts := s.irbb.stmts
                  ++ .IMark (guest_IP_curr_instr a s) ((bb_call a s).2.len).toNat :: extra }
            vge :=
              { s.vge with
                len := store s.vge.len (s.vge.n_used - 1)
                  (s.vge.len (s.vge.n_used - 1) + ((bb_call a s).2.len).toNat) }
            delta := toLong (s.delta + (bb_call a s).2.len)
            n_instrs := s.n_instrs + 1 }
      else
        .leave
          { irbb :=
              { (bb_call a s).1 with
                stmts := s.irbb.stmts
                  ++ .IMark (guest_IP_curr_instr a s) ((bb_call a s).2.len).toNat :: extra
                next := some (.Const (guest_IRConst a.guest_word_type
                  (toAddr64 ((a.guest_IP_bbstart : Int)
                    + toLong (s.delta + (bb_call a s).2.len))))) }
            vge :=
              { s.vge with
                len := store s.vge.len (s.vge.n_used - 1)
                  (s.vge.len (s.vge.n_used - 1) + ((bb_call a s).2.len).toNat) }
            delta := toLong (s.delta + (bb_call a s).2.len)
            n_instrs := s.n_instrs + 1 } := by
  have hu : toUInt (bb_call a s).2.len = ((bb_call a s).2.len).toNat := by
    unfold toUInt
    omega
  rw [bb_iter_of_appended a s extra hst, if_neg (by omega), if_neg (by omega),
    if_neg (by rw [hca]; simp)]
  unfold bb_iter_rest
  rw [if_neg (by rw [hw]; simp), if_neg (by omega)]
  simp only [hw, hnext, Option.isSome_none, Bool.false_eq_true, if_false,
    newlen_eq _ _ h5000 h0 h20, hu]

/-! ## The block decoder: a decoder that always continues -/

theorem sum_range_le (l : Nat → Nat) (hl : ∀ i, l i ≤ 20) (k : Nat) :
    (∑ j ∈ Finset.range k, l j) ≤ 20 * k := by
  induction k with
  | zero => simp
  | succ n ih =>
    rw [Finset.sum_range_succ]
    have := hl n
    omega

/-- The `(addr, len)` pairs of the first `k` instruction marks of a straight
block whose instructions have the lengths `l 0, l 1, ..`. -/
theorem marks_succ (b : Nat) (l : Nat → Nat) (k : Nat) :
    (List.range (k + 1)).map
        (fun i => ((b + ∑ j ∈ Finset.range i, l j) % 18446744073709551616, l i))
      = (List.range k).map
          (fun i => ((b + ∑ j ∈ Finset.range i, l j) % 18446744073709551616, l i))
        ++ [((b + ∑ j ∈ Finset.range k, l j) % 18446744073709551616, l k)] := by
  rw [List.range_succ, List.map_append]
  rfl

theorem bb_done_imarks (a : BBArgs) (s r : BBState) (body : List IRStmt)
    (hst : s.irbb.stmts = (bb_entry a).irbb.stmts ++ body)
    (h : bb_done a 0 s = .done r) :
    imarks r.irbb.stmts = imarks s.irbb.stmts := by
  obtain ⟨_, _, _, _, _, hcase⟩ := bb_done_done a s r h
  rcases hcase with ⟨_, hr⟩ | ⟨hsc, _, _⟩
  · rw [hr]
  · rw [bb_done_selfcheck_stmts a s r body hsc hst h, hst, bb_entry_stmts, hsc]
    cases a.do_set_NRADDR <;> simp [imarks_append, imarks]

/-- The part after `done` returns unless a self-checking translation is asked
for with more than one extent in use. -/
theorem bb_done_returns (a : BBArgs) (s : BBState)
    (hu : a.do_self_check = true → s.vge.n_used = 1) :
    ∃ r, bb_done a 0 s = .done r := by
  unfold bb_done
  split
  · rename_i hsc
    rw [if_neg (by rw [hu hsc]; simp)]
    exact ⟨_, rfl⟩
  · exact ⟨_, rfl⟩

/-- The round in which the main loop ends. -/
theorem bb_loop_last_round (a : BBArgs) :
    ∀ (fuel : Nat) (s0 s1 : BBState), bb_loop a fuel s0 = .done s1 →
      ∃ k s, k < fuel ∧ bb_rounds a k s0 = some s ∧ bb_iter a s = .leave s1 := by
  intro fuel
  induction fuel with
  | zero =>
    intro s0 s1 h
    cases h
  | succ n ih =>
    intro s0 s1 h
    unfold bb_loop at h
    split at h
    · rename_i s2 heq
      obtain ⟨k, s, hk, hr, hl⟩ := ih s2 s1 h
      refine ⟨k + 1, s, by omega, ?_, hl⟩
      unfold bb_rounds
      rw [heq]
      exact hr
    · rename_i s2 heq
      injection h with h
      subst h
      exact ⟨0, s0, by omega, rfl, heq⟩
    · cases h

/-- A round that does not fail leaves the jump kind as the decoder call left
it. -/
theorem bb_iter_jumpkind (a : BBArgs) (s s1 : BBState)
    (h : bb_iter a s = .again s1 ∨ bb_iter a s = .leave s1) :
    s1.irbb.jumpkind = (bb_call a s).1.jumpkind := by
  have hnf : bb_iter a s ≠ .fatal := by
    rcases h with h | h <;> rw [h] <;> exact Iter.noConfusion
  obtain ⟨_, _, _, _, irbb, _, hjk, _, hrest⟩ := bb_iter_not_fatal a s hnf
  rw [hrest] at h
  rcases h with h | h
  · rw [(bb_iter_rest_again a s s1 irbb _ h).1, hjk]
  · rw [(bb_iter_rest_leave a s s1 irbb _ h).2.2.1, hjk]

/-- C28 (counterexample): with a cap of one instruction and a callback that
writes the jump kind `Ijk_Call` and answers `Dis_Continue`, `bb_to_IR`
terminates the block at the cap, sets `next` to the constant `0x104` and
returns the block with jump kind `Ijk_Call`, not `Ijk_Boring`. -/
theorem forced_termination_jump_kind_not_boring :
    bb_to_IR scenario_call_kind = .done (bb_result scenario_call_kind)
      ∧ (bb_call scenario_call_kind (bb_entry scenario_call_kind)).2.whatNext = .Dis_Continue
      ∧ (bb_result scenario_call_kind).n_instrs
          = scenario_call_kind.vex_control.guest_max_insns
      ∧ (bb_result scenario_call_kind).irbb.next = some (.Const (.U32 260))
      ∧ (bb_result scenario_call_kind).irbb.jumpkind = .Ijk_Call
      ∧ (bb_result scenario_call_kind).irbb.jumpkind ≠ .Ijk_Boring := by
  refine ⟨rfl, rfl, rfl, rfl, rfl, ?_⟩
  decide

/-! ## The block decoder: the rounds before the last -/

/-- The loop run from the start is the loop run from the state reached after
`k` rounds, with `k` rounds less of fuel. -/
theorem bb_rounds_loop (a : BBArgs) :
    ∀ (k : Nat) (s0 s : BBState), bb_rounds a k s0 = some s →
      ∀ f, bb_loop a (k + f) s0 = bb_loop a f s := by
  intro k
  induction k with
  | zero =>
    intro s0 s h f
    injection h with h
    subst h
    rw [Nat.zero_add]
  | succ n ih =>
    intro s0 s h f
    unfold bb_rounds at h
    split at h
    · rename_i s2 heq
      have hfuel : n + 1 + f = (n + f) + 1 := by omega
      rw [hfuel]
      conv_lhs => unfold bb_loop
      rw [heq]
      exact ih s2 s h f
    · cases h

/-- Induction over the rounds that go back to the loop head. -/
theorem bb_rounds_induct (a : BBArgs) (P : Nat → BBState → Prop)
    (hagain : ∀ j s s1, P j s → bb_iter a s = .again s1 → P (j + 1) s1) :
    ∀ (k j : Nat) (s0 s : BBState), P j s0 → bb_rounds a k s0 = some s → P (j + k) s := by
  intro k
  induction k with
  | zero =>
    intro j s0 s hP h
    injection h with h
    subst h
    exact hP
  | succ n ih =>
    intro j s0 s hP h
    unfold bb_rounds at h
    split at h
    · rename_i s2 heq
      have hidx : j + (n + 1) = (j + 1) + n := by omega
      rw [hidx]
      exact ih (j + 1) s2 s (hagain j s0 s2 hP heq) h
    · cases h

/-- The state reached after `k` rounds from the loop entry: `k` instructions
decoded, at least one extent in use. -/
theorem bb_rounds_counts (a : BBArgs) (k : Nat) (s : BBState)
    (h : bb_rounds a k (bb_entry a) = some s) :
    s.n_instrs = k ∧ 1 ≤ s.vge.n_used := by
  have key := bb_rounds_induct a (fun j t => t.n_instrs = j ∧ 1 ≤ t.vge.n_used)
    (fun j t t1 hP hit => by
      obtain ⟨_, hn, _, _, hle, _⟩ := bb_iter_counts a t t1 (Or.inl hit) hP.2
      refine ⟨?_, by omega⟩
      rw [hn, hP.1]
      push_cast
      rfl)
    k 0 (bb_entry a) s ⟨rfl, le_refl _⟩ h
  rw [Nat.zero_add] at key
  exact key

/-- The block reached after `k` rounds from the loop entry, for a decoder that
only appends statements other than instruction marks: `k` marks after the
statements of the entry. -/
theorem bb_rounds_marks (a : BBArgs) (k : Nat) (s : BBState)
    (hwb : AppendsNoIMark a.dis_instr_fn) (h : bb_rounds a k (bb_entry a) = some s) :
    ∃ body, s.irbb.stmts = (bb_entry a).irbb.stmts ++ body ∧ (imarks body).length = k := by
  have key := bb_rounds_induct a
    (fun j t => ∃ body, t.irbb.stmts = (bb_entry a).irbb.stmts ++ body
      ∧ (imarks body).length = j)
    (fun j t t1 hP hit => by
      obtain ⟨body, hst, hcnt⟩ := hP
      obtain ⟨extra, hex, hst1⟩ := bb_iter_stmts a t t1 hwb (Or.inl hit)
      refine ⟨body ++ .IMark (guest_IP_curr_instr a t) ((bb_call a t).2.len).toNat :: extra,
        ?_, ?_⟩
      · rw [hst1, hst, List.append_assoc]
      · rw [imarks_append, imarks, List.length_append, List.length_cons, hex, hcnt]
        rfl)
    k 0 (bb_entry a) s ⟨[], by simp, rfl⟩ h
  rw [Nat.zero_add] at key
  exact key

/-- A round that does not fail keeps the extents below the current one, and
the bases of all extents in use. -/
theorem bb_iter_extents_frame (a : BBArgs) (s s1 : BBState)
    (h : bb_iter a s = .again s1 ∨ bb_iter a s = .leave s1) :
    s.vge.n_used ≤ s1.vge.n_used
      ∧ (∀ i, i < s.vge.n_used - 1 → s1.vge.len i = s.vge.len i)
      ∧ (∀ i, i < s.vge.n_used → s1.vge.base i = s.vge.base i) := by
  have hnf : bb_iter a s ≠ .fatal := by
    rcases h with h | h <;> rw [h] <;> exact Iter.noConfusion
  obtain ⟨_, _, _, _, irbb, _, _, _, hrest⟩ := bb_iter_not_fatal a s hnf
  rw [hrest] at h
  rcases h with h | h
  · obtain ⟨_, _, _, _, hc | hr⟩ := bb_iter_rest_again a s s1 irbb _ h
    · obtain ⟨_, _, _, hnu, hbase, hlen⟩ := hc
      rw [hnu, hbase, hlen]
      refine ⟨le_refl _, fun i hi => ?_, fun i _ => rfl⟩
      unfold store
      rw [if_neg (by omega)]
    · obtain ⟨_, _, _, _, hnu, _, hbase, hlen⟩ := hr
      rw [hnu, hbase, hlen]
      refine ⟨by omega, fun i hi => ?_, fun i hi => ?_⟩
      · unfold store
        rw [if_neg (by omega), if_neg (by omega)]
      · unfold store
        rw [if_neg (by omega)]
  · obtain ⟨_, _, _, _, _, _, hnu, hbase, hlen, _⟩ := bb_iter_rest_leave a s s1 irbb _ h
    rw [hnu, hbase, hlen]
    refine ⟨le_refl _, fun i hi => ?_, fun i _ => rfl⟩
    unfold store
    rw [if_neg (by omega)]

/-- C29: early stop (scenario S2). Let the entry preconditions hold, let `s`
be the state at the head of the main loop after `k` rounds (so the round from
`s` makes invocation number `k + 1` of the callback), let the callback answer
`Dis_StopHere` there with a result that passes the assertions of the round
(`next` set, length in `[0, 20]`), and let a self-checking translation use
one extent. Then `bb_to_IR` returns, the round from `s` leaves the loop, so the
callback was invoked exactly `k + 1` times and there is no round `k + 2`; the
current extent grew by the length of that instruction, all other extents and
the number in use are as before; `next` and the jump kind of the returned
block are what the callback left; and with a callback that only appends
statements other than instruction marks the block has exactly `k + 1` IMarks,
the last one at the address of that instruction with its length. In scenario
S2 the block has the one IMark `(0x100, 2)`, `vge` is the one extent
`(0x100, 2)` and `next` is the constant `0xDEAD`. -/
theorem early_stop (a : BBArgs) (k : Nat) (s : BBState)
    (h1 : 1 ≤ a.vex_control.guest_max_insns) (h100 : a.vex_control.guest_max_insns < 100)
    (ht0 : 0 ≤ a.vex_control.guest_chase_thresh)
    (ht : a.vex_control.guest_chase_thresh < a.vex_control.guest_max_insns)
    (hty : a.guest_word_type = .Ity_I32 ∨ a.guest_word_type = .Ity_I64)
    (hreach : bb_rounds a k (bb_entry a) = some s)
    (hstop : (bb_call a s).2.whatNext = .Dis_StopHere)
    (hok : bb_iter a s ≠ .fatal)
    (hsc : a.do_self_check = true → s.vge.n_used = 1) :
    (∃ r, bb_to_IR a = .done r
      ∧ r.n_instrs = ((k + 1 : Nat) : Int)
      ∧ bb_rounds a (k + 1) (bb_entry a) = none
      ∧ (bb_call a s).1.next.isSome = true
      ∧ r.irbb.next = (bb_call a s).1.next
      ∧ r.irbb.jumpkind = (bb_call a s).1.jumpkind
      ∧ r.vge.n_used = s.vge.n_used ∧ r.vge.base = s.vge.base
      ∧ r.vge.len (s.vge.n_used - 1)
          = s.vge.len (s.vge.n_used - 1) + ((bb_call a s).2.len).toNat
      ∧ (∀ i, i ≠ s.vge.n_used - 1 → r.vge.len i = s.vge.len i)
      ∧ (AppendsNoIMark a.dis_instr_fn →
          (imarks r.irbb.stmts).length = k + 1
          ∧ (imarks r.irbb.stmts).getLast?
              = some (guest_IP_curr_instr a s, ((bb_call a s).2.len).toNat)))
    ∧ (imarks (bb_result scenario_S2).irbb.stmts = [(256, 2)]
      ∧ (bb_result scenario_S2).vge.n_used = 1
      ∧ (bb_result scenario_S2).vge.base 0 = 256
      ∧ (bb_result scenario_S2).vge.len 0 = 2
      ∧ (bb_result scenario_S2).irbb.next = some (.Const (.U32 57005))) := by
  refine ⟨?_, rfl, rfl, rfl, rfl, rfl⟩
  obtain ⟨hlt, hl0, hl20, _, irbb, hnext, hjk, _, hrest⟩ := bb_iter_not_fatal a s hok
  obtain ⟨hcnt, hu1⟩ := bb_rounds_counts a k s hreach
  -- the round from `s` leaves the loop
  obtain ⟨s1, hleave⟩ : ∃ s1, bb_iter a s = .leave s1 := by
    cases hres : bb_iter a s with
    | again s2 =>
      rw [hrest] at hres
      obtain ⟨_, _, _, _, hc | hr⟩ := bb_iter_rest_again a s s2 irbb _ hres
      · rw [hstop] at hc
        exact absurd hc.1 DisWhatNext.noConfusion
      · rw [hstop] at hr
        exact absurd hr.1 DisWhatNext.noConfusion
    | leave s2 => exact ⟨s2, rfl⟩
    | fatal => exact absurd hres hok
  have hleave2 := hleave
  rw [hrest] at hleave2
  obtain ⟨_, _, hjk1, hn1, h5000, _, hnu, hbase, hlen, hcase⟩ :=
    bb_iter_rest_leave a s s1 irbb _ hleave2
  have hcase2 : irbb.next.isSome = true ∧ s1.irbb.next = irbb.next := by
    rcases hcase with ⟨hw, _⟩ | ⟨_, hs, hn⟩
    · rw [hstop] at hw
      cases hw
    · exact ⟨hs, hn⟩
  -- the loop and the whole run
  have hloop : bb_loop a (a.vex_control.guest_max_insns.toNat + 1) (bb_entry a) = .done s1 := by
    obtain ⟨f, hf⟩ : ∃ f, a.vex_control.guest_max_insns.toNat + 1 = k + (f + 1) :=
      ⟨a.vex_control.guest_max_insns.toNat - k, by omega⟩
    rw [hf, bb_rounds_loop a k (bb_entry a) s hreach (f + 1)]
    unfold bb_loop
    rw [hleave]
  obtain ⟨r, hdone⟩ := bb_done_returns a s1 (fun h => by rw [hnu]; exact hsc h)
  obtain ⟨hvge, hni, _, hnx, hjkr, _⟩ := bb_done_done a s1 r hdone
  have hrun : bb_to_IR a = .done r := by
    unfold bb_to_IR
    rw [if_neg (by omega), if_neg (by omega), if_neg (by omega), if_neg (by omega),
      if_neg (by tauto)]
    dsimp only
    rw [hloop]
    have hi : (if a.do_self_check = true then emptyIRBB.stmts.length else 0) = 0 := by
      split <;> rfl
    rw [hi]
    exact hdone
  refine ⟨r, hrun, ?_, ?_, ?_, ?_, ?_, ?_, ?_, ?_, ?_, ?_⟩
  · rw [hni, hn1, hcnt]
    push_cast
    rfl
  · have hk : bb_rounds a (k + 1) (bb_entry a) = none := by
      have key : ∀ (j : Nat) (s0 : BBState), bb_rounds a j s0 = some s →
          bb_rounds a (j + 1) s0 = none := by
        intro j
        induction j with
        | zero =>
          intro s0 h
          injection h with h
          subst h
          unfold bb_rounds
          rw [hleave]
        | succ n ih =>
          intro s0 h
          unfold bb_rounds at h
          split at h
          · rename_i s2 heq
            conv_lhs => unfold bb_rounds
            rw [heq]
            exact ih s2 h
          · cases h
      exact key k (bb_entry a) hreach
    exact hk
  · rw [← hnext]
    exact hcase2.1
  · rw [hnx, hcase2.2, hnext]
  · rw [hjkr, hjk1, hjk]
  · rw [hvge, hnu]
  · rw [hvge, hbase]
  · rw [hvge, hlen, newlen_eq _ _ h5000 hl0 hl20]
    unfold store
    rw [if_pos rfl]
  · intro i hi
    rw [hvge, hlen]
    unfold store
    rw [if_neg hi]
  · intro hwb
    obtain ⟨body, hst, hb⟩ := bb_rounds_marks a k s hwb hreach
    obtain ⟨extra, hex, hst1⟩ := bb_iter_stmts a s s1 hwb (Or.inr hleave)
    have hst2 : s1.irbb.stmts = (bb_entry a).irbb.stmts
        ++ (body ++ .IMark (guest_IP_curr_instr a s) ((bb_call a s).2.len).toNat :: extra) := by
      rw [hst1, hst, List.append_assoc]
    rw [bb_done_imarks a s1 r _ hst2 hdone, hst2]
    simp only [imarks_append, imarks, bb_entry_imarks, hex, List.nil_append]
    constructor
    · rw [List.length_append, hb]
      rfl
    · simp

theorem early_stop_witness :
    (1 ≤ scenario_S2.vex_control.guest_max_insns
      ∧ scenario_S2.vex_control.guest_max_insns < 100
      ∧ 0 ≤ scenario_S2.vex_control.guest_chase_thresh
      ∧ scenario_S2.vex_control.guest_chase_thresh < scenario_S2.vex_control.guest_max_insns
      ∧ (scenario_S2.guest_word_type = .Ity_I32 ∨ scenario_S2.guest_word_type = .Ity_I64)
      ∧ bb_rounds scenario_S2 0 (bb_entry scenario_S2) = some (bb_entry scenario_S2)
      ∧ (bb_call scenario_S2 (bb_entry scenario_S2)).2.whatNext = .Dis_StopHere
      ∧ bb_iter scenario_S2 (bb_entry scenario_S2) ≠ .fatal
      ∧ (scenario_S2.do_self_check = true → (bb_entry scenario_S2).vge.n_used = 1)) ∧
    ((∃ r, bb_to_IR scenario_S2 = .done r
      ∧ r.n_instrs = ((0 + 1 : Nat) : Int)
      ∧ bb_rounds scenario_S2 (0 + 1) (bb_entry scenario_S2) = none
      ∧ (bb_call scenario_S2 (bb_entry scenario_S2)).1.next.isSome = true
      ∧ r.irbb.next = (bb_call scenario_S2 (bb_entry scenario_S2)).1.next
      ∧ r.irbb.jumpkind = (bb_call scenario_S2 (bb_entry scenario_S2)).1.jumpkind
      ∧ r.vge.n_used = (bb_entry scenario_S2).vge.n_used
      ∧ r.vge.base = (bb_entry scenario_S2).vge.base
      ∧ r.vge.len ((bb_entry scenario_S2).vge.n_used - 1)
          = (bb_entry scenario_S2).vge.len ((bb_entry scenario_S2).vge.n_used - 1)
            + ((bb_call scenario_S2 (bb_entry scenario_S2)).2.len).toNat
      ∧ (∀ i, i ≠ (bb_entry scenario_S2).vge.n_used - 1 →
          r.vge.len i = (bb_entry scenario_S2).vge.len i)
      ∧ (AppendsNoIMark scenario_S2.dis_instr_fn →
          (imarks r.irbb.stmts).length = 0 + 1
          ∧ (imarks r.irbb.stmts).getLast?
              = some (guest_IP_curr_instr scenario_S2 (bb_entry scenario_S2),
                  ((bb_call scenario_S2 (bb_entry scenario_S2)).2.len).toNat)))
    ∧ (imarks (bb_result scenario_S2).irbb.stmts = [(256, 2)]
      ∧ (bb_result scenario_S2).vge.n_used = 1
      ∧ (bb_result scenario_S2).vge.base 0 = 256
      ∧ (bb_result scenario_S2).vge.len 0 = 2
      ∧ (bb_result scenario_S2).irbb.next = some (.Const (.U32 57005)))) :=
  ⟨⟨by decide, by decide, by decide, by decide, Or.inl rfl, rfl, rfl,
      fun h => Iter.noConfusion h, fun _ => rfl⟩,
    early_stop scenario_S2 0 (bb_entry scenario_S2) (by decide) (by decide) (by decide)
      (by decide) (Or.inl rfl) rfl rfl (fun h => Iter.noConfusion h) (fun _ => rfl)⟩

/-- The address arithmetic of a resteer: `guest_IP_bbstart + delta` with
`delta = continueAt - guest_IP_bbstart` is `continueAt`, in 64 bits. -/
theorem resteer_address (b A : Nat) (hA : A < 18446744073709551616) :
    toAddr64 ((b : Int) + toLong ((A : Int) - (b : Int))) = A := by
  unfold toAddr64 toLong
  omega

/-- C30: resteer (scenario S3). In every round in which the callback answers
`Dis_Resteer` with `continueAt = A` and length `l` and the round passes its
assertions (among them `resteerOK` and `chase_into_ok(A)`), `bb_to_IR` goes
back to the loop head with the current extent grown by `l`, one more extent
in use (at most three), the new extent `(A, 0)`, and all earlier extents
unchanged; the guest address of the next round, at which it emits the next
IMark, is exactly `A`, for a 64-bit `A`; and whatever
rounds follow leave the extents before the new one as they are. In scenario
S3 the result is `n_used = 2`, `vge = [(0x100, 4), (0x1000, 8)]` and the three
IMarks `(0x100, 4)`, `(0x1000, 4)`, `(0x1004, 4)`. -/
theorem resteer_opens_new_extent (a : BBArgs) (s : BBState)
    (hA : (bb_call a s).2.continueAt < 18446744073709551616)
    (hu : 1 ≤ s.vge.n_used)
    (hres : (bb_call a s).2.whatNext = .Dis_Resteer)
    (hok : bb_iter a s ≠ .fatal) :
    (∃ s1, bb_iter a s = .again s1
      ∧ resteerOK a s = true ∧ a.chase_into_ok (bb_call a s).2.continueAt = true
      ∧ s1.n_instrs = s.n_instrs + 1
      ∧ s1.vge.n_used = s.vge.n_used + 1 ∧ s1.vge.n_used ≤ 3
      ∧ s1.vge.len (s.vge.n_used - 1)
          = s.vge.len (s.vge.n_used - 1) + ((bb_call a s).2.len).toNat
      ∧ s1.vge.base s.vge.n_used = (bb_call a s).2.continueAt
      ∧ s1.vge.len s.vge.n_used = 0
      ∧ (∀ i, i < s.vge.n_used → s1.vge.base i = s.vge.base i)
      ∧ (∀ i, i < s.vge.n_used - 1 → s1.vge.len i = s.vge.len i)
      ∧ s1.delta = toLong (((bb_call a s).2.continueAt : Int) - (a.guest_IP_bbstart : Int))
      ∧ guest_IP_curr_instr a s1 = (bb_call a s).2.continueAt
      ∧ (AppendsNoIMark a.dis_instr_fn → ∀ s2,
          bb_iter a s1 = .again s2 ∨ bb_iter a s1 = .leave s2 →
          ∃ extra, imarks extra = []
            ∧ s2.irbb.stmts = s1.irbb.stmts
              ++ .IMark (bb_call a s).2.continueAt ((bb_call a s1).2.len).toNat :: extra)
      ∧ (∀ j t t1, bb_rounds a j s1 = some t →
          bb_iter a t = .again t1 ∨ bb_iter a t = .leave t1 →
          s1.vge.n_used ≤ t1.vge.n_used
          ∧ ∀ i, i < s.vge.n_used →
              t1.vge.len i = s1.vge.len i ∧ t1.vge.base i = s1.vge.base i))
    ∧ ((bb_result scenario_S3).vge.n_used = 2
      ∧ (bb_result scenario_S3).vge.base 0 = 256 ∧ (bb_result scenario_S3).vge.len 0 = 4
      ∧ (bb_result scenario_S3).vge.base 1 = 4096 ∧ (bb_result scenario_S3).vge.len 1 = 8
      ∧ imarks (bb_result scenario_S3).irbb.stmts = [(256, 4), (4096, 4), (4100, 4)]) := by
  refine ⟨?_, rfl, rfl, rfl, rfl, rfl, rfl⟩
  obtain ⟨hlt, hl0, hl20, _, irbb, hnext, hjk, _, hrest⟩ := bb_iter_not_fatal a s hok
  obtain ⟨s1, hagain⟩ : ∃ s1, bb_iter a s = .again s1 := by
    cases hr : bb_iter a s with
    | again s2 => exact ⟨s2, rfl⟩
    | leave s2 =>
      rw [hrest] at hr
      obtain ⟨_, _, _, _, _, _, _, _, _, hc | hc⟩ := bb_iter_rest_leave a s s2 irbb _ hr
      · rw [hres] at hc
        exact absurd hc.1 DisWhatNext.noConfusion
      · rw [hres] at hc
        exact absurd hc.1 DisWhatNext.noConfusion
    | fatal => exact absurd hr hok
  have hagain2 := hagain
  rw [hrest] at hagain2
  obtain ⟨_, hni, h5000, _, hc | hr⟩ := bb_iter_rest_again a s s1 irbb _ hagain2
  · rw [hres] at hc
    exact absurd hc.1 DisWhatNext.noConfusion
  obtain ⟨_, hrok, hrfn, hdelta, hnu, h3, hbase, hlen⟩ := hr
  have hcurr : guest_IP_curr_instr a s1 = (bb_call a s).2.continueAt := by
    unfold guest_IP_curr_instr
    rw [hdelta]
    exact resteer_address _ _ hA
  have hframe : ∀ (j : Nat) (t : BBState), bb_rounds a j s1 = some t →
      s1.vge.n_used ≤ t.vge.n_used
        ∧ ∀ i, i < s.vge.n_used → t.vge.len i = s1.vge.len i ∧ t.vge.base i = s1.vge.base i := by
    intro j t hj
    have key := bb_rounds_induct a
      (fun _ t => s1.vge.n_used ≤ t.vge.n_used
        ∧ ∀ i, i < s.vge.n_used → t.vge.len i = s1.vge.len i ∧ t.vge.base i = s1.vge.base i)
      (fun _ t t1 hP hit => by
        obtain ⟨f1, f2, f3⟩ := bb_iter_extents_frame a t t1 (Or.inl hit)
        refine ⟨by omega, fun i hi => ?_⟩
        rw [f2 i (by omega), f3 i (by omega)]
        exact hP.2 i hi)
      j 0 s1 t ⟨le_refl _, fun _ _ => ⟨rfl, rfl⟩⟩ hj
    exact key
  refine ⟨s1, hagain, hrok, ?_, hni, hnu, by omega, ?_, ?_, ?_, ?_, ?_, hdelta, hcurr, ?_, ?_⟩
  · unfold resteerOKfn at hrfn
    rw [if_pos hrok] at hrfn
    exact hrfn
  · rw [hlen, newlen_eq _ _ h5000 hl0 hl20]
    unfold store
    rw [if_neg (by omega), if_pos rfl]
  · rw [hbase]
    unfold store
    rw [if_pos rfl]
  · rw [hlen]
    unfold store
    rw [if_pos rfl]
  · intro i hi
    rw [hbase]
    unfold store
    rw [if_neg (by omega)]
  · intro i hi
    rw [hlen]
    unfold store
    rw [if_neg (by omega), if_neg (by omega)]
  · intro hwb s2 h2
    obtain ⟨extra, hex, hst⟩ := bb_iter_stmts a s1 s2 hwb h2
    rw [hcurr] at hst
    exact ⟨extra, hex, hst⟩
  · intro j t t1 hj hit
    obtain ⟨g1, g2⟩ := hframe j t hj
    obtain ⟨f1, f2, f3⟩ := bb_iter_extents_frame a t t1 hit
    refine ⟨by omega, fun i hi => ?_⟩
    rw [f2 i (by omega), f3 i (by omega)]
    exact g2 i hi

theorem resteer_opens_new_extent_witness :
    ((bb_call scenario_S3 (bb_entry scenario_S3)).2.continueAt < 18446744073709551616
      ∧ 1 ≤ (bb_entry scenario_S3).vge.n_used
      ∧ (bb_call scenario_S3 (bb_entry scenario_S3)).2.whatNext = .Dis_Resteer
      ∧ bb_iter scenario_S3 (bb_entry scenario_S3) ≠ .fatal) ∧
    ((∃ s1, bb_iter scenario_S3 (bb_entry scenario_S3) = .again s1
      ∧ resteerOK scenario_S3 (bb_entry scenario_S3) = true
      ∧ scenario_S3.chase_into_ok
          (bb_call scenario_S3 (bb_entry scenario_S3)).2.continueAt = true
      ∧ s1.n_instrs = (bb_entry scenario_S3).n_instrs + 1
      ∧ s1.vge.n_used = (bb_entry scenario_S3).vge.n_used + 1 ∧ s1.vge.n_used ≤ 3
      ∧ s1.vge.len ((bb_entry scenario_S3).vge.n_used - 1)
          = (bb_entry scenario_S3).vge.len ((bb_entry scenario_S3).vge.n_used - 1)
            + ((bb_call scenario_S3 (bb_entry scenario_S3)).2.len).toNat
      ∧ s1.vge.base (bb_entry scenario_S3).vge.n_used
          = (bb_call scenario_S3 (bb_entry scenario_S3)).2.continueAt
      ∧ s1.vge.len (bb_entry scenario_S3).vge.n_used = 0
      ∧ (∀ i, i < (bb_entry scenario_S3).vge.n_used →
          s1.vge.base i = (bb_entry scenario_S3).vge.base i)
      ∧ (∀ i, i < (bb_entry scenario_S3).vge.n_used - 1 →
          s1.vge.len i = (bb_entry scenario_S3).vge.len i)
      ∧ s1.delta = toLong (((bb_call scenario_S3 (bb_entry scenario_S3)).2.continueAt : Int)
          - (scenario_S3.guest_IP_bbstart : Int))
      ∧ guest_IP_curr_instr scenario_S3 s1
          = (bb_call scenario_S3 (bb_entry scenario_S3)).2.continueAt
      ∧ (AppendsNoIMark scenario_S3.dis_instr_fn → ∀ s2,
          bb_iter scenario_S3 s1 = .again s2 ∨ bb_iter scenario_S3 s1 = .leave s2 →
          ∃ extra, imarks extra = []
            ∧ s2.irbb.stmts = s1.irbb.stmts
              ++ .IMark (bb_call scenario_S3 (bb_entry scenario_S3)).2.continueAt
                  ((bb_call scenario_S3 s1).2.len).toNat :: extra)
      ∧ (∀ j t t1, bb_rounds scenario_S3 j s1 = some t →
          bb_iter scenario_S3 t = .again t1 ∨ bb_iter scenario_S3 t = .leave t1 →
          s1.vge.n_used ≤ t1.vge.n_used
          ∧ ∀ i, i < (bb_entry scenario_S3).vge.n_used →
              t1.vge.len i = s1.vge.len i ∧ t1.vge.base i = s1.vge.base i))
    ∧ ((bb_result scenario_S3).vge.n_used = 2
      ∧ (bb_result scenario_S3).vge.base 0 = 256 ∧ (bb_result scenario_S3).vge.len 0 = 4
      ∧ (bb_result scenario_S3).vge.base 1 = 4096 ∧ (bb_result scenario_S3).vge.len 1 = 8
      ∧ imarks (bb_result scenario_S3).irbb.stmts = [(256, 4), (4096, 4), (4100, 4)])) :=
  ⟨⟨by decide, by decide, rfl, fun h => Iter.noConfusion h⟩,
    resteer_opens_new_extent scenario_S3 (bb_entry scenario_S3) (by decide) (by decide)
      rfl (fun h => Iter.noConfusion h)⟩

/-! ## The checksum: refinement and absence of wrap -/

/-- C33: for every 32-bit `argL`, `argR` and every `dep3`, bit 29 (C) of
`armg_calculate_flags_nzcv(ADD, argL, argR, dep3)`, computed as `res < argL`
with `res = (argL + argR) mod 2^32`, is 1 exactly when the exact sum
`argL + argR` is at least `2^32`; N (bit 31) is bit 31 of `res` and Z (bit 30)
is `res == 0`. -/
theorem add_carry_is_true_carry (argL argR dep3 : Nat)
    (hL : argL < 4294967296) (hR : argR < 4294967296) :
    ∃ r, armg_calculate_flags_nzcv ARMG_CC_OP_ADD argL argR dep3 = some r
      ∧ bitOf r 29 = b2u (decide ((argL + argR) % 4294967296 < argL))
      ∧ (bitOf r 29 = 1 ↔ 4294967296 ≤ argL + argR)
      ∧ (bitOf r 29 = 0 ↔ argL + argR < 4294967296)
      ∧ bitOf r 31 = bitOf ((argL + argR) % 4294967296) 31
      ∧ bitOf r 30 = b2u (decide ((argL + argR) % 4294967296 = 0)) := by
  have hres : add32 argL argR = (argL + argR) % 4294967296 := rfl
  have hlt : (argL + argR) % 4294967296 < 4294967296 := Nat.mod_lt _ (by decide)
  have hc : bitOf (pack (decide (2147483648 ≤ add32 argL argR)) (add32 argL argR == 0)
      (decide (add32 argL argR < argL))
      ((xor (decide (2147483648 ≤ add32 argL argR)) (decide (2147483648 ≤ argL)))
        && (xor (decide (2147483648 ≤ add32 argL argR)) (decide (2147483648 ≤ argR))))) 29
      = b2u (decide ((argL + argR) % 4294967296 < argL)) := by
    rw [bitOf_pack_C, hres]
  refine ⟨_, nzcv_ADD argL argR dep3 hL hR, hc, ?_, ?_, ?_, ?_⟩
  · rw [hc, b2u_eq_one, decide_eq_true_eq]
    omega
  · rw [hc]
    by_cases h : (argL + argR) % 4294967296 < argL
    · simp only [h, decide_True, b2u]
      constructor
      · intro h0
        cases h0
      · intro h1
        omega
    · simp only [h, decide_False, b2u]
      constructor
      · intro _
        omega
      · intro _
        trivial
  · rw [bitOf_pack_N, bitOf_31 _ hlt, hres]
  · rw [bitOf_pack_Z, hres]
    congr 1

theorem add_carry_is_true_carry_witness :
    (4294967295 < 4294967296 ∧ 1 < 4294967296) ∧
    ∃ r, armg_calculate_flags_nzcv ARMG_CC_OP_ADD 4294967295 1 0 = some r
      ∧ bitOf r 29 = b2u (decide ((4294967295 + 1) % 4294967296 < 4294967295))
      ∧ (bitOf r 29 = 1 ↔ 4294967296 ≤ 4294967295 + 1)
      ∧ (bitOf r 29 = 0 ↔ 4294967295 + 1 < 4294967296)
      ∧ bitOf r 31 = bitOf ((4294967295 + 1) % 4294967296) 31
      ∧ bitOf r 30 = b2u (decide ((4294967295 + 1) % 4294967296 = 0)) :=
  ⟨⟨by decide, by decide⟩,
    add_carry_is_true_carry 4294967295 1 0 (by decide) (by decide)⟩

/-- C34: for every byte sequence of every length, the four-way unrolled loop
followed by the one-byte tail loop computes the same two sums as the one-byte
loop alone, from any starting sums, so `genericg_compute_adler32` returns the
same value as the one-byte-at-a-time reference fold; for the empty region the
result is 1. -/
theorem adler32_unrolled_eq_reference (bs : List Nat) :
    (∀ s1 s2, adler32_loop1 (adler32_loop4 bs s1 s2).2.2 (adler32_loop4 bs s1 s2).1
        (adler32_loop4 bs s1 s2).2.1 = adler32_loop1 bs s1 s2)
    ∧ adler32_loop1 bs 1 0 = adler32_spec_sums bs
    ∧ genericg_compute_adler32 bs = adler32_reference bs
    ∧ genericg_compute_adler32 [] = 1
    ∧ adler32_reference [] = 1 := by
  refine ⟨fun s1 s2 => adler32_loop4_then_loop1 bs s1 s2, ?_, ?_, rfl, rfl⟩
  · rw [adler32_loop1_eq_fold]
    rfl
  · rw [adler32_eq_spec]
    rfl

/-- The running sums from sums that are within the bounds reached after `k`
bytes: with at most 5552 bytes in all, the 32-bit sums are the exact sums. -/
theorem adler32_fold_exact (bs : List Nat) :
    ∀ (s1 s2 k : Nat), s1 ≤ 1 + 255 * k → 2 * s2 ≤ 2 * k + 255 * (k * (k + 1)) →
      k + bs.length ≤ 5552 → (∀ x ∈ bs, x < 256) →
      bs.foldl
          (fun s b => ((s.1 + b) % 4294967296, (s.2 + (s.1 + b) % 4294967296) % 4294967296))
          (s1, s2)
        = bs.foldl (fun s b => (s.1 + b, s.2 + (s.1 + b))) (s1, s2)
      ∧ (bs.foldl (fun s b => (s.1 + b, s.2 + (s.1 + b))) (s1, s2)).1
          ≤ 1 + 255 * (k + bs.length)
      ∧ 2 * (bs.foldl (fun s b => (s.1 + b, s.2 + (s.1 + b))) (s1, s2)).2
          ≤ 2 * (k + bs.length) + 255 * ((k + bs.length) * (k + bs.length + 1)) := by
  induction bs with
  | nil =>
    intro s1 s2 k h1 h2 _ _
    exact ⟨rfl, h1, h2⟩
  | cons b rest ih =>
    intro s1 s2 k h1 h2 hlen hb
    rw [List.length_cons] at hlen
    have hb0 : b < 256 := hb b (List.mem_cons_self _ _)
    have hk : (k + 1) * (k + 1 + 1) = k * (k + 1) + 2 * (k + 1) := by ring
    have hmul : (k + 1) * (k + 1 + 1) ≤ 5552 * 5553 :=
      Nat.mul_le_mul (by omega) (by omega)
    have g1 : s1 + b ≤ 1 + 255 * (k + 1) := by omega
    have g2 : 2 * (s2 + (s1 + b)) ≤ 2 * (k + 1) + 255 * ((k + 1) * (k + 1 + 1)) := by
      rw [hk]
      omega
    have e1 : (s1 + b) % 4294967296 = s1 + b := Nat.mod_eq_of_lt (by omega)
    have e2 : (s2 + (s1 + b)) % 4294967296 = s2 + (s1 + b) := Nat.mod_eq_of_lt (by omega)
    obtain ⟨i1, i2, i3⟩ := ih (s1 + b) (s2 + (s1 + b)) (k + 1) g1 g2 (by omega)
      (fun x hx => hb x (List.mem_cons_of_mem _ hx))
    have hidx : k + 1 + rest.length = k + (rest.length + 1) := by omega
    rw [hidx] at i2 i3
    simp only [List.foldl_cons, List.length_cons, e1, e2]
    exact ⟨i1, i2, i3⟩

/-- The exact sums: `s1` is 1 plus the sum of the bytes, from any start. -/
theorem adler32_exact_fst (bs : List Nat) (s1 s2 : Nat) :
    (bs.foldl (fun s b => (s.1 + b, s.2 + (s.1 + b))) (s1, s2)).1 = s1 + bs.sum := by
  induction bs generalizing s1 s2 with
  | nil => simp
  | cons b rest ih =>
    rw [List.foldl_cons, ih, List.sum_cons]
    omega

/-- The exact sums: `s2` is the sum of the successive values of `s1`. -/
theorem adler32_exact_snd (bs : List Nat) (s1 s2 : Nat) :
    (bs.foldl (fun s b => (s.1 + b, s.2 + (s.1 + b))) (s1, s2)).2
      = s2 + ∑ i ∈ Finset.range bs.length, (s1 + (bs.take (i + 1)).sum) := by
  induction bs generalizing s1 s2 with
  | nil => simp
  | cons b rest ih =>
    rw [List.foldl_cons, ih, List.length_cons, Finset.sum_range_succ']
    simp only [List.take_succ_cons, List.sum_cons, List.take_zero, List.sum_nil]
    have hsum : ∑ i ∈ Finset.range rest.length, (s1 + b + (List.take (i + 1) rest).sum)
        = ∑ i ∈ Finset.range rest.length, (s1 + (b + (List.take (i + 1) rest).sum)) := by
      apply Finset.sum_congr rfl
      intro i _
      omega
    rw [hsum]
    omega

/-! ## The block decoder: bounds that hold for every decoder -/

/-- What a round that does not fail does to the number of extents: a resteer,
accepted only when `resteerOK`, adds one; any other round keeps it. -/
theorem bb_iter_resteers (a : BBArgs) (s s1 : BBState)
    (h : bb_iter a s = .again s1 ∨ bb_iter a s = .leave s1) :
    ((bb_call a s).2.whatNext ≠ .Dis_Resteer ∧ s1.vge.n_used = s.vge.n_used)
      ∨ ((bb_call a s).2.whatNext = .Dis_Resteer ∧ s1.vge.n_used = s.vge.n_used + 1
          ∧ resteerOK a s = true ∧ a.chase_into_ok (bb_call a s).2.continueAt = true
          ∧ bb_iter a s = .again s1) := by
  have hnf : bb_iter a s ≠ .fatal := by
    rcases h with h | h <;> rw [h] <;> exact Iter.noConfusion
  obtain ⟨_, _, _, _, irbb, _, _, _, hrest⟩ := bb_iter_not_fatal a s hnf
  rcases h with h | h
  · have h2 := h
    rw [hrest] at h2
    obtain ⟨_, _, _, _, hc | hr⟩ := bb_iter_rest_again a s s1 irbb _ h2
    · left
      refine ⟨?_, hc.2.2.2.1⟩
      rw [hc.1]
      exact DisWhatNext.noConfusion
    · right
      obtain ⟨hw, hok, hfn, _, hnu, _⟩ := hr
      refine ⟨hw, hnu, hok, ?_, h⟩
      unfold resteerOKfn at hfn
      rw [if_pos hok] at hfn
      exact hfn
  · rw [hrest] at h
    obtain ⟨_, _, _, _, _, _, hnu, _, _, hc | hc⟩ := bb_iter_rest_leave a s s1 irbb _ h
    · left
      refine ⟨?_, hnu⟩
      rw [hc.1]
      exact DisWhatNext.noConfusion
    · left
      refine ⟨?_, hnu⟩
      rw [hc.1]
      exact DisWhatNext.noConfusion

theorem extentLenSum_ge (len : Nat → Nat) (n i : Nat) (h : i < n) :
    len i ≤ extentLenSum len n := by
  induction n with
  | zero => omega
  | succ m ih =>
    rw [extentLenSum]
    by_cases hi : i = m
    · subst hi
      omega
    · have := ih (by omega)
      omega

/-- What `resteerOK` says of the state. -/
theorem resteerOK_iff (a : BBArgs) (s : BBState) :
    resteerOK a s = true
      ↔ (s.n_instrs < a.vex_control.guest_chase_thresh ∧ a.do_self_check = false
          ∧ s.vge.n_used < 3) := by
  unfold resteerOK
  cases a.do_self_check <;> simp

/-- The invariant of the loop head, for any decoder: under
`0 <= guest_chase_thresh < guest_max_insns`, the state reached after `k`
rounds has decoded `k < guest_max_insns` instructions, uses between one and
three extents, has made at most `min(k, guest_chase_thresh)` resteers, and its
extents are at most `20 * k` bytes long in all. -/
theorem bb_rounds_bounds (a : BBArgs)
    (h1 : 1 ≤ a.vex_control.guest_max_insns)
    (ht0 : 0 ≤ a.vex_control.guest_chase_thresh)
    (ht : a.vex_control.guest_chase_thresh < a.vex_control.guest_max_insns)
    (k : Nat) (s : BBState) (h : bb_rounds a k (bb_entry a) = some s) :
    s.n_instrs = k ∧ s.n_instrs < a.vex_control.guest_max_insns
      ∧ 1 ≤ s.vge.n_used ∧ s.vge.n_used ≤ 3
      ∧ (s.vge.n_used : Int) - 1 ≤ s.n_instrs
      ∧ (s.vge.n_used : Int) - 1 ≤ a.vex_control.guest_chase_thresh
      ∧ extentLenSum s.vge.len s.vge.n_used ≤ 20 * k := by
  have key := bb_rounds_induct a
    (fun j t => t.n_instrs = j ∧ t.n_instrs < a.vex_control.guest_max_insns
      ∧ 1 ≤ t.vge.n_used ∧ t.vge.n_used ≤ 3
      ∧ (t.vge.n_used : Int) - 1 ≤ t.n_instrs
      ∧ (t.vge.n_used : Int) - 1 ≤ a.vex_control.guest_chase_thresh
      ∧ extentLenSum t.vge.len t.vge.n_used ≤ 20 * j)
    (fun j t t1 hP hit => by
      obtain ⟨p1, p2, p3, p4, p5, p6, p7⟩ := hP
      obtain ⟨_, hn, hl0, hl20, _, h3, hsum, hcap⟩ := bb_iter_counts a t t1 (Or.inl hit) p3
      have hcap2 := hcap hit
      have hidx : t1.n_instrs = ((j + 1 : Nat) : Int) := by
        rw [hn, p1]
        push_cast
        rfl
      rcases bb_iter_resteers a t t1 (Or.inl hit) with ⟨_, hnu⟩ | ⟨_, hnu, hok, _, _⟩
      · exact ⟨hidx, by omega, by omega, by omega, by omega, by omega, by omega⟩
      · rw [resteerOK_iff] at hok
        exact ⟨hidx, by omega, by omega, by omega, by omega, by omega, by omega⟩)
    k 0 (bb_entry a) s
    ⟨rfl, h1, le_refl _, by show 1 ≤ 3; decide, by show ((1 : Nat) : Int) - 1 ≤ 0; decide,
      by show ((1 : Nat) : Int) - 1 ≤ _; omega,
      by show extentLenSum _ 1 ≤ 20 * 0; simp [extentLenSum, bb_entry, store]⟩ h
  rw [Nat.zero_add] at key
  exact key

/-- The main loop does not run out of rounds: from a loop-head state with
fewer than `guest_max_insns` instructions decoded, as many rounds as there are
instructions left are enough. -/
theorem bb_loop_no_timeout (a : BBArgs)
    (ht : a.vex_control.guest_chase_thresh < a.vex_control.guest_max_insns) :
    ∀ (f : Nat) (s : BBState), s.n_instrs < a.vex_control.guest_max_insns →
      1 ≤ s.vge.n_used → a.vex_control.guest_max_insns ≤ s.n_instrs + f →
      bb_loop a f s ≠ .timeout := by
  intro f
  induction f with
  | zero =>
    intro s hlt _ hf
    omega
  | succ n ih =>
    intro s hlt hu hf
    unfold bb_loop
    split
    · rename_i s1 heq
      obtain ⟨_, hn, _, _, hle, _, _, hcap⟩ := bb_iter_counts a s s1 (Or.inl heq) hu
      have hcap2 := hcap heq
      exact ih s1 (by omega) (by omega) (by omega)
    · exact Run.noConfusion
    · exact Run.noConfusion

/-- Under the entry preconditions `bb_to_IR` is its main loop followed by
the part after `done`. -/
theorem bb_to_IR_eq (a : BBArgs)
    (h1 : 1 ≤ a.vex_control.guest_max_insns) (h100 : a.vex_control.guest_max_insns < 100)
    (ht0 : 0 ≤ a.vex_control.guest_chase_thresh)
    (ht : a.vex_control.guest_chase_thresh < a.vex_control.guest_max_insns)
    (hty : a.guest_word_type = .Ity_I32 ∨ a.guest_word_type = .Ity_I64) :
    bb_to_IR a =
      match bb_loop a (a.vex_control.guest_max_insns.toNat + 1) (bb_entry a) with
      | .done s => bb_done a 0 s
      | .fatal => .fatal
      | .timeout => .timeout := by
  unfold bb_to_IR
  rw [if_neg (by omega), if_neg (by omega), if_neg (by omega), if_neg (by omega),
    if_neg (by tauto)]
  have hi : (if a.do_self_check = true then emptyIRBB.stmts.length else 0) = 0 := by
    split <;> rfl
  dsimp only
  first
    | (rw [hi]; done)
    | (rw [hi]; cases bb_loop a (a.vex_control.guest_max_insns.toNat + 1) (bb_entry a) <;> rfl)

/-- A round that fails, at a state the loop reaches, makes `bb_to_IR` fail. -/
theorem bb_to_IR_fatal_of_round (a : BBArgs)
    (h1 : 1 ≤ a.vex_control.guest_max_insns) (h100 : a.vex_control.guest_max_insns < 100)
    (ht0 : 0 ≤ a.vex_control.guest_chase_thresh)
    (ht : a.vex_control.guest_chase_thresh < a.vex_control.guest_max_insns)
    (hty : a.guest_word_type = .Ity_I32 ∨ a.guest_word_type = .Ity_I64)
    (k : Nat) (s : BBState) (hreach : bb_rounds a k (bb_entry a) = some s)
    (hf : bb_iter a s = .fatal) : bb_to_IR a = .fatal := by
  obtain ⟨hk, hlt, _⟩ := bb_rounds_bounds a h1 ht0 ht k s hreach
  obtain ⟨f, hfuel⟩ : ∃ f, a.vex_control.guest_max_insns.toNat + 1 = k + (f + 1) :=
    ⟨a.vex_control.guest_max_insns.toNat - k, by omega⟩
  rw [bb_to_IR_eq a h1 h100 ht0 ht hty, hfuel, bb_rounds_loop a k (bb_entry a) s hreach (f + 1)]
  unfold bb_loop
  rw [hf]

/-- The bounds on a run that returns, for any decoder: the extents in use are
at most `20 * n_instrs` bytes long in all, and at most
`min(guest_chase_thresh, 2)` resteers were made. -/
theorem bb_to_IR_bounds (a : BBArgs) (r : BBState) (h : bb_to_IR a = .done r) :
    r.n_instrs ≤ a.vex_control.guest_max_insns
      ∧ 1 ≤ r.vge.n_used ∧ r.vge.n_used ≤ 3
      ∧ (r.vge.n_used : Int) - 1 ≤ a.vex_control.guest_chase_thresh
      ∧ (extentLenSum r.vge.len r.vge.n_used : Int) ≤ 20 * r.n_instrs := by
  obtain ⟨⟨h1, _, ht0, ht, _⟩, s1, hloop, hdone⟩ := bb_to_IR_done a r h
  obtain ⟨hvge, hni, _⟩ := bb_done_done a s1 r hdone
  obtain ⟨k, s, _, hreach, hleave⟩ := bb_loop_last_round a _ _ _ hloop
  obtain ⟨p1, p2, p3, p4, p5, p6, p7⟩ := bb_rounds_bounds a h1 ht0 ht k s hreach
  obtain ⟨_, hn, hl0, hl20, _, h3, hsum, _⟩ := bb_iter_counts a s s1 (Or.inr hleave) p3
  rw [hvge, hni]
  rcases bb_iter_resteers a s s1 (Or.inr hleave) with ⟨_, hnu⟩ | ⟨_, _, _, _, hag⟩
  · rw [hsum, hnu]
    refine ⟨by omega, by omega, by omega, by omega, ?_⟩
    push_cast
    omega
  · rw [hleave] at hag
    cases hag

/-- C35: for every byte region of at most 5552 bytes the running sums of
`genericg_compute_adler32` never wrap: after every initial part of the region the
32-bit sums `s1` and `s2` are the exact sums, both below `2^32`, with
`s1 = 1 + sum of the bytes` and `s2 = sum of the successive values of s1`; the
sums the two loops of the code end with are the exact sums of the region, and
the result is `(s2 << 16) + s1` modulo `2^32` of the exact sums. The region a
self-checking `bb_to_IR` passes has `max(1, vge.len[0]) <= 1980` bytes. -/
theorem adler32_sums_never_wrap (bs : List Nat)
    (hlen : bs.length ≤ 5552) (hb : ∀ x ∈ bs, x < 256) :
    (∀ n, adler32_spec_sums (bs.take n) = adler32_exact_sums (bs.take n)
        ∧ (adler32_exact_sums (bs.take n)).1 = 1 + (bs.take n).sum
        ∧ (adler32_exact_sums (bs.take n)).2
            = ∑ i ∈ Finset.range (bs.take n).length, (1 + ((bs.take n).take (i + 1)).sum)
        ∧ (adler32_exact_sums (bs.take n)).1 < 4294967296
        ∧ (adler32_exact_sums (bs.take n)).2 < 4294967296)
    ∧ adler32_loop1 (adler32_loop4 bs 1 0).2.2 (adler32_loop4 bs 1 0).1
        (adler32_loop4 bs 1 0).2.1 = adler32_exact_sums bs
    ∧ genericg_compute_adler32 bs
        = (((adler32_exact_sums bs).2 <<< 16) + (adler32_exact_sums bs).1) % 4294967296
    ∧ (∀ (a : BBArgs) (r : BBState), bb_to_IR a = .done r →
        max 1 (r.vge.len 0) ≤ 1980 ∧ 1980 ≤ 5552) := by
  have hall : ∀ cs : List Nat, cs.length ≤ 5552 → (∀ x ∈ cs, x < 256) →
      adler32_spec_sums cs = adler32_exact_sums cs
        ∧ (adler32_exact_sums cs).1 < 4294967296
        ∧ (adler32_exact_sums cs).2 < 4294967296 := by
    intro cs hc hcb
    obtain ⟨e, b1, b2⟩ := adler32_fold_exact cs 1 0 0 (by omega) (by omega) (by omega) hcb
    have hmul : (0 + cs.length) * (0 + cs.length + 1) ≤ 5552 * 5553 :=
      Nat.mul_le_mul (by omega) (by omega)
    refine ⟨e, ?_, ?_⟩
    · unfold adler32_exact_sums
      omega
    · unfold adler32_exact_sums
      omega
  have hwhole := hall bs hlen hb
  refine ⟨fun n => ?_, ?_, ?_, ?_⟩
  · have hp := hall (bs.take n)
      (by rw [List.length_take]; omega)
      (fun x hx => hb x (List.mem_of_mem_take hx))
    refine ⟨hp.1, ?_, ?_, hp.2.1, hp.2.2⟩
    · exact adler32_exact_fst _ 1 0
    · unfold adler32_exact_sums
      rw [adler32_exact_snd, Nat.zero_add]
  · rw [adler32_loop4_then_loop1, adler32_loop1_eq_fold, ← hwhole.1]
    rfl
  · rw [adler32_eq_spec, hwhole.1]
  · intro a r h
    obtain ⟨hmax, hu, _, _, hsum⟩ := bb_to_IR_bounds a r h
    obtain ⟨⟨_, h100, _⟩, _⟩ := bb_to_IR_done a r h
    have h0 := extentLenSum_ge r.vge.len r.vge.n_used 0 (by omega)
    refine ⟨?_, by decide⟩
    rw [Nat.max_le]
    constructor
    · decide
    · omega

theorem adler32_sums_never_wrap_witness :
    ([1, 2, 3, 4, 5].length ≤ 5552 ∧ ∀ x ∈ [1, 2, 3, 4, 5], x < 256) ∧
    ((∀ n, adler32_spec_sums ([1, 2, 3, 4, 5].take n) = adler32_exact_sums ([1, 2, 3, 4, 5].take n)
        ∧ (adler32_exact_sums ([1, 2, 3, 4, 5].take n)).1 = 1 + ([1, 2, 3, 4, 5].take n).sum
        ∧ (adler32_exact_sums ([1, 2, 3, 4, 5].take n)).2
            = ∑ i ∈ Finset.range ([1, 2, 3, 4, 5].take n).length,
                (1 + (([1, 2, 3, 4, 5].take n).take (i + 1)).sum)
        ∧ (adler32_exact_sums ([1, 2, 3, 4, 5].take n)).1 < 4294967296
        ∧ (adler32_exact_sums ([1, 2, 3, 4, 5].take n)).2 < 4294967296)
    ∧ adler32_loop1 (adler32_loop4 [1, 2, 3, 4, 5] 1 0).2.2 (adler32_loop4 [1, 2, 3, 4, 5] 1 0).1
        (adler32_loop4 [1, 2, 3, 4, 5] 1 0).2.1 = adler32_exact_sums [1, 2, 3, 4, 5]
    ∧ genericg_compute_adler32 [1, 2, 3, 4, 5]
        = (((adler32_exact_sums [1, 2, 3, 4, 5]).2 <<< 16)
            + (adler32_exact_sums [1, 2, 3, 4, 5]).1) % 4294967296
    ∧ (∀ (a : BBArgs) (r : BBState), bb_to_IR a = .done r →
        max 1 (r.vge.len 0) ≤ 1980 ∧ 1980 ≤ 5552)) :=
  ⟨⟨by decide, by decide⟩, adler32_sums_never_wrap [1, 2, 3, 4, 5] (by decide) (by decide)⟩

/-- C31: in every round of the main loop the predicate handed to the callback
is `resteerOKfn`, which is `chase_into_ok` when `n_instrs < guest_chase_thresh`
and not `do_self_check` and `vge.n_used < 3`, and otherwise `const_False`,
which returns false for every address. When `do_self_check` is true or
`guest_chase_thresh` is 0, the callback is given `const_False` in every round
the loop reaches, and every run that returns has `vge.n_used = 1`. -/
theorem resteer_predicate (a : BBArgs) (s : BBState) :
    bb_call a s = a.dis_instr_fn (addStmtToIRBB s.irbb (.IMark (guest_IP_curr_instr a s) 0))
        (decide (s.n_instrs > 0)) (resteerOKfn a s) a.guest_code s.delta
        (guest_IP_curr_instr a s) a.archinfo_guest a.host_bigendian
    ∧ ((s.n_instrs < a.vex_control.guest_chase_thresh ∧ a.do_self_check = false
          ∧ s.vge.n_used < 3) → resteerOKfn a s = a.chase_into_ok)
    ∧ (¬ (s.n_instrs < a.vex_control.guest_chase_thresh ∧ a.do_self_check = false
          ∧ s.vge.n_used < 3) → resteerOKfn a s = const_False)
    ∧ (∀ x, const_False x = false)
    ∧ (a.do_self_check = true ∨ a.vex_control.guest_chase_thresh = 0 →
        (∀ k t, bb_rounds a k (bb_entry a) = some t →
          resteerOKfn a t = const_False ∧ t.vge.n_used = 1)
        ∧ (∀ r, bb_to_IR a = .done r → r.vge.n_used = 1)) := by
  have hfn : ∀ t : BBState, resteerOKfn a t
      = if resteerOK a t = true then a.chase_into_ok else const_False := fun _ => rfl
  refine ⟨rfl, ?_, ?_, fun _ => rfl, ?_⟩
  · intro h
    rw [hfn, if_pos ((resteerOK_iff a s).2 h)]
  · intro h
    rw [hfn, if_neg (fun hok => h ((resteerOK_iff a s).1 hok))]
  · intro hcase
    have hoff : ∀ t : BBState, 0 ≤ t.n_instrs → ¬ (resteerOK a t = true) := by
      intro t h0 hok
      rw [resteerOK_iff] at hok
      rcases hcase with hsc | hth
      · rw [hsc] at hok
        exact Bool.noConfusion hok.2.1
      · omega
    have hinv : ∀ k t, bb_rounds a k (bb_entry a) = some t →
        0 ≤ t.n_instrs ∧ t.vge.n_used = 1 := by
      intro k t hr
      have key := bb_rounds_induct a (fun _ u => 0 ≤ u.n_instrs ∧ u.vge.n_used = 1)
        (fun _ u u1 hP hit => by
          obtain ⟨_, hn, _⟩ := bb_iter_counts a u u1 (Or.inl hit) (by omega)
          rcases bb_iter_resteers a u u1 (Or.inl hit) with ⟨_, hnu⟩ | ⟨_, _, hok, _⟩
          · exact ⟨by omega, by omega⟩
          · exact absurd hok (hoff u hP.1))
        k 0 (bb_entry a) t ⟨le_refl _, rfl⟩ hr
      exact key
    constructor
    · intro k t hr
      obtain ⟨h0, hu⟩ := hinv k t hr
      refine ⟨?_, hu⟩
      rw [hfn, if_neg (hoff t h0)]
    · intro r hrun
      obtain ⟨_, s1, hloop, hdone⟩ := bb_to_IR_done a r hrun
      obtain ⟨hvge, _⟩ := bb_done_done a s1 r hdone
      obtain ⟨k, t, _, hreach, hleave⟩ := bb_loop_last_round a _ _ _ hloop
      obtain ⟨h0, hu⟩ := hinv k t hreach
      rw [hvge]
      rcases bb_iter_resteers a t s1 (Or.inr hleave) with ⟨_, hnu⟩ | ⟨_, _, hok, _⟩
      · omega
      · exact absurd hok (hoff t h0)

theorem resteer_predicate_witness :
    (scenario_S4.do_self_check = true ∨ scenario_S4.vex_control.guest_chase_thresh = 0) ∧
    (bb_call scenario_S4 (bb_entry scenario_S4)
      = scenario_S4.dis_instr_fn
        (addStmtToIRBB (bb_entry scenario_S4).irbb
          (.IMark (guest_IP_curr_instr scenario_S4 (bb_entry scenario_S4)) 0))
        (decide ((bb_entry scenario_S4).n_instrs > 0))
        (resteerOKfn scenario_S4 (bb_entry scenario_S4)) scenario_S4.guest_code
        (bb_entry scenario_S4).delta
        (guest_IP_curr_instr scenario_S4 (bb_entry scenario_S4)) scenario_S4.archinfo_guest
        scenario_S4.host_bigendian
    ∧ (((bb_entry scenario_S4).n_instrs < scenario_S4.vex_control.guest_chase_thresh
          ∧ scenario_S4.do_self_check = false ∧ (bb_entry scenario_S4).vge.n_used < 3) →
        resteerOKfn scenario_S4 (bb_entry scenario_S4) = scenario_S4.chase_into_ok)
    ∧ (¬ ((bb_entry scenario_S4).n_instrs < scenario_S4.vex_control.guest_chase_thresh
          ∧ scenario_S4.do_self_check = false ∧ (bb_entry scenario_S4).vge.n_used < 3) →
        resteerOKfn scenario_S4 (bb_entry scenario_S4) = const_False)
    ∧ (∀ x, const_False x = false)
    ∧ (scenario_S4.do_self_check = true ∨ scenario_S4.vex_control.guest_chase_thresh = 0 →
        (∀ k t, bb_rounds scenario_S4 k (bb_entry scenario_S4) = some t →
          resteerOKfn scenario_S4 t = const_False ∧ t.vge.n_used = 1)
        ∧ (∀ r, bb_to_IR scenario_S4 = .done r → r.vge.n_used = 1))) :=
  ⟨Or.inl rfl, resteer_predicate scenario_S4 (bb_entry scenario_S4)⟩

/-- C32: under the entry preconditions, whenever the result of the callback
at a round the loop reaches violates its contract (`len` outside `[0, 20]`;
`continueAt != 0` with `whatNext != Dis_Resteer`; `Dis_StopHere` with `next`
unset; `Dis_Resteer` in a round where `resteerOK` is false; `Dis_Resteer` to
an address for which `chase_into_ok` returns false), the round fails and
`bb_to_IR` fails: it returns no block. -/
theorem contract_violation_is_fatal (a : BBArgs) (k : Nat) (s : BBState)
    (h1 : 1 ≤ a.vex_control.guest_max_insns) (h100 : a.vex_control.guest_max_insns < 100)
    (ht0 : 0 ≤ a.vex_control.guest_chase_thresh)
    (ht : a.vex_control.guest_chase_thresh < a.vex_control.guest_max_insns)
    (hty : a.guest_word_type = .Ity_I32 ∨ a.guest_word_type = .Ity_I64)
    (hreach : bb_rounds a k (bb_entry a) = some s)
    (hviol : ¬ (0 ≤ (bb_call a s).2.len ∧ (bb_call a s).2.len ≤ 20)
      ∨ ((bb_call a s).2.whatNext ≠ .Dis_Resteer ∧ (bb_call a s).2.continueAt ≠ 0)
      ∨ ((bb_call a s).2.whatNext = .Dis_StopHere ∧ (bb_call a s).1.next.isNone = true)
      ∨ ((bb_call a s).2.whatNext = .Dis_Resteer ∧ resteerOK a s = false)
      ∨ ((bb_call a s).2.whatNext = .Dis_Resteer
          ∧ a.chase_into_ok (bb_call a s).2.continueAt = false)) :
    bb_iter a s = .fatal ∧ bb_to_IR a = .fatal ∧ ∀ r, bb_to_IR a ≠ .done r := by
  have hfatal : bb_iter a s = .fatal := by
    by_contra hnf
    obtain ⟨_, hl0, hl20, hcont, irbb, hnext, _, _, hrest⟩ := bb_iter_not_fatal a s hnf
    have hsplit : ∃ s1, bb_iter a s = .again s1 ∨ bb_iter a s = .leave s1 := by
      cases hres : bb_iter a s with
      | again s2 => exact ⟨s2, Or.inl rfl⟩
      | leave s2 => exact ⟨s2, Or.inr rfl⟩
      | fatal => exact absurd hres hnf
    obtain ⟨s1, hs1⟩ := hsplit
    rcases hviol with hv | hv | hv | hv | hv
    · exact hv ⟨hl0, hl20⟩
    · rcases hcont with hc | hc
      · exact hv.1 hc
      · exact hv.2 hc
    · rcases hs1 with hag | hlv
      · rcases bb_iter_resteers a s s1 (Or.inl hag) with ⟨_, _⟩ | ⟨hw, _⟩
        · rw [hrest] at hag
          obtain ⟨_, _, _, _, hc | hr⟩ := bb_iter_rest_again a s s1 irbb _ hag
          · rw [hv.1] at hc
            exact DisWhatNext.noConfusion hc.1
          · rw [hv.1] at hr
            exact DisWhatNext.noConfusion hr.1
        · rw [hv.1] at hw
          exact DisWhatNext.noConfusion hw
      · rw [hrest] at hlv
        obtain ⟨_, _, _, _, _, _, _, _, _, hc | hc⟩ := bb_iter_rest_leave a s s1 irbb _ hlv
        · rw [hv.1] at hc
          exact DisWhatNext.noConfusion hc.1
        · have hsome := hc.2.1
          rw [hnext] at hsome
          have hnone := hv.2
          cases hx : (bb_call a s).1.next with
          | none => rw [hx] at hsome; cases hsome
          | some e => rw [hx] at hnone; cases hnone
    · rcases bb_iter_resteers a s s1 hs1 with ⟨hw, _⟩ | ⟨_, _, hok, _⟩
      · exact hw hv.1
      · rw [hv.2] at hok
        cases hok
    · rcases bb_iter_resteers a s s1 hs1 with ⟨hw, _⟩ | ⟨_, _, _, hch, _⟩
      · exact hw hv.1
      · rw [hv.2] at hch
        cases hch
  have hrun := bb_to_IR_fatal_of_round a h1 h100 ht0 ht hty k s hreach hfatal
  refine ⟨hfatal, hrun, fun r hr => ?_⟩
  rw [hrun] at hr
  cases hr

theorem contract_violation_is_fatal_witness :
    (1 ≤ scenario_resteer_refused.vex_control.guest_max_insns
      ∧ scenario_resteer_refused.vex_control.guest_max_insns < 100
      ∧ 0 ≤ scenario_resteer_refused.vex_control.guest_chase_thresh
      ∧ scenario_resteer_refused.vex_control.guest_chase_thresh
          < scenario_resteer_refused.vex_control.guest_max_insns
      ∧ (scenario_resteer_refused.guest_word_type = .Ity_I32
          ∨ scenario_resteer_refused.guest_word_type = .Ity_I64)
      ∧ bb_rounds scenario_resteer_refused 0 (bb_entry scenario_resteer_refused)
          = some (bb_entry scenario_resteer_refused)
      ∧ (bb_call scenario_resteer_refused (bb_entry scenario_resteer_refused)).2.whatNext
          = .Dis_Resteer
      ∧ resteerOK scenario_resteer_refused (bb_entry scenario_resteer_refused) = false) ∧
    (bb_iter scenario_resteer_refused (bb_entry scenario_resteer_refused) = .fatal
      ∧ bb_to_IR scenario_resteer_refused = .fatal
      ∧ ∀ r, bb_to_IR scenario_resteer_refused ≠ .done r) :=
  ⟨⟨by decide, by decide, by decide, by decide, Or.inl rfl, rfl, rfl, rfl⟩,
    contract_violation_is_fatal scenario_resteer_refused 0 (bb_entry scenario_resteer_refused)
      (by decide) (by decide) (by decide) (by decide) (Or.inl rfl) rfl
      (Or.inr (Or.inr (Or.inr (Or.inl ⟨rfl, rfl⟩))))⟩

/-- C36: under the entry preconditions, for every callback and every round
the loop reaches, fewer than `guest_max_insns` instructions have been decoded
and every extent in use is at most `20 * n_instrs` bytes long, so the
assertion `vge.len[n_used-1] < 5000` holds; when the callback then returns a
length in `[0, 20]`, the new length stored through `toUShort(toUInt(..))` is
the exact sum, at most `20 * guest_max_insns <= 1980`; and on return every
extent in use is at most `20 * guest_max_insns <= 1980` bytes long. -/
theorem extent_length_bounded (a : BBArgs) (k : Nat) (s : BBState)
    (h1 : 1 ≤ a.vex_control.guest_max_insns) (h100 : a.vex_control.guest_max_insns < 100)
    (ht0 : 0 ≤ a.vex_control.guest_chase_thresh)
    (ht : a.vex_control.guest_chase_thresh < a.vex_control.guest_max_insns)
    (hreach : bb_rounds a k (bb_entry a) = some s) :
    s.n_instrs = k ∧ s.n_instrs < a.vex_control.guest_max_insns
      ∧ (∀ i, i < s.vge.n_used → s.vge.len i ≤ 20 * k)
      ∧ s.vge.len (s.vge.n_used - 1) < 5000
      ∧ (0 ≤ (bb_call a s).2.len ∧ (bb_call a s).2.len ≤ 20 →
          toUShort (toUInt ((s.vge.len (s.vge.n_used - 1) : Int) + (bb_call a s).2.len))
              = s.vge.len (s.vge.n_used - 1) + ((bb_call a s).2.len).toNat
          ∧ s.vge.len (s.vge.n_used - 1) + ((bb_call a s).2.len).toNat
              ≤ 20 * a.vex_control.guest_max_insns.toNat)
      ∧ 20 * a.vex_control.guest_max_insns.toNat ≤ 1980
      ∧ (∀ r, bb_to_IR a = .done r →
          ∀ i, i < r.vge.n_used → r.vge.len i ≤ 20 * a.vex_control.guest_max_insns.toNat) := by
  obtain ⟨p1, p2, p3, _, _, _, p7⟩ := bb_rounds_bounds a h1 ht0 ht k s hreach
  have hall : ∀ i, i < s.vge.n_used → s.vge.len i ≤ 20 * k := fun i hi =>
    le_trans (extentLenSum_ge s.vge.len s.vge.n_used i hi) p7
  have hlast := hall (s.vge.n_used - 1) (by omega)
  refine ⟨p1, p2, hall, by omega, fun hlen => ?_, by omega, fun r hr i hi => ?_⟩
  · rw [newlen_eq _ _ (by omega) hlen.1 hlen.2]
    exact ⟨rfl, by omega⟩
  · obtain ⟨q1, _, _, _, q5⟩ := bb_to_IR_bounds a r hr
    have := extentLenSum_ge r.vge.len r.vge.n_used i hi
    omega

theorem extent_length_bounded_witness :
    (1 ≤ scenario_S3.vex_control.guest_max_insns
      ∧ scenario_S3.vex_control.guest_max_insns < 100
      ∧ 0 ≤ scenario_S3.vex_control.guest_chase_thresh
      ∧ scenario_S3.vex_control.guest_chase_thresh < scenario_S3.vex_control.guest_max_insns
      ∧ bb_rounds scenario_S3 0 (bb_entry scenario_S3) = some (bb_entry scenario_S3)) ∧
    ((bb_entry scenario_S3).n_instrs = (0 : Nat)
      ∧ (bb_entry scenario_S3).n_instrs < scenario_S3.vex_control.guest_max_insns
      ∧ (∀ i, i < (bb_entry scenario_S3).vge.n_used → (bb_entry scenario_S3).vge.len i ≤ 20 * 0)
      ∧ (bb_entry scenario_S3).vge.len ((bb_entry scenario_S3).vge.n_used - 1) < 5000
      ∧ (0 ≤ (bb_call scenario_S3 (bb_entry scenario_S3)).2.len
          ∧ (bb_call scenario_S3 (bb_entry scenario_S3)).2.len ≤ 20 →
          toUShort (toUInt
              (((bb_entry scenario_S3).vge.len ((bb_entry scenario_S3).vge.n_used - 1) : Int)
                + (bb_call scenario_S3 (bb_entry scenario_S3)).2.len))
              = (bb_entry scenario_S3).vge.len ((bb_entry scenario_S3).vge.n_used - 1)
                + ((bb_call scenario_S3 (bb_entry scenario_S3)).2.len).toNat
          ∧ (bb_entry scenario_S3).vge.len ((bb_entry scenario_S3).vge.n_used - 1)
                + ((bb_call scenario_S3 (bb_entry scenario_S3)).2.len).toNat
              ≤ 20 * scenario_S3.vex_control.guest_max_insns.toNat)
      ∧ 20 * scenario_S3.vex_control.guest_max_insns.toNat ≤ 1980
      ∧ (∀ r, bb_to_IR scenario_S3 = .done r →
          ∀ i, i < r.vge.n_used →
            r.vge.len i ≤ 20 * scenario_S3.vex_control.guest_max_insns.toNat)) :=
  ⟨⟨by decide, by decide, by decide, by decide, rfl⟩,
    extent_length_bounded scenario_S3 0 (bb_entry scenario_S3) (by decide) (by decide)
      (by decide) (by decide) rfl⟩

/-- C37: under the entry preconditions and for every callback, the main loop
of `bb_to_IR` ends within `guest_max_insns` rounds, each of which invokes the
callback once, and `bb_to_IR` does not run on; at every round the loop
reaches the assertion `n_instrs < guest_max_insns` at the loop head holds, and
a resteer is accepted only when `resteerOK`, that is when
`n_instrs < guest_chase_thresh < guest_max_insns` and `vge.n_used < 3` held
before the instruction, so the assertion `vge.n_used <= 3` after it holds;
each accepted resteer adds one extent and no other round adds one, so the
number of resteers, `vge.n_used - 1`, is at most `min(guest_chase_thresh, 2)`
at every round and on return. -/
theorem loop_terminates_and_resteers_bounded (a : BBArgs)
    (h1 : 1 ≤ a.vex_control.guest_max_insns) (h100 : a.vex_control.guest_max_insns < 100)
    (ht0 : 0 ≤ a.vex_control.guest_chase_thresh)
    (ht : a.vex_control.guest_chase_thresh < a.vex_control.guest_max_insns) :
    (∀ f, a.vex_control.guest_max_insns.toNat ≤ f → bb_loop a f (bb_entry a) ≠ .timeout)
    ∧ bb_to_IR a ≠ .timeout
    ∧ (∀ k, a.vex_control.guest_max_insns.toNat ≤ k → bb_rounds a k (bb_entry a) = none)
    ∧ (∀ k s, bb_rounds a k (bb_entry a) = some s →
        s.n_instrs = k ∧ s.n_instrs < a.vex_control.guest_max_insns
        ∧ 1 ≤ s.vge.n_used ∧ s.vge.n_used ≤ 3
        ∧ ((s.vge.n_used : Int) - 1 ≤ min a.vex_control.guest_chase_thresh 2)
        ∧ (resteerOK a s = true →
            s.n_instrs < a.vex_control.guest_chase_thresh ∧ s.vge.n_used < 3
            ∧ s.vge.n_used + 1 ≤ 3)
        ∧ (∀ s1, bb_iter a s = .again s1 ∨ bb_iter a s = .leave s1 →
            ((bb_call a s).2.whatNext = .Dis_Resteer →
              resteerOK a s = true ∧ s1.vge.n_used = s.vge.n_used + 1)
            ∧ ((bb_call a s).2.whatNext ≠ .Dis_Resteer → s1.vge.n_used = s.vge.n_used)))
    ∧ (∀ r, bb_to_IR a = .done r →
        r.n_instrs ≤ a.vex_control.guest_max_insns
        ∧ (r.vge.n_used : Int) - 1 ≤ min a.vex_control.guest_chase_thresh 2) := by
  have hloop : ∀ f, a.vex_control.guest_max_insns.toNat ≤ f →
      bb_loop a f (bb_entry a) ≠ .timeout := fun f hf =>
    bb_loop_no_timeout a ht f (bb_entry a) h1 (le_refl _)
      (by show a.vex_control.guest_max_insns ≤ 0 + (f : Int); omega)
  refine ⟨hloop, ?_, ?_, ?_, ?_⟩
  · unfold bb_to_IR
    rw [if_neg (by omega), if_neg (by omega), if_neg (by omega), if_neg (by omega)]
    split
    · exact Run.noConfusion
    dsimp only
    have hl := hloop (a.vex_control.guest_max_insns.toNat + 1) (by omega)
    split
    · rename_i s1 _
      unfold bb_done
      split
      · split
        · exact Run.noConfusion
        · exact Run.noConfusion
      · exact Run.noConfusion
    · exact Run.noConfusion
    · rename_i heq
      exact absurd heq hl
  · intro k hk
    cases hr : bb_rounds a k (bb_entry a) with
    | none => rfl
    | some s =>
      obtain ⟨p1, p2, _⟩ := bb_rounds_bounds a h1 ht0 ht k s hr
      omega
  · intro k s hr
    obtain ⟨p1, p2, p3, p4, p5, p6, _⟩ := bb_rounds_bounds a h1 ht0 ht k s hr
    refine ⟨p1, p2, p3, p4, ?_, ?_, ?_⟩
    · rw [le_min_iff]
      exact ⟨p6, by omega⟩
    · intro hok
      rw [resteerOK_iff] at hok
      exact ⟨hok.1, hok.2.2, by omega⟩
    · intro s1 hs1
      rcases bb_iter_resteers a s s1 hs1 with ⟨hw, hnu⟩ | ⟨hw, hnu, hok, _⟩
      · exact ⟨fun h => absurd h hw, fun _ => hnu⟩
      · exact ⟨fun _ => ⟨hok, hnu⟩, fun h => absurd hw h⟩
  · intro r hr
    obtain ⟨q1, _, q3, q4, _⟩ := bb_to_IR_bounds a r hr
    refine ⟨q1, ?_⟩
    rw [le_min_iff]
    exact ⟨q4, by omega⟩

theorem loop_terminates_and_resteers_bounded_witness :
    (1 ≤ scenario_S3.vex_control.guest_max_insns
      ∧ scenario_S3.vex_control.guest_max_insns < 100
      ∧ 0 ≤ scenario_S3.vex_control.guest_chase_thresh
      ∧ scenario_S3.vex_control.guest_chase_thresh
          < scenario_S3.vex_control.guest_max_insns) ∧
    ((∀ f, scenario_S3.vex_control.guest_max_insns.toNat ≤ f →
        bb_loop scenario_S3 f (bb_entry scenario_S3) ≠ .timeout)
    ∧ bb_to_IR scenario_S3 ≠ .timeout
    ∧ (∀ k, scenario_S3.vex_control.guest_max_insns.toNat ≤ k →
        bb_rounds scenario_S3 k (bb_entry scenario_S3) = none)
    ∧ (∀ k s, bb_rounds scenario_S3 k (bb_entry scenario_S3) = some s →
        s.n_instrs = k ∧ s.n_instrs < scenario_S3.vex_control.guest_max_insns
        ∧ 1 ≤ s.vge.n_used ∧ s.vge.n_used ≤ 3
        ∧ ((s.vge.n_used : Int) - 1 ≤ min scenario_S3.vex_control.guest_chase_thresh 2)
        ∧ (resteerOK scenario_S3 s = true →
            s.n_instrs < scenario_S3.vex_control.guest_chase_thresh ∧ s.vge.n_used < 3
            ∧ s.vge.n_used + 1 ≤ 3)
        ∧ (∀ s1, bb_iter scenario_S3 s = .again s1 ∨ bb_iter scenario_S3 s = .leave s1 →
            ((bb_call scenario_S3 s).2.whatNext = .Dis_Resteer →
              resteerOK scenario_S3 s = true ∧ s1.vge.n_used = s.vge.n_used + 1)
            ∧ ((bb_call scenario_S3 s).2.whatNext ≠ .Dis_Resteer →
              s1.vge.n_used = s.vge.n_used)))
    ∧ (∀ r, bb_to_IR scenario_S3 = .done r →
        r.n_instrs ≤ scenario_S3.vex_control.guest_max_insns
        ∧ (r.vge.n_used : Int) - 1 ≤ min scenario_S3.vex_control.guest_chase_thresh 2)) :=
  ⟨⟨by decide, by decide, by decide, by decide⟩,
    loop_terminates_and_resteers_bounded scenario_S3 (by decide) (by decide) (by decide)
      (by decide)⟩

/-! ## The block decoder: a decoder that continues at every invocation -/

/-- One more round that goes back to the loop head. -/
theorem bb_rounds_succ_again (a : BBArgs) :
    ∀ (k : Nat) (s0 s s1 : BBState), bb_rounds a k s0 = some s → bb_iter a s = .again s1 →
      bb_rounds a (k + 1) s0 = some s1 := by
  intro k
  induction k with
  | zero =>
    intro s0 s s1 h hit
    injection h with h
    subst h
    unfold bb_rounds
    rw [hit]
    rfl
  | succ n ih =>
    intro s0 s s1 h hit
    unfold bb_rounds at h
    split at h
    · rename_i s2 heq
      conv_lhs => unfold bb_rounds
      rw [heq]
      exact ih s2 s s1 h hit
    · cases h

/-- After a round that leaves the loop there is no further round. -/
theorem bb_rounds_succ_leave (a : BBArgs) :
    ∀ (k : Nat) (s0 s s1 : BBState), bb_rounds a k s0 = some s → bb_iter a s = .leave s1 →
      bb_rounds a (k + 1) s0 = none := by
  intro k
  induction k with
  | zero =>
    intro s0 s s1 h hit
    injection h with h
    subst h
    unfold bb_rounds
    rw [hit]
  | succ n ih =>
    intro s0 s s1 h hit
    unfold bb_rounds at h
    split at h
    · rename_i s2 heq
      conv_lhs => unfold bb_rounds
      rw [heq]
      exact ih s2 s s1 h hit
    · cases h

/-- At every loop head the run reaches, `next` is unset. -/
theorem bb_rounds_next_none (a : BBArgs) (k : Nat) (s : BBState)
    (h : bb_rounds a k (bb_entry a) = some s) : s.irbb.next = none := by
  have key := bb_rounds_induct a (fun _ t => t.irbb.next = none)
    (fun _ t t1 _ hit => by
      have hnf : bb_iter a t ≠ .fatal := by
        rw [hit]
        exact Iter.noConfusion
      obtain ⟨_, _, _, _, irbb, _, _, _, hrest⟩ := bb_iter_not_fatal a t hnf
      rw [hrest] at hit
      obtain ⟨hirbb, _, _, hnone, _⟩ := bb_iter_rest_again a t t1 irbb _ hit
      show t1.irbb.next = none
      rw [hirbb]
      cases hx : irbb.next with
      | none => rfl
      | some e => rw [hx] at hnone; cases hnone)
    k 0 (bb_entry a) s
    (by
      show (bb_entry a).irbb.next = none
      unfold bb_entry
      cases a.do_self_check <;> cases a.do_set_NRADDR <;> rfl) h
  exact key

/-- A decoder that continues on every argument tuple continues at every
invocation of the run. -/
theorem AlwaysContinues.along_run (a : BBArgs) (h : AlwaysContinues a.dis_instr_fn) :
    ContinuesAlongRun a := by
  intro k s hreach
  obtain ⟨hw, h0, h20, hca, hnx, extra, hst, hex⟩ :=
    h (addStmtToIRBB s.irbb (.IMark (guest_IP_curr_instr a s) 0))
      (decide (s.n_instrs > 0)) (resteerOKfn a s) a.guest_code s.delta (guest_IP_curr_instr a s)
      a.archinfo_guest a.host_bigendian
  refine ⟨hw, h0, h20, hca, hnx (bb_rounds_next_none a k s hreach), extra, ?_, hex⟩
  unfold bb_call
  rw [hst]
  simp [addStmtToIRBB]

/-- The length returned at a round the run reaches. -/
theorem bb_len_at_eq (a : BBArgs) (k : Nat) (s : BBState)
    (h : bb_rounds a k (bb_entry a) = some s) (h0 : 0 ≤ (bb_call a s).2.len) :
    (bb_call a s).2.len = (bb_len_at a k : Int) := by
  unfold bb_len_at
  rw [h]
  exact (Int.toNat_of_nonneg h0).symm

theorem bb_len_at_le (a : BBArgs) (hc : ContinuesAlongRun a) (i : Nat) :
    bb_len_at a i ≤ 20 := by
  unfold bb_len_at
  cases hr : bb_rounds a i (bb_entry a) with
  | none => exact Nat.zero_le _
  | some s =>
    obtain ⟨_, _, h20, _⟩ := hc i s hr
    show ((bb_call a s).2.len).toNat ≤ 20
    omega

/-- One round of the main loop in which the decoder continues within its
contract, from the state reached after `k` instructions of the lengths
`l 0, .., l (k-1)`, the decoder returning the length `l k`. -/
theorem bb_iter_straight (a : BBArgs) (l : Nat → Nat) (k : Nat) (s : BBState)
    (hl : ∀ i, l i ≤ 20)
    (hmax : a.vex_control.guest_max_insns < 100)
    (hk : (k : Int) < a.vex_control.guest_max_insns)
    (hw : (bb_call a s).2.whatNext = .Dis_Continue)
    (hlk : (bb_call a s).2.len = (l k : Int))
    (hca : (bb_call a s).2.continueAt = 0)
    (hnx : (bb_call a s).1.next = none)
    (extra : List IRStmt)
    (hst : (bb_call a s).1.stmts
      = s.irbb.stmts ++ .IMark (guest_IP_curr_instr a s) 0 :: extra)
    (hex : imarks extra = [])
    (hn : s.n_instrs = k) (hd : s.delta = ((∑ j ∈ Finset.range k, l j : Nat) : Int))
    (hu : s.vge.n_used = 1) (hlen : s.vge.len 0 = ∑ j ∈ Finset.range k, l j)
    (hm : imarks s.irbb.stmts = (List.range k).map
      (fun i => ((a.guest_IP_bbstart + ∑ j ∈ Finset.range i, l j) % 18446744073709551616,
        l i))) :
    guest_IP_curr_instr a s
        = (a.guest_IP_bbstart + ∑ j ∈ Finset.range k, l j) % 18446744073709551616
    ∧ ∃ s1, (if (k : Int) + 1 < a.vex_control.guest_max_insns then bb_iter a s = .again s1
        else bb_iter a s = .leave s1
          ∧ s1.irbb.next = some (.Const (guest_IRConst a.guest_word_type
              ((a.guest_IP_bbstart + ∑ j ∈ Finset.range (k + 1), l j)
                % 18446744073709551616))))
      ∧ s1.n_instrs = ((k + 1 : Nat) : Int)
      ∧ s1.delta = ((∑ j ∈ Finset.range (k + 1), l j : Nat) : Int)
      ∧ s1.vge.n_used = 1 ∧ s1.vge.len 0 = ∑ j ∈ Finset.range (k + 1), l j
      ∧ s1.vge.base 0 = s.vge.base 0
      ∧ imarks s1.irbb.stmts = (List.range (k + 1)).map
          (fun i => ((a.guest_IP_bbstart + ∑ j ∈ Finset.range i, l j)
            % 18446744073709551616, l i))
      ∧ ∃ tail, s1.irbb.stmts = s.irbb.stmts ++ tail := by
  have hS := sum_range_le l hl k
  have hlk20 := hl k
  have hsucc : (∑ j ∈ Finset.range (k + 1), l j) = (∑ j ∈ Finset.range k, l j) + l k :=
    Finset.sum_range_succ _ _
  rw [marks_succ, hsucc]
  generalize (∑ j ∈ Finset.range k, l j) = S at hd hlen hS ⊢
  have h5000 : s.vge.len (s.vge.n_used - 1) < 5000 := by
    rw [hu, hlen]
    omega
  have hiter := bb_iter_continue a s extra (by omega) hst hw (by omega) (by omega) hca hnx
    h5000
  have hcurr : guest_IP_curr_instr a s = (a.guest_IP_bbstart + S) % 18446744073709551616 := by
    unfold guest_IP_curr_instr toAddr64
    rw [hd]
    omega
  have hdelta : toLong (s.delta + (bb_call a s).2.len) = ((S + l k : Nat) : Int) := by
    rw [hd, hlk]
    unfold toLong
    omega
  have hnewlen : store s.vge.len (s.vge.n_used - 1)
      (s.vge.len (s.vge.n_used - 1) + ((bb_call a s).2.len).toNat) 0 = S + l k := by
    rw [hu, hlk, hlen]
    unfold store
    simp
  have hmarks : imarks (s.irbb.stmts
      ++ .IMark (guest_IP_curr_instr a s) ((bb_call a s).2.len).toNat :: extra)
      = (List.range k).map
          (fun i => ((a.guest_IP_bbstart + ∑ j ∈ Finset.range i, l j)
            % 18446744073709551616, l i))
        ++ [((a.guest_IP_bbstart + S) % 18446744073709551616, l k)] := by
    rw [imarks_append, hm, hlk, hcurr]
    simp [imarks, hex]
  have hni : s.n_instrs + 1 = ((k + 1 : Nat) : Int) := by
    rw [hn]
    push_cast
    rfl
  refine ⟨hcurr, ?_⟩
  by_cases hcap : (k : Int) + 1 < a.vex_control.guest_max_insns
  · rw [if_pos (by omega)] at hiter
    refine Exists.intro ?w (And.intro ?h1 ?rest)
    case h1 =>
      rw [if_pos hcap]
      exact hiter
    case rest =>
      exact ⟨hni, hdelta, hu, hnewlen, rfl, hmarks, _, rfl⟩
  · rw [if_neg (by omega)] at hiter
    have hconst : toAddr64 ((a.guest_IP_bbstart : Int)
        + toLong (s.delta + (bb_call a s).2.len))
        = (a.guest_IP_bbstart + (S + l k)) % 18446744073709551616 := by
      rw [hdelta]
      unfold toAddr64
      omega
    rw [hconst] at hiter
    refine Exists.intro ?w2 (And.intro ?h2 ?rest2)
    case h2 =>
      rw [if_neg hcap]
      constructor
      · exact hiter
      · rfl
    case rest2 =>
      exact ⟨hni, hdelta, hu, hnewlen, rfl, hmarks, _, rfl⟩

/-- With a decoder that continues at every invocation, the main loop reaches
round number `k + 1` for every `k < guest_max_insns`, in the state of a
straight block of `k` instructions. -/
theorem bb_rounds_straight (a : BBArgs) (hc : ContinuesAlongRun a)
    (hmax : a.vex_control.guest_max_insns < 100) :
    ∀ k : Nat, (k : Int) < a.vex_control.guest_max_insns →
      ∃ s, bb_rounds a k (bb_entry a) = some s
        ∧ s.n_instrs = k
        ∧ s.delta = ((∑ j ∈ Finset.range k, bb_len_at a j : Nat) : Int)
        ∧ s.vge.n_used = 1 ∧ s.vge.len 0 = ∑ j ∈ Finset.range k, bb_len_at a j
        ∧ s.vge.base 0 = a.guest_IP_bbstart
        ∧ imarks s.irbb.stmts = (List.range k).map
            (fun i => ((a.guest_IP_bbstart + ∑ j ∈ Finset.range i, bb_len_at a j)
              % 18446744073709551616, bb_len_at a i))
        ∧ ∃ body, s.irbb.stmts = (bb_entry a).irbb.stmts ++ body := by
  intro k
  induction k with
  | zero =>
    intro _
    refine ⟨bb_entry a, rfl, rfl, ?_, rfl, ?_, rfl, ?_, [], ?_⟩
    · simp [bb_entry]
    · simp [bb_entry, store]
    · simpa using bb_entry_imarks a
    · simp
  | succ n ih =>
    intro hk
    obtain ⟨s, hreach, hn, hd, hu, hlen, hbase, hm, body, hbody⟩ := ih (by omega)
    obtain ⟨hw, h0, h20, hca, hnx, extra, hst, hex⟩ := hc n s hreach
    obtain ⟨_, s1, hit, g1, g2, g3, g4, g5, g6, tail, htail⟩ :=
      bb_iter_straight a (bb_len_at a) n s (bb_len_at_le a hc) hmax (by omega) hw
        (bb_len_at_eq a n s hreach h0) hca hnx extra hst hex hn hd hu hlen hm
    rw [if_pos (by omega)] at hit
    exact ⟨s1, bb_rounds_succ_again a n (bb_entry a) s s1 hreach hit, g1, g2, g3, g4,
      by rw [g5, hbase], g6, body ++ tail, by rw [htail, hbody, List.append_assoc]⟩

/-- C27: straight block to the cap (scenario S1): under the entry
preconditions, for every callback that at every invocation returns
`Dis_Continue` with a length in `[0, 20]`, leaves `next` unset and appends no
IMark, whatever it computes the lengths from, `bb_to_IR` returns. With
`l i = bb_len_at a i` the length returned at invocation number `i + 1`: the
callback is invoked exactly `guest_max_insns` times, invocation `i + 1` with
`delta = l 0 + .. + l (i-1)` at guest address `guest_IP_bbstart + delta`; the
block has exactly `guest_max_insns` IMarks, number `i` at that address (as an
`Addr64`) with length `l i`; `vge` is the one extent
`(guest_IP_bbstart, sum of all l i)`; and `next` is the constant
`guest_IP_bbstart + sum of all l i` in the guest word type (its low 32 bits
for `Ity_I32`). In scenario S1 (three instructions of length 4) the IMarks
are at `0x100`, `0x104`, `0x108`, `vge = [(0x100, 12)]` and `next` is
`0x10C`; with the stub that reads the lengths 3, 5, 4 from the guest bytes the
IMarks are `(0x100, 3)`, `(0x103, 5)`, `(0x108, 4)`. -/
theorem straight_block_to_cap (a : BBArgs)
    (h1 : 1 ≤ a.vex_control.guest_max_insns) (h100 : a.vex_control.guest_max_insns < 100)
    (ht0 : 0 ≤ a.vex_control.guest_chase_thresh)
    (ht : a.vex_control.guest_chase_thresh < a.vex_control.guest_max_insns)
    (hty : a.guest_word_type = .Ity_I32 ∨ a.guest_word_type = .Ity_I64)
    (hc : ContinuesAlongRun a) :
    (∃ r, bb_to_IR a = .done r
      ∧ r.n_instrs = a.vex_control.guest_max_insns
      ∧ imarks r.irbb.stmts = (List.range a.vex_control.guest_max_insns.toNat).map
          (fun i => ((a.guest_IP_bbstart + ∑ j ∈ Finset.range i, bb_len_at a j)
            % 18446744073709551616, bb_len_at a i))
      ∧ r.vge.n_used = 1
      ∧ r.vge.base 0 = a.guest_IP_bbstart
      ∧ r.vge.len 0 = ∑ j ∈ Finset.range a.vex_control.guest_max_insns.toNat, bb_len_at a j
      ∧ (a.guest_word_type = .Ity_I32 →
          r.irbb.next = some (.Const (.U32
            ((a.guest_IP_bbstart
                + ∑ j ∈ Finset.range a.vex_control.guest_max_insns.toNat, bb_len_at a j)
              % 18446744073709551616 % 4294967296))))
      ∧ (a.guest_word_type = .Ity_I64 →
          r.irbb.next = some (.Const (.U64
            ((a.guest_IP_bbstart
                + ∑ j ∈ Finset.range a.vex_control.guest_max_insns.toNat, bb_len_at a j)
              % 18446744073709551616)))))
    ∧ (∀ i : Nat, (i : Int) < a.vex_control.guest_max_insns →
        ∃ s, bb_rounds a i (bb_entry a) = some s
          ∧ s.n_instrs = i
          ∧ s.delta = ((∑ j ∈ Finset.range i, bb_len_at a j : Nat) : Int)
          ∧ guest_IP_curr_instr a s
              = (a.guest_IP_bbstart + ∑ j ∈ Finset.range i, bb_len_at a j)
                % 18446744073709551616
          ∧ (bb_call a s).2.len = (bb_len_at a i : Int))
    ∧ bb_rounds a a.vex_control.guest_max_insns.toNat (bb_entry a) = none
    ∧ (∀ i, bb_len_at a i ≤ 20)
    ∧ (imarks (bb_result scenario_S1).irbb.stmts = [(256, 4), (260, 4), (264, 4)]
      ∧ (bb_result scenario_S1).vge.n_used = 1
      ∧ (bb_result scenario_S1).vge.base 0 = 256
      ∧ (bb_result scenario_S1).vge.len 0 = 12
      ∧ (bb_result scenario_S1).irbb.next = some (.Const (.U32 268)))
    ∧ (imarks (bb_result scenario_bytes).irbb.stmts = [(256, 3), (259, 5), (264, 4)]
      ∧ (bb_result scenario_bytes).vge.len 0 = 12
      ∧ (bb_result scenario_bytes).irbb.next = some (.Const (.U32 268))) := by
  obtain ⟨M, hM⟩ : ∃ M : Nat, a.vex_control.guest_max_insns = ((M + 1 : Nat) : Int) :=
    ⟨(a.vex_control.guest_max_insns - 1).toNat, by omega⟩
  have htoNat : a.vex_control.guest_max_insns.toNat = M + 1 := by omega
  have hle := bb_len_at_le a hc
  obtain ⟨s, hreach, hn, hd, hu, hlen, hbase, hm, body, hbody⟩ :=
    bb_rounds_straight a hc h100 M (by omega)
  obtain ⟨hw, h0, h20, hca, hnx, extra, hst, hex⟩ := hc M s hreach
  obtain ⟨_, s1, hit, g1, g2, g3, g4, g5, g6, tail, htail⟩ :=
    bb_iter_straight a (bb_len_at a) M s hle h100 (by omega) hw
      (bb_len_at_eq a M s hreach h0) hca hnx extra hst hex hn hd hu hlen hm
  rw [if_neg (by omega)] at hit
  obtain ⟨hleave, hnext1⟩ := hit
  have hloop : bb_loop a (a.vex_control.guest_max_insns.toNat + 1) (bb_entry a) = .done s1 := by
    have hfuel : a.vex_control.guest_max_insns.toNat + 1 = M + (1 + 1) := by omega
    rw [hfuel, bb_rounds_loop a M (bb_entry a) s hreach (1 + 1)]
    unfold bb_loop
    rw [hleave]
  obtain ⟨r, hdone⟩ := bb_done_returns a s1 (fun _ => g3)
  obtain ⟨hvge, hni, _, hnxr, _, _⟩ := bb_done_done a s1 r hdone
  have hrun : bb_to_IR a = .done r := by
    rw [bb_to_IR_eq a h1 h100 ht0 ht hty, hloop]
    exact hdone
  have hmarks := bb_done_imarks a s1 r (body ++ tail)
    (by rw [htail, hbody, List.append_assoc]) hdone
  refine ⟨⟨r, hrun, ?_, ?_, ?_, ?_, ?_, ?_, ?_⟩, ?_, ?_, hle,
    ⟨rfl, rfl, rfl, rfl, rfl⟩, ⟨rfl, rfl, rfl⟩⟩
  · rw [hni, g1, hM]
  · rw [hmarks, g6, htoNat]
  · rw [hvge, g3]
  · rw [hvge, g5, hbase]
  · rw [hvge, g4, htoNat]
  · intro h32
    rw [hnxr, hnext1, htoNat, h32]
    generalize (∑ j ∈ Finset.range (M + 1), bb_len_at a j) = S
    simp only [guest_IRConst, toUInt]
    rfl
  · intro h64
    rw [hnxr, hnext1, htoNat, h64]
    simp [guest_IRConst]
  · intro i hi
    obtain ⟨t, hr, p1, p2, _, _, _, pm, _⟩ := bb_rounds_straight a hc h100 i hi
    obtain ⟨_, q0, _, _⟩ := hc i t hr
    refine ⟨t, hr, p1, p2, ?_, bb_len_at_eq a i t hr q0⟩
    unfold guest_IP_curr_instr toAddr64
    rw [p2]
    omega
  · rw [htoNat]
    exact bb_rounds_succ_leave a M (bb_entry a) s s1 hreach hleave

theorem stub_bytes_continues : AlwaysContinues stub_bytes := by
  intro irbb p f c d ip ai hb
  refine ⟨rfl, ?_, ?_, rfl, fun h => h, [], by simp [stub_bytes], rfl⟩
  · show (0 : Int) ≤ ((c d.toNat % 8 : Nat) : Int)
    omega
  · show ((c d.toNat % 8 : Nat) : Int) ≤ 20
    omega

theorem straight_block_to_cap_witness :
    (1 ≤ scenario_bytes.vex_control.guest_max_insns
      ∧ scenario_bytes.vex_control.guest_max_insns < 100
      ∧ 0 ≤ scenario_bytes.vex_control.guest_chase_thresh
      ∧ scenario_bytes.vex_control.guest_chase_thresh
          < scenario_bytes.vex_control.guest_max_insns
      ∧ (scenario_bytes.guest_word_type = .Ity_I32 ∨ scenario_bytes.guest_word_type = .Ity_I64)
      ∧ ContinuesAlongRun scenario_bytes) ∧
    ((∃ r, bb_to_IR scenario_bytes = .done r
      ∧ r.n_instrs = scenario_bytes.vex_control.guest_max_insns
      ∧ imarks r.irbb.stmts = (List.range scenario_bytes.vex_control.guest_max_insns.toNat).map
          (fun i => ((scenario_bytes.guest_IP_bbstart
              + ∑ j ∈ Finset.range i, bb_len_at scenario_bytes j)
            % 18446744073709551616, bb_len_at scenario_bytes i))
      ∧ r.vge.n_used = 1
      ∧ r.vge.base 0 = scenario_bytes.guest_IP_bbstart
      ∧ r.vge.len 0 = ∑ j ∈ Finset.range scenario_bytes.vex_control.guest_max_insns.toNat,
          bb_len_at scenario_bytes j
      ∧ (scenario_bytes.guest_word_type = .Ity_I32 →
          r.irbb.next = some (.Const (.U32
            ((scenario_bytes.guest_IP_bbstart
                + ∑ j ∈ Finset.range scenario_bytes.vex_control.guest_max_insns.toNat,
                    bb_len_at scenario_bytes j)
              % 18446744073709551616 % 4294967296))))
      ∧ (scenario_bytes.guest_word_type = .Ity_I64 →
          r.irbb.next = some (.Const (.U64
            ((scenario_bytes.guest_IP_bbstart
                + ∑ j ∈ Finset.range scenario_bytes.vex_control.guest_max_insns.toNat,
                    bb_len_at scenario_bytes j)
              % 18446744073709551616)))))
    ∧ (∀ i : Nat, (i : Int) < scenario_bytes.vex_control.guest_max_insns →
        ∃ s, bb_rounds scenario_bytes i (bb_entry scenario_bytes) = some s
          ∧ s.n_instrs = i
          ∧ s.delta = ((∑ j ∈ Finset.range i, bb_len_at scenario_bytes j : Nat) : Int)
          ∧ guest_IP_curr_instr scenario_bytes s
              = (scenario_bytes.guest_IP_bbstart
                  + ∑ j ∈ Finset.range i, bb_len_at scenario_bytes j)
                % 18446744073709551616
          ∧ (bb_call scenario_bytes s).2.len = (bb_len_at scenario_bytes i : Int))
    ∧ bb_rounds scenario_bytes scenario_bytes.vex_control.guest_max_insns.toNat
        (bb_entry scenario_bytes) = none
    ∧ (∀ i, bb_len_at scenario_bytes i ≤ 20)
    ∧ (imarks (bb_result scenario_S1).irbb.stmts = [(256, 4), (260, 4), (264, 4)]
      ∧ (bb_result scenario_S1).vge.n_used = 1
      ∧ (bb_result scenario_S1).vge.base 0 = 256
      ∧ (bb_result scenario_S1).vge.len 0 = 12
      ∧ (bb_result scenario_S1).irbb.next = some (.Const (.U32 268)))
    ∧ (imarks (bb_result scenario_bytes).irbb.stmts = [(256, 3), (259, 5), (264, 4)]
      ∧ (bb_result scenario_bytes).vge.len 0 = 12
      ∧ (bb_result scenario_bytes).irbb.next = some (.Const (.U32 268)))) :=
  ⟨⟨by decide, by decide, by decide, by decide, Or.inl rfl,
      AlwaysContinues.along_run scenario_bytes stub_bytes_continues⟩,
    straight_block_to_cap scenario_bytes (by decide) (by decide) (by decide) (by decide)
      (Or.inl rfl) (AlwaysContinues.along_run scenario_bytes stub_bytes_continues)⟩

/-- C28 (amended): `bb_to_IR` does not write the jump kind. For every run
that returns, the main loop ended in the round from the state `s` it had
reached after `k` rounds: that round left the loop, there is no round after
it, so its call of the callback is the last of the `n_instrs = k + 1`
invocations, and the jump kind of the returned block is the one that call
left; when that call answered `Dis_Continue` the block was terminated at the
cap: the instruction count is `guest_max_insns` and only `next` was set, to
the constant `guest_IP_bbstart + delta`. The state of the last invocation is
determined by the run: whatever state the loop reached after `n_instrs - 1`
rounds, the returned jump kind is the one the call from it left. With a
callback that never changes the jump kind, the returned jump kind is the one
`emptyIRBB` gave the new block. -/
theorem forced_termination_keeps_jump_kind (a : BBArgs) (r : BBState)
    (h : bb_to_IR a = .done r) :
    (∃ k s s1, bb_rounds a k (bb_entry a) = some s
      ∧ bb_iter a s = .leave s1
      ∧ bb_done a 0 s1 = .done r
      ∧ bb_rounds a (k + 1) (bb_entry a) = none
      ∧ r.n_instrs = ((k + 1 : Nat) : Int)
      ∧ r.irbb.jumpkind = (bb_call a s).1.jumpkind
      ∧ ((bb_call a s).2.whatNext = .Dis_Continue →
          r.n_instrs = a.vex_control.guest_max_insns
          ∧ (bb_call a s).1.next = none
          ∧ r.irbb.next = some (.Const (guest_IRConst a.guest_word_type
              (toAddr64 ((a.guest_IP_bbstart : Int) + r.delta))))))
    ∧ (∀ k s, bb_rounds a k (bb_entry a) = some s → r.n_instrs = ((k + 1 : Nat) : Int) →
        r.irbb.jumpkind = (bb_call a s).1.jumpkind
        ∧ bb_rounds a (k + 1) (bb_entry a) = none)
    ∧ (KeepsJumpKind a.dis_instr_fn → r.irbb.jumpkind = emptyIRBB.jumpkind) := by
  obtain ⟨_, s1, hloop, hdone⟩ := bb_to_IR_done a r h
  obtain ⟨_, hni, hdl, hnx, hjk, _⟩ := bb_done_done a s1 r hdone
  obtain ⟨k, s, _, hr, hl⟩ := bb_loop_last_round a _ _ _ hloop
  obtain ⟨hcnt, hu1⟩ := bb_rounds_counts a k s hr
  have hnf : bb_iter a s ≠ .fatal := by
    rw [hl]
    exact Iter.noConfusion
  obtain ⟨hlt, _, _, _, irbb, hnext, _, _, hrest⟩ := bb_iter_not_fatal a s hnf
  have hl2 := hl
  rw [hrest] at hl2
  obtain ⟨_, _, _, hn1, _, hd1, _, _, _, hcase⟩ := bb_iter_rest_leave a s s1 irbb _ hl2
  have hjkr : r.irbb.jumpkind = (bb_call a s).1.jumpkind := by
    rw [hjk, bb_iter_jumpkind a s s1 (Or.inr hl)]
  have hnone := bb_rounds_succ_leave a k (bb_entry a) s s1 hr hl
  have hnr : r.n_instrs = ((k + 1 : Nat) : Int) := by
    rw [hni, hn1, hcnt]
    push_cast
    rfl
  refine ⟨⟨k, s, s1, hr, hl, hdone, hnone, hnr, hjkr, fun hw => ?_⟩, fun k2 s2 hr2 hn2 => ?_,
    fun hk => ?_⟩
  · rcases hcase with ⟨_, hnone2, hcap, hnew⟩ | ⟨hstop, _⟩
    · refine ⟨by omega, ?_, ?_⟩
      · rw [← hnext]
        cases hx : irbb.next with
        | none => rfl
        | some e => rw [hx] at hnone2; cases hnone2
      · rw [hnx, hnew, hdl, hd1]
    · rw [hw] at hstop
      cases hstop
  · have hk2 : k2 = k := by omega
    subst hk2
    rw [hr] at hr2
    injection hr2 with hr2
    subst hr2
    exact ⟨hjkr, hnone⟩
  · have key := bb_loop_induct a (fun t => t.irbb.jumpkind = emptyIRBB.jumpkind)
      (fun t => t.irbb.jumpkind = emptyIRBB.jumpkind)
      (fun t t2 hP hit => by
        show t2.irbb.jumpkind = _
        rw [bb_iter_jumpkind a t t2 (Or.inl hit)]
        unfold bb_call
        rw [hk]
        exact hP)
      (fun t t2 hP hit => by
        show t2.irbb.jumpkind = _
        rw [bb_iter_jumpkind a t t2 (Or.inr hit)]
        unfold bb_call
        rw [hk]
        exact hP)
      _ (bb_entry a) s1 (by
        unfold bb_entry
        cases a.do_self_check <;> cases a.do_set_NRADDR <;> rfl) hloop
    rw [hjk]
    exact key

theorem forced_termination_keeps_jump_kind_witness :
    (bb_to_IR scenario_call_kind = .done (bb_result scenario_call_kind)) ∧
    ((∃ k s s1, bb_rounds scenario_call_kind k (bb_entry scenario_call_kind) = some s
      ∧ bb_iter scenario_call_kind s = .leave s1
      ∧ bb_done scenario_call_kind 0 s1 = .done (bb_result scenario_call_kind)
      ∧ bb_rounds scenario_call_kind (k + 1) (bb_entry scenario_call_kind) = none
      ∧ (bb_result scenario_call_kind).n_instrs = ((k + 1 : Nat) : Int)
      ∧ (bb_result scenario_call_kind).irbb.jumpkind
          = (bb_call scenario_call_kind s).1.jumpkind
      ∧ ((bb_call scenario_call_kind s).2.whatNext = .Dis_Continue →
          (bb_result scenario_call_kind).n_instrs
              = scenario_call_kind.vex_control.guest_max_insns
          ∧ (bb_call scenario_call_kind s).1.next = none
          ∧ (bb_result scenario_call_kind).irbb.next
              = some (.Const (guest_IRConst scenario_call_kind.guest_word_type
                  (toAddr64 ((scenario_call_kind.guest_IP_bbstart : Int)
                    + (bb_result scenario_call_kind).delta))))))
    ∧ (∀ k s, bb_rounds scenario_call_kind k (bb_entry scenario_call_kind) = some s →
        (bb_result scenario_call_kind).n_instrs = ((k + 1 : Nat) : Int) →
        (bb_result scenario_call_kind).irbb.jumpkind
            = (bb_call scenario_call_kind s).1.jumpkind
        ∧ bb_rounds scenario_call_kind (k + 1) (bb_entry scenario_call_kind) = none)
    ∧ (KeepsJumpKind scenario_call_kind.dis_instr_fn
        → (bb_result scenario_call_kind).irbb.jumpkind = emptyIRBB.jumpkind)) :=
  ⟨rfl,
    forced_termination_keeps_jump_kind scenario_call_kind (bb_result scenario_call_kind) rfl⟩

end Valvex
